import Mathlib

/-!
Verification development for the Loan-Script-Library repository.

The repository is a Google-Apps-Script loan schedule engine.  Its balance
recalculation walks a row table (17 columns per row) in chronological order,
interleaves unscheduled payments, accrues interest under an actual-day or a
30/360 ("Periodic") convention, allocates due amounts and applies recorded
payments.  The repository contains two revisions of the recalculation engine:

* `src/LoanScript.js` (`BalanceManager.recalcAll`), embedded below with the
  `A` suffix, and
* `src/unnamed/part_001` (which delegates to `src/LoanHelpers.js`), embedded
  below with the `B` suffix / in the `LoanHelpers` namespace.

Dates are embedded as integers (day numbers): the JavaScript code only ever
uses day differences, "+1 day" and order comparisons of dates, all of which
are faithfully represented on ℤ.  Money amounts are embedded as ℚ.
Spreadsheet cells read through `|| 0` are embedded as plain ℚ fields (a blank
cell and a 0 cell are indistinguishable to the engine).
-/

namespace LoanLib

/-- One-millionth, the payoff / re-amortization epsilon `1e-6` / `0.000001`
used throughout the source. -/
def eps : ℚ := 1 / 1000000

/-! ## Date math (`src/LoanScript.js` helper functions) -/

/-- `daysBetween(startDate, endDate)` from `src/LoanScript.js`: the integer
number of days between two dates, on day numbers simply `e - s`. -/
def daysBetween (s e : ℤ) : ℤ := e - s

/-- `daysBetweenInclusive` from `src/LoanScript.js`: `daysBetween + 1`,
with no clamping. -/
def daysBetweenInclusive (s e : ℤ) : ℤ := daysBetween s e + 1

/-- `oneDayAfter` from `src/LoanScript.js`. -/
def oneDayAfter (d : ℤ) : ℤ := d + 1

/-- `calcUnpaidDays(periodStart, periodEnd, prepaidUntil)` from
`src/LoanScript.js`: inclusive day count from `periodStart` to `periodEnd`
minus any portion before `prepaidUntil`; an invalid/non-date `periodEnd`
(embedded as `none`) yields 0. -/
def calcUnpaidDays (periodStart : ℤ) (periodEnd : Option ℤ)
    (prepaidUntil : Option ℤ) : ℤ :=
  match periodEnd with
  | none => 0
  | some pe =>
    match prepaidUntil with
    | none => daysBetweenInclusive periodStart pe
    | some pu =>
      if pe < pu then 0
      else if pu ≤ periodStart then daysBetweenInclusive periodStart pe
      else daysBetweenInclusive pu pe

/-! ## Data model -/

/-- Payment frequency input (`I4`), either `"Single Period"` or `"Monthly"`. -/
inductive Freq where
  | singlePeriod
  | monthly
  deriving DecidableEq, Repr

/-- Day-count method input (`J4`), either `"Actual"` or `"Periodic"`. -/
inductive DayCount where
  | actual
  | periodic
  deriving DecidableEq, Repr

/-- The loan parameter object produced by `getAllInputs` and consumed by
`BalanceManager.recalcAll`.  `perDiemRate` and `monthlyRate` are carried as
fields exactly as on the JavaScript `inputs` object. -/
structure Params where
  principal : ℚ
  annualRate : ℚ
  closingDate : ℤ
  termMonths : ℤ
  paymentFreq : Freq
  dayCountMethod : DayCount
  daysPerYear : ℚ
  prorateFirst : Bool
  amortizeYN : Bool
  prepaidUntil : Option ℤ
  perDiemRate : ℚ
  monthlyRate : ℚ
  deriving DecidableEq, Repr

/-- One row of the schedule area, columns B..R of the sheet in order.  The
`period` cell is `none` when blank; date cells are `none` when blank or not a
valid date.  All money cells are read by the engine through `|| 0`, so they
are embedded as plain rationals. -/
structure Row where
  period : Option ℚ
  periodEnd : Option ℤ
  dueDate : Option ℤ
  days : ℚ
  paidOn : Option ℤ
  totalDue : ℚ
  totalPaid : ℚ
  principalDue : ℚ
  principalPaid : ℚ
  interestDue : ℚ
  interestPaid : ℚ
  feesDue : ℚ
  feesPaid : ℚ
  intBal : ℚ
  prinBal : ℚ
  totalBal : ℚ
  notes : String
  deriving DecidableEq, Repr

/-- The all-blank row (what reading an empty sheet row yields). -/
def blankRow : Row :=
  { period := none, periodEnd := none, dueDate := none, days := 0
    paidOn := none, totalDue := 0, totalPaid := 0, principalDue := 0
    principalPaid := 0, interestDue := 0, interestPaid := 0, feesDue := 0
    feesPaid := 0, intBal := 0, prinBal := 0, totalBal := 0, notes := "" }

/-- `Number.isInteger` on a rational. -/
def qIsInt (q : ℚ) : Bool := q.den == 1

/-- `Number.isInteger(periodVal)` for a period cell (false for a blank cell,
as in JavaScript where `Number.isInteger("")` is false). -/
def periodIsInt : Option ℚ → Bool
  | none => false
  | some q => qIsInt q

/-- The scheduled-row predicate of `separateRows` / `recalcAll`:
`Number.isInteger(periodVal) && periodEnd instanceof Date && !isNaN(periodEnd)`. -/
def isSchedRow (r : Row) : Bool := periodIsInt r.period && r.periodEnd.isSome

/-- The unscheduled-row predicate of `separateRows` / `recalcAll`:
`!Number.isInteger(periodVal) && paidOnVal instanceof Date && !isNaN(paidOnVal)`. -/
def isUnschedRow (r : Row) : Bool := !periodIsInt r.period && r.paidOn.isSome

/-- `isUnscheduledRow(rowArr)` from `src/LoanScript.js` (note: a different
test from the classifier): true when the period-end cell is blank or the
period cell is not an integer. -/
def isUnscheduledRowLS (r : Row) : Bool := !r.periodEnd.isSome || !periodIsInt r.period

/-- Number of rows "in use": the length of the longest prefix whose period
cell (column B) is non-blank, exactly the
`if (periodVal === "" && periodVal !== 0) break` loop of `recalcAll`. -/
def usedLen (t : List Row) : ℕ := (t.takeWhile fun r => r.period.isSome).length

/-! ## Stable chronological sort

The source sorts with JavaScript `Array.prototype.sort` and the comparator
`a.rowData[c] - b.rowData[c]`; ECMAScript guarantees this sort is stable, so
the result is the unique reordering that is ascending in the key with ties in
original order.  This is realized here by a stable insertion sort on row
indices. -/

/-- Stable insertion of index `i` into a key-sorted index list: `i` goes in
front of the first element whose key is not smaller (so in front of
equal-key elements that originate later in the table scan). -/
def insertIdxBy (key : ℕ → ℤ) (i : ℕ) : List ℕ → List ℕ
  | [] => [i]
  | j :: js => if key j < key i then j :: insertIdxBy key i js else i :: j :: js

/-- Stable sort of an index list by an integer key. -/
def sortIdxBy (key : ℕ → ℤ) : List ℕ → List ℕ
  | [] => []
  | i :: is => insertIdxBy key i (sortIdxBy key is)

/-- The classification loop of `separateRows` (`src/LoanHelpers.js`) and of
`BalanceManager.recalcAll` (`src/LoanScript.js`, identical logic): walk the
given row indices, route each to the scheduled or the unscheduled list, drop
rows satisfying neither predicate. -/
def classifyIdx (t : List Row) : List ℕ → List ℕ × List ℕ
  | [] => ([], [])
  | i :: rest =>
    let r := t.getD i blankRow
    let su := classifyIdx t rest
    if isSchedRow r then (i :: su.1, su.2)
    else if isUnschedRow r then (su.1, i :: su.2)
    else su

/-- Sort key of the scheduled list: the period-end date (column C). -/
def schedKey (t : List Row) (i : ℕ) : ℤ := (t.getD i blankRow).periodEnd.getD 0

/-- Sort key of the unscheduled list: the paid-on date (column F). -/
def unschedKey (t : List Row) (i : ℕ) : ℤ := (t.getD i blankRow).paidOn.getD 0

/-- `separateRows(allRows, count)` from `src/LoanHelpers.js` (the same
classification and sorting is inlined in `src/LoanScript.js` `recalcAll`):
returns the indices of the scheduled rows sorted by period-end date and the
indices of the unscheduled rows sorted by paid-on date, both stably. -/
def separateRows (t : List Row) (count : ℕ) : List ℕ × List ℕ :=
  let su := classifyIdx t (List.range count)
  (sortIdxBy (schedKey t) su.1, sortIdxBy (unschedKey t) su.2)

/-! ## Annuity split (IPMT/PPMT)

Modelled from the spec: `buildIpmtPpmtResults` and `reAmortizeFutureRows`
obtain the scheduled interest/principal split by writing `=-IPMT(...)` /
`=-PPMT(...)` spreadsheet formulas into scratch columns and reading the
computed values back; the annuity computation itself is performed by the
spreadsheet and is not part of the repository's source.  Spec §4.4 gives the
closed form: payment `A = P·i·(1+i)^n / ((1+i)^n − 1)` (or `P/n` if `i = 0`),
then `interest_k = balance_{k-1}·i`, `principal_k = A − interest_k`,
`balance_k = balance_{k-1} − principal_k`. -/
def annuityPayment (i : ℚ) (n : ℕ) (P : ℚ) : ℚ :=
  if i = 0 then (if n = 0 then 0 else P / (n : ℚ))
  else if (1 + i) ^ n - 1 = 0 then 0
  else P * i * (1 + i) ^ n / ((1 + i) ^ n - 1)

/-- Modelled from the spec (§4.4): the outstanding balance after `k` payments
of the annuity `annuityPayment i n P`. -/
def amortBalance (i : ℚ) (n : ℕ) (P : ℚ) : ℕ → ℚ
  | 0 => P
  | k + 1 =>
    amortBalance i n P k - (annuityPayment i n P - amortBalance i n P k * i)

/-- Modelled from the spec (§4.4): `-IPMT(i, k, n, P)`, the interest portion
of payment `k` of an `n`-period annuity on principal `P`. -/
def ipmtQ (i : ℚ) (k : ℕ) (n : ℕ) (P : ℚ) : ℚ := amortBalance i n P (k - 1) * i

/-- Modelled from the spec (§4.4): `-PPMT(i, k, n, P)`, the principal portion
of payment `k` of an `n`-period annuity on principal `P`. -/
def ppmtQ (i : ℚ) (k : ℕ) (n : ℕ) (P : ℚ) : ℚ := annuityPayment i n P - ipmtQ i k n P

/-- `buildIpmtPpmtResults` (identical in both engine revisions), interest
component: row `r` of the scratch column holds `-IPMT(monthlyRate, periodNum,
termMonths, principal)` when the row has an integer period in
`1..termMonths`, the loan is Monthly and amortizing, and `""` (read back as
0 through `|| 0`) otherwise. -/
def ipmtMapOf (p : Params) (t : List Row) (n : ℕ) (r : ℕ) : ℚ :=
  if p.amortizeYN = false then 0
  else
    match (t.getD r blankRow).period with
    | none => 0
    | some q =>
      if r < n ∧ qIsInt q = true ∧ p.paymentFreq = Freq.monthly ∧
          1 ≤ q ∧ q ≤ (p.termMonths : ℚ) then
        ipmtQ p.monthlyRate q.floor.toNat p.termMonths.toNat p.principal
      else 0

/-- `buildIpmtPpmtResults`, principal component (`-PPMT`), same gating as
`ipmtMapOf`. -/
def ppmtMapOf (p : Params) (t : List Row) (n : ℕ) (r : ℕ) : ℚ :=
  if p.amortizeYN = false then 0
  else
    match (t.getD r blankRow).period with
    | none => 0
    | some q =>
      if r < n ∧ qIsInt q = true ∧ p.paymentFreq = Freq.monthly ∧
          1 ≤ q ∧ q ≤ (p.termMonths : ℚ) then
        ppmtQ p.monthlyRate q.floor.toNat p.termMonths.toNat p.principal
      else 0

/-! ## The `src/LoanScript.js` revision of `BalanceManager.recalcAll`
(the "A" revision). -/

/-- The `dailyPeriodicRate` constant of `recalcAll`:
`monthlyInterestFactor / 30` where `monthlyInterestFactor` is
`annualRate * 30 / daysPerYear` when `daysPerYear` is non-zero (truthy) and
`monthlyRate` otherwise. -/
def dailyPeriodicRateOf (p : Params) : ℚ :=
  (if p.daysPerYear = 0 then p.monthlyRate else p.annualRate * 30 / p.daysPerYear) / 30

/-- The doubled clamping applied to a scaled 30/360 sub-interval day count:
`if (scaled > leftover) scaled = leftover; if (scaled < 0) scaled = 0;`
(identical inline code at all four accrual sites of the two revisions). -/
def clampScaled (scaled leftover : ℚ) : ℚ :=
  let s := if leftover < scaled then leftover else scaled
  if s < 0 then 0 else s

/-- The guard `isPeriodicMethod && isMonthly && Number.isInteger(periodNum)
&& periodNum >= 1` selecting the 30/360 accrual path for a row. -/
def isPerMonthlyRow (p : Params) (period : Option ℚ) : Bool :=
  p.dayCountMethod = DayCount.periodic && p.paymentFreq = Freq.monthly &&
    periodIsInt period && 1 ≤ period.getD 0

/-- The guarded accumulation step shared by the four 30/360 accrual sites:
`if (scaledDays > 0) { runningInterest += P*r*d; interestAccrued += P*r*d;
monthly30DaysUsed += scaledDays; }` on the triple
`(runningInterest, interestAccrued, monthly30DaysUsed)`. -/
def accrueStep (rp dpr ri accrued used scaled : ℚ) : ℚ × ℚ × ℚ :=
  if 0 < scaled then (ri + rp * dpr * scaled, accrued + rp * dpr * scaled, used + scaled)
  else (ri, accrued, used)

/-- Result of consuming the unscheduled payments that fall inside one
scheduled period (the `while` loop of revision A's `recalcAll`). -/
structure ConsumeRes where
  table : List Row
  unscheds : List ℕ
  subStart : ℤ
  used : ℚ
  accrued : ℚ
  unschedPaid : ℚ
  rp : ℚ
  ri : ℚ
  rf : ℚ
  deriving Repr

/-- The `while (unschedIndex < unscheduledRows.length && ... <= periodEnd)`
loop of revision A (`src/LoanScript.js` lines 606-659): for each unscheduled
row dated on or before the period end, accrue 30/360 interest up to its paid
date (Periodic+Monthly rows only; the Actual path accrues nothing here),
apply its fees due / interest paid / principal paid / fees paid to the
running balances (flooring at 0), stamp its total-paid and balance columns,
and advance the sub-interval start to the day after the payment. -/
def consumeA (p : Params) (perMonthly : Bool) (dpr : ℚ) (totalDays : ℤ)
    (periodEnd : ℤ) (table : List Row) (unscheds : List ℕ) (subStart : ℤ)
    (used accrued unschedPaid rp ri rf : ℚ) : ConsumeRes :=
  match unscheds with
  | [] =>
    { table := table, unscheds := [], subStart := subStart, used := used
      accrued := accrued, unschedPaid := unschedPaid, rp := rp, ri := ri, rf := rf }
  | u :: rest =>
    let paidOn := (table.getD u blankRow).paidOn.getD 0
    if paidOn ≤ periodEnd then
      let urow := table.getD u blankRow
      let acc :=
        if perMonthly then
          if subStart ≤ paidOn ∧ eps < rp then
            let raw := calcUnpaidDays subStart (some paidOn) p.prepaidUntil
            let raw := if raw < 0 then 0 else raw
            accrueStep rp dpr ri accrued used
              (clampScaled (30 * ((raw : ℚ) / (totalDays : ℚ))) (30 - used))
          else (ri, accrued, used)
        else (ri, accrued, used)
      let pdU := urow.principalPaid
      let idU := urow.interestPaid
      let fdU := urow.feesDue
      let fpU := urow.feesPaid
      let rf1 := rf + fdU
      let ri1 := max 0 (acc.1 - idU)
      let rp1 := max 0 (rp - pdU)
      let rf2 := max 0 (rf1 - fpU)
      let up1 := if 0 < pdU then unschedPaid + pdU else unschedPaid
      let table1 := table.set u
        { urow with totalPaid := pdU + idU + fpU, intBal := ri1, prinBal := rp1
                    totalBal := ri1 + rp1 + rf2 }
      consumeA p perMonthly dpr totalDays periodEnd table1 rest
        (oneDayAfter paidOn) acc.2.2 acc.2.1 up1 rp1 ri1 rf2
    else
      { table := table, unscheds := u :: rest, subStart := subStart, used := used
        accrued := accrued, unschedPaid := unschedPaid, rp := rp, ri := ri, rf := rf }

/-- The accrual of the remaining sub-interval `[subStart, periodEnd]` after
all unscheduled payments of the period (revision A lines 661-687).  Returns
the updated `(runningInterest, interestAccruedThisRow, monthly30DaysUsed)`. -/
def finalAccrualA (p : Params) (perMonthly : Bool) (dpr : ℚ) (totalDays : ℤ)
    (periodEnd : ℤ) (subStart : ℤ) (used accrued rp ri : ℚ) : ℚ × ℚ × ℚ :=
  if eps < rp ∧ subStart ≤ periodEnd then
    if perMonthly then
      let raw := calcUnpaidDays subStart (some periodEnd) p.prepaidUntil
      let raw := if raw < 0 then 0 else raw
      accrueStep rp dpr ri accrued used
        (clampScaled (30 * ((raw : ℚ) / (totalDays : ℚ))) (30 - used))
    else
      let partialDays := calcUnpaidDays subStart (some periodEnd) p.prepaidUntil
      if 0 < partialDays ∧ eps < rp then
        (ri + rp * p.perDiemRate * (partialDays : ℚ),
         accrued + rp * p.perDiemRate * (partialDays : ℚ), used)
      else (ri, accrued, used)
  else (ri, accrued, used)

/-- Result of the due-amount decision of revision A: the new interest due,
the new principal due, and the updated running interest. -/
structure DueRes where
  interestDue : ℚ
  principalDue : ℚ
  ri : ℚ
  deriving Repr

/-- The due-amount decision of revision A (`src/LoanScript.js` lines
689-759), computed for the current scheduled row before its payments are
applied.  `hasRAHere` is `hasReAmortized[rowIndex]`, `ipmtV`/`ppmtV` are
`ipmtMap[rowIndex]`/`ppmtMap[rowIndex]`, `rp`/`ri` the running balances
after this period's accrual, `accrued` the interest accrued this row and
`unschedPaid` the unscheduled principal paid this period. -/
def dueAmountsA (p : Params) (row : Row) (hasRAHere : Bool) (ipmtV ppmtV : ℚ)
    (rp ri accrued unschedPaid : ℚ) : DueRes :=
  let pInt := periodIsInt row.period
  let pq := row.period.getD 0
  if p.paymentFreq = Freq.singlePeriod then
    if pInt = true ∧ pq = (p.termMonths : ℚ) then
      { interestDue := ri, principalDue := rp, ri := ri }
    else
      { interestDue := 0, principalDue := 0, ri := ri }
  else if p.paymentFreq = Freq.monthly ∧ p.amortizeYN = true ∧ pInt = true ∧
      1 ≤ pq ∧ pq ≤ (p.termMonths : ℚ) then
    if 0 < unschedPaid then
      let ri1 := max 0 (ri - accrued)
      let schInt := if hasRAHere then row.interestDue else ipmtV
      let schPr := if hasRAHere then row.principalDue else ppmtV
      let payment := schInt + schPr
      let actual := if payment < accrued then payment else accrued
      { interestDue := actual, principalDue := payment - actual, ri := ri1 + actual }
    else if hasRAHere = false then
      let ri1 := max 0 (ri - accrued)
      { interestDue := ipmtV, principalDue := ppmtV, ri := ri1 + ipmtV }
    else
      let ri1 := max 0 (ri - accrued)
      { interestDue := row.interestDue, principalDue := row.principalDue
        ri := ri1 + row.interestDue }
  else if p.paymentFreq = Freq.monthly ∧ p.amortizeYN = false ∧ pInt = true ∧
      pq = (p.termMonths : ℚ) then
    { interestDue := ri, principalDue := rp, ri := ri }
  else if p.paymentFreq = Freq.monthly ∧ p.amortizeYN = false ∧ pInt = true ∧
      pq < (p.termMonths : ℚ) then
    { interestDue := accrued, principalDue := 0, ri := ri }
  else
    { interestDue := 0, principalDue := 0, ri := ri }

/-- The `while (lastFutureRow < lastUsedRowIndex)` scan of the re-amortize
trigger: starting at `i`, advance while the period cell is non-blank, with
at most `fuel` steps (`fuel` is `limit - i`). -/
def scanFutureEndAux (t : List Row) : ℕ → ℕ → ℕ
  | i, 0 => i
  | i, fuel + 1 =>
    if (t.getD i blankRow).period.isSome then scanFutureEndAux t (i + 1) fuel else i

/-- `lastFutureRow`: first blank-period row index in `[start, limit)`, or
`limit`. -/
def scanFutureEnd (t : List Row) (start limit : ℕ) : ℕ :=
  scanFutureEndAux t start (limit - start)

/-- The writing pass of `reAmortizeFutureRows` (both revisions carry the
same function; only revision A's `recalcAll` calls it): walk rows
`startRow..endRow-1`; rows with an integer period receive the fresh annuity
split `-IPMT` and `-PPMT` at `(monthlyRate, periodIndex, leftoverCount,
leftoverPrincipal)` while `periodIndex ≤ leftoverCount` (and zeros beyond),
and are flagged `hasReAmortized`; other rows are skipped.  `fuel` is
`endRow - startRow`. -/
def reAmortWalk (p : Params) (leftoverCount : ℤ) (leftoverPrincipal : ℚ) :
    List Row → List Bool → ℕ → ℤ → ℕ → List Row × List Bool
  | t, h, _, _, 0 => (t, h)
  | t, h, i, periodIndex, fuel + 1 =>
    let row := t.getD i blankRow
    if periodIsInt row.period then
      if periodIndex ≤ leftoverCount then
        let iVal := ipmtQ p.monthlyRate periodIndex.toNat leftoverCount.toNat leftoverPrincipal
        let pVal := ppmtQ p.monthlyRate periodIndex.toNat leftoverCount.toNat leftoverPrincipal
        let t1 := t.set i
          { row with principalDue := pVal, interestDue := iVal
                     totalDue := pVal + iVal + row.feesDue }
        reAmortWalk p leftoverCount leftoverPrincipal t1 (h.set i true) (i + 1)
          (periodIndex + 1) fuel
      else
        let t1 := t.set i
          { row with principalDue := 0, interestDue := 0, totalDue := 0 }
        reAmortWalk p leftoverCount leftoverPrincipal t1 (h.set i true) (i + 1)
          periodIndex fuel
    else reAmortWalk p leftoverCount leftoverPrincipal t h (i + 1) periodIndex fuel

/-- `reAmortizeFutureRows(schedule, startRow, endRow, leftoverCount,
leftoverPrincipal, params, hasReAmortized)`: no-op when `leftoverCount ≤ 0`
or `leftoverPrincipal ≤ 0.000001`, otherwise the walk above starting at
period index 1. -/
def reAmortizeFutureRows (p : Params) (t : List Row) (h : List Bool)
    (startRow endRow : ℕ) (leftoverCount : ℤ) (leftoverPrincipal : ℚ) :
    List Row × List Bool :=
  if leftoverCount ≤ 0 ∨ leftoverPrincipal ≤ eps then (t, h)
  else reAmortWalk p leftoverCount leftoverPrincipal t h startRow 1 (endRow - startRow)

/-- State threaded through revision A's pass over the scheduled rows. -/
structure AState where
  table : List Row
  hasRA : List Bool
  rp : ℚ
  ri : ℚ
  rf : ℚ
  unscheds : List ℕ
  lastEnd : ℤ
  deriving Repr

/-- The tail of one scheduled-row step of revision A after the unscheduled
payments of the period have been consumed (result `c`): accrue the tail
interest, decide and write the due amounts, apply the row's own payments
(flooring at 0), trigger re-amortization of all future rows when unscheduled
principal was paid this period, and write the ending balances; reset this
row's `hasReAmortized` flag. -/
def afterConsumeA (p : Params) (n : ℕ) (ipmtM ppmtM : ℕ → ℚ)
    (hasRA0 : List Bool) (idx : ℕ) (periodEnd : ℤ) (pq : ℚ)
    (perMonthly : Bool) (dpr : ℚ) (totalDays : ℤ) (c : ConsumeRes) : AState :=
  let fa := finalAccrualA p perMonthly dpr totalDays periodEnd c.subStart
    c.used c.accrued c.rp c.ri
  let hasRAHere := hasRA0.getD idx false
  let row1 := c.table.getD idx blankRow
  let d := dueAmountsA p row1 hasRAHere (ipmtM idx) (ppmtM idx) c.rp fa.1 fa.2.1
    c.unschedPaid
  let rf1 := c.rf + row1.feesDue
  let row2 :=
    { row1 with principalDue := d.principalDue, interestDue := d.interestDue
                totalDue := d.principalDue + d.interestDue + row1.feesDue }
  let ri1 := max 0 (d.ri - row1.interestPaid)
  let rp1 := max 0 (c.rp - row1.principalPaid)
  let rf2 := max 0 (rf1 - row1.feesPaid)
  let row3 :=
    { row2 with totalPaid := row1.principalPaid + row1.interestPaid + row1.feesPaid }
  let table2 := c.table.set idx row3
  let th :=
    if p.paymentFreq = Freq.monthly ∧ ¬ p.paymentFreq = Freq.singlePeriod ∧
        isUnscheduledRowLS row3 = false ∧ p.amortizeYN = true ∧ 0 < c.unschedPaid then
      let lastFuture := scanFutureEnd table2 (idx + 1) n
      let periodsLeft := p.termMonths - pq.floor
      if 0 < periodsLeft then
        reAmortizeFutureRows p table2 hasRA0 (idx + 1) lastFuture periodsLeft rp1
      else (table2, hasRA0)
    else (table2, hasRA0)
  let rowF := th.1.getD idx blankRow
  let table4 := th.1.set idx
    { rowF with intBal := ri1, prinBal := rp1, totalBal := ri1 + rp1 + rf2 }
  { table := table4, hasRA := th.2.set idx false, rp := rp1, ri := ri1, rf := rf2
    unscheds := c.unscheds, lastEnd := periodEnd }

/-- Processing of one scheduled row in revision A's `recalcAll`
(`src/LoanScript.js` lines 576-815): set up the 30/360 period-day budget and
the sub-interval start, consume the unscheduled payments due inside the
period, then run `afterConsumeA`. -/
def processRowA (p : Params) (n : ℕ) (ipmtM ppmtM : ℕ → ℚ) (st : AState)
    (idx : ℕ) : AState :=
  let row := st.table.getD idx blankRow
  let periodEnd := row.periodEnd.getD 0
  let pq := row.period.getD 0
  let perMonthly := isPerMonthlyRow p row.period
  let dpr := dailyPeriodicRateOf p
  let totalDays : ℤ :=
    if perMonthly then
      let raw := calcUnpaidDays (oneDayAfter st.lastEnd) (some periodEnd) p.prepaidUntil
      if raw < 1 then 30 else raw
    else 30
  let subStart0 : ℤ :=
    if periodIsInt row.period = true ∧ pq = 0 ∧ p.prorateFirst = true then st.lastEnd
    else oneDayAfter st.lastEnd
  let subStart1 : ℤ :=
    if perMonthly = true ∧ subStart0 < st.lastEnd then st.lastEnd else subStart0
  afterConsumeA p n ipmtM ppmtM st.hasRA idx periodEnd pq perMonthly dpr totalDays
    (consumeA p perMonthly dpr totalDays periodEnd st.table st.unscheds
      subStart1 0 0 0 st.rp st.ri st.rf)

/-- The fold of revision A's pass over the chronologically sorted scheduled
rows. -/
def recalcPassA (p : Params) (n : ℕ) (ipmtM ppmtM : ℕ → ℚ) :
    AState → List ℕ → AState
  | st, [] => st
  | st, i :: rest => recalcPassA p n ipmtM ppmtM (processRowA p n ipmtM ppmtM st i) rest

/-- `BalanceManager.recalcAll` of `src/LoanScript.js` (revision A) as a
function from the loan parameters and the schedule-area row table to the
updated row table: determine the used prefix, classify and sort the rows,
build the IPMT/PPMT maps, and run the chronological pass starting from
`runningPrincipal = principal`, zero interest and fees, and
`lastEndDate = closingDate`.  When no rows are in use the table is returned
unchanged. -/
def recalcAllA (p : Params) (t : List Row) : List Row :=
  let n := usedLen t
  if n = 0 then t
  else
    let su := separateRows t n
    let st0 : AState :=
      { table := t, hasRA := List.replicate n false, rp := p.principal, ri := 0
        rf := 0, unscheds := su.2, lastEnd := p.closingDate }
    (recalcPassA p n (ipmtMapOf p t n) (ppmtMapOf p t n) st0 su.1).table

/-! ## The `src/LoanHelpers.js` helpers used by the `src/unnamed/part_001`
revision ("B" revision). -/

namespace LoanHelpers

/-- `daysBetweenInclusive` from `src/LoanHelpers.js`: unlike the
`src/LoanScript.js` function of the same name, this one clamps at 0 when the
end date precedes the start date. -/
def daysBetweenInclusive (s e : ℤ) : ℤ := if e < s then 0 else (e - s) + 1

/-- `computeAccrualDays(periodStart, periodEnd, prepaidUntil)` from
`src/LoanHelpers.js`. -/
def computeAccrualDays (periodStart : ℤ) (periodEnd : Option ℤ)
    (prepaidUntil : Option ℤ) : ℤ :=
  match periodEnd with
  | none => 0
  | some pe =>
    match prepaidUntil with
    | none => daysBetweenInclusive periodStart pe
    | some pu =>
      if pe < pu then 0
      else if pu ≤ periodStart then daysBetweenInclusive periodStart pe
      else daysBetweenInclusive pu pe

/-- Result of `applyUnscheduledPaymentsForPeriod`, with the final value of
the local 30-day budget accumulator `monthly30DaysUsed` also exposed. -/
structure UnschedRes where
  table : List Row
  runningPrincipal : ℚ
  runningInterest : ℚ
  runningFees : ℚ
  unscheds : List ℕ
  interestAccrued : ℚ
  unscheduledPrincipalPaid : ℚ
  monthly30DaysUsed : ℚ
  deriving Repr

/-- The `while` loop of `applyUnscheduledPaymentsForPeriod`
(`src/LoanHelpers.js` lines 98-148): consume unscheduled rows with a paid-on
date on or before `periodEnd`, accruing 30/360 interest for the sub-interval
before each payment (Periodic+Monthly rows only), applying the payment to the
running balances (flooring at 0) and stamping the unscheduled row. -/
def consumeH (p : Params) (perMonthly : Bool) (dpr : ℚ) (totalDays : ℤ)
    (periodEnd : ℤ) (table : List Row) (unscheds : List ℕ) (subStart : ℤ)
    (used accrued unschedPaid rp ri rf : ℚ) : ConsumeRes :=
  match unscheds with
  | [] =>
    { table := table, unscheds := [], subStart := subStart, used := used
      accrued := accrued, unschedPaid := unschedPaid, rp := rp, ri := ri, rf := rf }
  | u :: rest =>
    let paidOn := (table.getD u blankRow).paidOn.getD 0
    if paidOn ≤ periodEnd then
      let urow := table.getD u blankRow
      let acc :=
        if perMonthly then
          if subStart ≤ paidOn ∧ eps < rp then
            let raw := computeAccrualDays subStart (some paidOn) p.prepaidUntil
            let raw := if 0 < raw then raw else 0
            accrueStep rp dpr ri accrued used
              (clampScaled (30 * ((raw : ℚ) / (totalDays : ℚ))) (30 - used))
          else (ri, accrued, used)
        else (ri, accrued, used)
      let pdU := urow.principalPaid
      let idU := urow.interestPaid
      let fdU := urow.feesDue
      let fpU := urow.feesPaid
      let rf1 := rf + fdU
      let ri1 := max 0 (acc.1 - idU)
      let rp1 := max 0 (rp - pdU)
      let rf2 := max 0 (rf1 - fpU)
      let up1 := if 0 < pdU then unschedPaid + pdU else unschedPaid
      let table1 := table.set u
        { urow with totalPaid := pdU + idU + fpU, intBal := ri1, prinBal := rp1
                    totalBal := ri1 + rp1 + rf2 }
      consumeH p perMonthly dpr totalDays periodEnd table1 rest
        (oneDayAfter paidOn) acc.2.2 acc.2.1 up1 rp1 ri1 rf2
    else
      { table := table, unscheds := u :: rest, subStart := subStart, used := used
        accrued := accrued, unschedPaid := unschedPaid, rp := rp, ri := ri, rf := rf }

/-- The accrual of the remaining sub-interval `[subStart, periodEnd]` after
the unscheduled payments of the period, inside
`applyUnscheduledPaymentsForPeriod` (`src/LoanHelpers.js` lines 150-174):
scaled-and-clamped 30/360 days on the Periodic+Monthly path, per-diem days
otherwise. -/
def finalAccrualH (p : Params) (perMonthly : Bool) (dpr : ℚ) (totalDays : ℤ)
    (periodEnd : ℤ) (subStart : ℤ) (used accrued rp ri : ℚ) : ℚ × ℚ × ℚ :=
  if eps < rp ∧ subStart ≤ periodEnd then
    if perMonthly then
      let raw := computeAccrualDays subStart (some periodEnd) p.prepaidUntil
      let raw := if 0 < raw then raw else 0
      accrueStep rp dpr ri accrued used
        (clampScaled (30 * ((raw : ℚ) / (totalDays : ℚ))) (30 - used))
    else
      let partialDays := computeAccrualDays subStart (some periodEnd) p.prepaidUntil
      if 0 < partialDays ∧ eps < rp then
        (ri + rp * p.perDiemRate * (partialDays : ℚ),
         accrued + rp * p.perDiemRate * (partialDays : ℚ), used)
      else (ri, accrued, used)
  else (ri, accrued, used)

/-- `applyUnscheduledPaymentsForPeriod(periodNum, periodStart, periodEnd,
params, unscheduledRows, startUnschedIndex, runningPrincipal,
runningInterest, runningFees)` from `src/LoanHelpers.js`: determine the
30/360 day budget of the period, consume the unscheduled payments inside
the period, then accrue the tail interest through `finalAccrualH`. -/
def applyUnscheduledPaymentsForPeriod (p : Params) (periodNum : Option ℚ)
    (periodStart periodEnd : ℤ) (table : List Row) (unscheds : List ℕ)
    (rp ri rf : ℚ) : UnschedRes :=
  let perMonthly := isPerMonthlyRow p periodNum
  let dpr := if p.dayCountMethod = DayCount.periodic ∧ p.paymentFreq = Freq.monthly
    then dailyPeriodicRateOf p else p.perDiemRate
  let totalDays : ℤ :=
    if perMonthly then
      let raw := computeAccrualDays periodStart (some periodEnd) p.prepaidUntil
      if raw < 1 then 30 else raw
    else 30
  let c := consumeH p perMonthly dpr totalDays periodEnd table unscheds
    periodStart 0 0 0 rp ri rf
  let fin := finalAccrualH p perMonthly dpr totalDays periodEnd c.subStart
    c.used c.accrued c.rp c.ri
  { table := c.table, runningPrincipal := c.rp, runningInterest := fin.1
    runningFees := c.rf, unscheds := c.unscheds, interestAccrued := fin.2.1
    unscheduledPrincipalPaid := c.unschedPaid, monthly30DaysUsed := fin.2.2 }

/-- Result of `calculateDueAmounts`. -/
structure DueAmounts where
  newPrincipalDue : ℚ
  newInterestDue : ℚ
  deriving DecidableEq, Repr

/-- `calculateDueAmounts(periodNum, rowIndex, params, interestAccrued,
scheduledInt, scheduledPr, hadExtraPaymentBefore, extraPaymentThisPeriod,
wasReAmortized, rowData)` from `src/LoanHelpers.js`: the due-amount decision
of the B revision.  `rowData` supplies the previously stored due columns for
the already-re-amortized branch. -/
def calculateDueAmounts (periodNum : Option ℚ) (rowIndex : ℕ) (p : Params)
    (interestAccrued scheduledInt scheduledPr : ℚ)
    (hadExtraPaymentBefore extraPaymentThisPeriod wasReAmortized : Bool)
    (rowData : Row) : DueAmounts :=
  let pInt := periodIsInt periodNum
  let pq := periodNum.getD 0
  if p.paymentFreq = Freq.singlePeriod then
    if pInt = true ∧ pq = (p.termMonths : ℚ) then
      { newPrincipalDue := p.principal, newInterestDue := interestAccrued }
    else
      { newPrincipalDue := 0, newInterestDue := 0 }
  else if p.paymentFreq = Freq.monthly ∧ p.amortizeYN = true ∧ pInt = true ∧
      1 ≤ pq ∧ pq ≤ (p.termMonths : ℚ) then
    if extraPaymentThisPeriod then
      let payment := scheduledInt + scheduledPr
      let nid := if payment < interestAccrued then payment else interestAccrued
      { newPrincipalDue := payment - nid, newInterestDue := nid }
    else if hadExtraPaymentBefore then
      let payment := scheduledInt + scheduledPr
      let nid := if payment < interestAccrued then payment else interestAccrued
      { newPrincipalDue := payment - nid, newInterestDue := nid }
    else if wasReAmortized = false then
      { newPrincipalDue := scheduledPr, newInterestDue := scheduledInt }
    else
      { newPrincipalDue := rowData.principalDue, newInterestDue := rowData.interestDue }
  else if p.paymentFreq = Freq.monthly ∧ p.amortizeYN = false ∧ pInt = true then
    if pq = (p.termMonths : ℚ) then
      { newPrincipalDue := p.principal, newInterestDue := interestAccrued }
    else
      { newPrincipalDue := 0, newInterestDue := interestAccrued }
  else
    { newPrincipalDue := 0, newInterestDue := interestAccrued }

end LoanHelpers

/-! ## The `src/unnamed/part_001` revision of `BalanceManager.recalcAll`
(the "B" revision).

This revision classifies through `LoanHelpers.separateRows`, accrues and
consumes through `LoanHelpers.applyUnscheduledPaymentsForPeriod`, allocates
through `LoanHelpers.calculateDueAmounts`, and adds an early-payoff `break`.
Two of its statements reference identifiers that are not in scope when they
are evaluated — `logger.log(...)` at the top of `recalcAll` (`logger` is
defined nowhere in the project; the Apps Script global is `Logger`), and
`for (let j = i; ...)` in the early-payoff fill, which reads the loop
variable `i` of a `let`-scoped `for` statement after that loop has ended —
so evaluation is embedded in `Except JsError`. -/

/-- A JavaScript `ReferenceError` (dereference of an undefined identifier). -/
inductive JsError where
  | referenceError
  deriving DecidableEq, Repr

/-- State threaded through revision B's pass over the scheduled rows. -/
structure BState where
  table : List Row
  hasRA : List Bool
  rp : ℚ
  ri : ℚ
  rf : ℚ
  unscheds : List ℕ
  lastEnd : ℤ
  extraPaid : Bool
  deriving Repr

/-- Processing of one scheduled row in revision B (`src/unnamed/part_001`
lines 570-666) up to and including the early-payoff test: returns the
updated state and whether the `runningPrincipal <= 1e-6` break fired.  On a
break the row's ending balance columns are not written and `lastEndDate` is
not advanced (the `break` skips those statements). -/
def processRowB (p : Params) (ipmtM ppmtM : ℕ → ℚ) (st : BState) (idx : ℕ) :
    BState × Bool :=
  let row := st.table.getD idx blankRow
  let periodEnd := row.periodEnd.getD 0
  let pq := row.period.getD 0
  let periodStart0 : ℤ :=
    if periodIsInt row.period = true ∧ pq = 0 ∧ p.prorateFirst = true then st.lastEnd
    else oneDayAfter st.lastEnd
  let periodStart : ℤ :=
    if p.dayCountMethod = DayCount.periodic ∧ p.paymentFreq = Freq.monthly ∧
        periodIsInt row.period = true ∧ 1 ≤ pq ∧ periodStart0 < st.lastEnd
    then st.lastEnd else periodStart0
  let r := LoanHelpers.applyUnscheduledPaymentsForPeriod p row.period periodStart
    periodEnd st.table st.unscheds st.rp st.ri st.rf
  let extra1 := st.extraPaid || decide (0 < r.unscheduledPrincipalPaid)
  let d := LoanHelpers.calculateDueAmounts row.period idx p r.interestAccrued
    (ipmtM idx) (ppmtM idx) extra1 (0 < r.unscheduledPrincipalPaid)
    (st.hasRA.getD idx false) row
  let row1 := r.table.getD idx blankRow
  let row2 :=
    { row1 with principalDue := d.newPrincipalDue, interestDue := d.newInterestDue
                totalDue := d.newPrincipalDue + d.newInterestDue + row1.feesDue }
  let rf1 := r.runningFees + row1.feesDue
  let ri1 := max 0 (r.runningInterest - row1.interestPaid)
  let rp1 := max 0 (r.runningPrincipal - row1.principalPaid)
  let rf2 := max 0 (rf1 - row1.feesPaid)
  let row3 :=
    { row2 with totalPaid := row1.principalPaid + row1.interestPaid + row1.feesPaid }
  let table2 := r.table.set idx row3
  if rp1 ≤ eps then
    ({ table := table2, hasRA := st.hasRA, rp := rp1, ri := ri1, rf := rf2
       unscheds := r.unscheds, lastEnd := st.lastEnd, extraPaid := extra1 }, true)
  else
    let extra2 := extra1 || decide (row3.principalDue < row1.principalPaid)
    let row4 := { row3 with intBal := ri1, prinBal := rp1, totalBal := ri1 + rp1 + rf2 }
    ({ table := table2.set idx row4, hasRA := st.hasRA.set idx false, rp := rp1
       ri := ri1, rf := rf2, unscheds := r.unscheds, lastEnd := periodEnd
       extraPaid := extra2 }, false)

/-- The pass of revision B over the sorted scheduled rows, stopping at the
early-payoff `break`; returns the final state and the `loanPaidOff` flag. -/
def recalcPassB (p : Params) (ipmtM ppmtM : ℕ → ℚ) :
    BState → List ℕ → BState × Bool
  | st, [] => (st, false)
  | st, i :: rest =>
    let sb := processRowB p ipmtM ppmtM st i
    if sb.2 then (sb.1, true) else recalcPassB p ipmtM ppmtM sb.1 rest

/-- Revision B's `recalcAll` body from the classification step onwards,
i.e. what the procedure would do if its two dead `logger.log(...)`
statements were absent: run the pass, and on early payoff evaluate the
zero-fill loop `for (let j = i; ...)`, whose head dereferences the loop
variable `i` outside the scope of its `let` binding — a `ReferenceError`,
so no row of the zeroing (and no write-back) ever happens. -/
def recalcBodyB (p : Params) (t : List Row) : Except JsError (List Row) :=
  let n := usedLen t
  if n = 0 then Except.ok t
  else
    let su := separateRows t n
    let st0 : BState :=
      { table := t, hasRA := List.replicate n false, rp := p.principal, ri := 0
        rf := 0, unscheds := su.2, lastEnd := p.closingDate, extraPaid := false }
    let res := recalcPassB p (ipmtMapOf p t n) (ppmtMapOf p t n) st0 su.1
    if res.2 then Except.error JsError.referenceError
    else Except.ok res.1.table

/-- Revision B's `recalcAll` (`src/unnamed/part_001` lines 520-683) as it
actually evaluates: after the empty-table early return, the next statement
executed is `logger.log('LoanHelpers:', LoanHelpers)`, and `logger` is an
undefined identifier (no file of the project defines it; the Apps Script
global is `Logger`), so every invocation on a non-empty table throws a
`ReferenceError` before any row is processed or written. -/
def recalcAllB (p : Params) (t : List Row) : Except JsError (List Row) :=
  let n := usedLen t
  if n = 0 then Except.ok t
  else Except.error JsError.referenceError

/-! ## Concrete loan fixtures used by counterexamples and witnesses -/

/-- A scheduled row with the given period number and period-end day. -/
def mkSched (pn : ℚ) (pe : ℤ) : Row :=
  { blankRow with period := some pn, periodEnd := some pe }

/-- An unscheduled row: fractional period number, a paid-on day, and a
principal payment. -/
def mkUnsched (pn : ℚ) (d : ℤ) (pp : ℚ) : Row :=
  { blankRow with period := some pn, paidOn := some d, principalPaid := pp }

/-- A 2-month monthly amortizing loan of 100 at rate 0 (Periodic/360). -/
def pTwoMonth : Params :=
  { principal := 100, annualRate := 0, closingDate := 0, termMonths := 2
    paymentFreq := Freq.monthly, dayCountMethod := DayCount.periodic
    daysPerYear := 360, prorateFirst := false, amortizeYN := true
    prepaidUntil := none, perDiemRate := 0, monthlyRate := 0 }

/-- Schedule for `pTwoMonth` in which period 1 records a principal payment
of 60 on the scheduled row itself and there is no unscheduled row. -/
def tOwnPaid : List Row :=
  [ { mkSched 1 30 with principalPaid := 60 }, mkSched 2 60 ]

/-- Schedule for `pTwoMonth` in which the 60 of principal is instead paid
through an unscheduled row dated inside period 1. -/
def tUnschedPaid : List Row :=
  [ mkSched 1 30, mkUnsched (3 / 2) 10 60, mkSched 2 60 ]

/-- A 2-period Single-Period loan of 1000, per-diem rate 1/1000
(getAllInputs forces `dayCountMethod = Actual` and `amortize = No` for
Single Period loans). -/
def pSingle : Params :=
  { principal := 1000, annualRate := 1, closingDate := 0, termMonths := 2
    paymentFreq := Freq.singlePeriod, dayCountMethod := DayCount.actual
    daysPerYear := 1000, prorateFirst := false, amortizeYN := false
    prepaidUntil := none, perDiemRate := 1 / 1000, monthlyRate := 1 / 12 }

/-- Schedule for `pSingle`: period 1 (day 1..10, accruing 10 of interest)
records an interest payment of 5; period 2 (day 11..20) accrues 10 more. -/
def tSingle : List Row :=
  [ { mkSched 1 10 with interestPaid := 5 }, mkSched 2 20 ]

/-- A 1-month monthly interest-only loan of 100 at rate 0. -/
def pPayoff : Params :=
  { principal := 100, annualRate := 0, closingDate := 0, termMonths := 1
    paymentFreq := Freq.monthly, dayCountMethod := DayCount.actual
    daysPerYear := 0, prorateFirst := false, amortizeYN := false
    prepaidUntil := none, perDiemRate := 0, monthlyRate := 0 }

/-- Schedule for `pPayoff` whose single row pays the full 100 of principal,
so revision B's early-payoff branch fires. -/
def tPayoff : List Row := [ { mkSched 1 30 with principalPaid := 100 } ]

/-- Fully-reduced form of `Int.toNat 2`, for closed-term evaluation. -/
theorem intToNat_two : Int.toNat 2 = 2 := rfl

/-- Fully-reduced form of `Int.toNat 1`, for closed-term evaluation. -/
theorem intToNat_one : Int.toNat 1 = 1 := rfl

/-- Fully-reduced form of the remaining-period count `2 − ⌊1⌋` of the
two-month fixtures, for closed-term evaluation. -/
theorem floor_count_two_one : (2 - Rat.floor 1).toNat = 1 := rfl

/-! ## C8: the unpaid-days function -/

/-- C8: for every period start date, period end date and optional
`prepaidUntil` date, `calcUnpaidDays` returns 0 when the end date is before
`prepaidUntil`; the full inclusive day count (`daysBetween + 1`) when
`prepaidUntil` is absent or the start date is on/after `prepaidUntil`; and
otherwise the inclusive day count from `prepaidUntil` to the end date.  An
invalid/non-date end date yields 0. -/
theorem calcUnpaidDays_spec :
    (∀ s pu, calcUnpaidDays s none pu = 0) ∧
    (∀ s e, calcUnpaidDays s (some e) none = daysBetween s e + 1) ∧
    (∀ s e u, e < u → calcUnpaidDays s (some e) (some u) = 0) ∧
    (∀ s e u, ¬ e < u → u ≤ s →
      calcUnpaidDays s (some e) (some u) = daysBetween s e + 1) ∧
    (∀ s e u, ¬ e < u → ¬ u ≤ s →
      calcUnpaidDays s (some e) (some u) = daysBetween u e + 1) := by
  refine ⟨fun s pu => rfl, fun s e => rfl, ?_, ?_, ?_⟩
  · intro s e u h
    simp [calcUnpaidDays, h]
  · intro s e u h h'
    simp [calcUnpaidDays, daysBetweenInclusive, h, h']
  · intro s e u h h'
    simp [calcUnpaidDays, daysBetweenInclusive, h, h']

/-- Witness for C8 at concrete dates: end day 1 before a prepaid-until of 5
gives 0; end day 9 with start 0 and prepaid-until 5 gives the inclusive
count 5 from day 5 to day 9. -/
theorem calcUnpaidDays_spec_witness :
    calcUnpaidDays 0 (some 1) (some 5) = 0 ∧
    calcUnpaidDays 0 (some 9) (some 5) = 5 := by
  constructor
  · exact calcUnpaidDays_spec.2.2.1 0 1 5 (by norm_num)
  · have h := calcUnpaidDays_spec.2.2.2.2 0 9 5 (by norm_num) (by norm_num)
    simpa [daysBetween] using h

/-! ## C3: the re-split after an extra principal payment -/

/-- C3: for a Monthly amortizing loan and any integer period number between
1 and `termMonths`, if an extra principal payment occurred this period or in
any earlier period, `calculateDueAmounts` returns `interestDue =
min(interestAccrued, scheduledInt + scheduledPr)` and `principalDue =
(scheduledInt + scheduledPr) − interestDue`; in particular the two dues sum
to the originally scheduled payment and `principalDue` is never negative. -/
theorem extra_payment_resplit (p : Params) (q : ℚ) (rowIndex : ℕ)
    (acc si sp : ℚ) (extraBefore extraThis wasRA : Bool) (rd : Row)
    (hf : p.paymentFreq = Freq.monthly) (ha : p.amortizeYN = true)
    (hi : qIsInt q = true) (h1 : 1 ≤ q) (h2 : q ≤ (p.termMonths : ℚ))
    (hx : extraThis = true ∨ extraBefore = true) :
    (LoanHelpers.calculateDueAmounts (some q) rowIndex p acc si sp
        extraBefore extraThis wasRA rd).newInterestDue = min acc (si + sp) ∧
    (LoanHelpers.calculateDueAmounts (some q) rowIndex p acc si sp
        extraBefore extraThis wasRA rd).newPrincipalDue
      = (si + sp) - min acc (si + sp) ∧
    (LoanHelpers.calculateDueAmounts (some q) rowIndex p acc si sp
        extraBefore extraThis wasRA rd).newInterestDue
      + (LoanHelpers.calculateDueAmounts (some q) rowIndex p acc si sp
          extraBefore extraThis wasRA rd).newPrincipalDue = si + sp ∧
    0 ≤ (LoanHelpers.calculateDueAmounts (some q) rowIndex p acc si sp
        extraBefore extraThis wasRA rd).newPrincipalDue := by
  have hne : ¬ p.paymentFreq = Freq.singlePeriod := by
    rw [hf]; intro h; cases h
  have hmin : (if si + sp < acc then si + sp else acc) = min acc (si + sp) := by
    rcases le_or_lt acc (si + sp) with h | h
    · rw [if_neg (not_lt.mpr h), min_eq_left h]
    · rw [if_pos h, min_eq_right h.le]
  have key : LoanHelpers.calculateDueAmounts (some q) rowIndex p acc si sp
      extraBefore extraThis wasRA rd
      = { newPrincipalDue := (si + sp) - min acc (si + sp)
          newInterestDue := min acc (si + sp) } := by
    unfold LoanHelpers.calculateDueAmounts
    rw [if_neg hne,
      if_pos ⟨hf, ha, by simpa [periodIsInt] using hi, h1, h2⟩]
    rcases hx with h | h
    · simp only [h, if_pos, hmin, if_true]
    · rcases Bool.eq_false_or_eq_true extraThis with h' | h'
      · simp [h, h', hmin]
      · simp [h, h', hmin]
  rw [key]
  refine ⟨rfl, rfl, by ring, ?_⟩
  exact sub_nonneg.mpr (min_le_right acc (si + sp))

/-- Witness for C3 at a concrete call: `pTwoMonth`, period 1, interest
accrued 20 against a 30 + 70 scheduled split, extra payment this period. -/
theorem extra_payment_resplit_witness :
    (LoanHelpers.calculateDueAmounts (some 1) 0 pTwoMonth 20 30 70
        false true false blankRow).newInterestDue = min 20 (30 + 70) ∧
    (LoanHelpers.calculateDueAmounts (some 1) 0 pTwoMonth 20 30 70
        false true false blankRow).newPrincipalDue
      = (30 + 70) - min 20 (30 + 70) ∧
    (LoanHelpers.calculateDueAmounts (some 1) 0 pTwoMonth 20 30 70
        false true false blankRow).newInterestDue
      + (LoanHelpers.calculateDueAmounts (some 1) 0 pTwoMonth 20 30 70
          false true false blankRow).newPrincipalDue = 30 + 70 ∧
    0 ≤ (LoanHelpers.calculateDueAmounts (some 1) 0 pTwoMonth 20 30 70
        false true false blankRow).newPrincipalDue :=
  extra_payment_resplit pTwoMonth 1 0 20 30 70 false true false blankRow
    rfl rfl (by norm_num [qIsInt]) (by norm_num) (by norm_num [pTwoMonth])
    (Or.inl rfl)

/-! ## Helper lemmas on table updates -/

/-- Reading an index other than the one written. -/
theorem getD_set_ne (t : List Row) (u j : ℕ) (r : Row) (h : j ≠ u) :
    (t.set u r).getD j blankRow = t.getD j blankRow := by
  simp [List.getD_eq_getElem?_getD, List.getElem?_set_ne (Ne.symm h)]

/-- Reading the written index (within bounds). -/
theorem getD_set_self (t : List Row) (u : ℕ) (r : Row) (h : u < t.length) :
    (t.set u r).getD u blankRow = r := by
  simp [List.getD_eq_getElem?_getD, List.getElem?_set_self h]

/-- Writing out of bounds is a no-op. -/
theorem set_oob (t : List Row) (u : ℕ) (r : Row) (h : t.length ≤ u) :
    t.set u r = t :=
  List.set_eq_of_length_le h

/-- A write that preserves the three due columns of the written row
preserves the due columns at every index. -/
theorem dues_getD_set (t : List Row) (u j : ℕ) (r : Row)
    (h1 : r.principalDue = (t.getD u blankRow).principalDue)
    (h2 : r.interestDue = (t.getD u blankRow).interestDue)
    (h3 : r.totalDue = (t.getD u blankRow).totalDue) :
    ((t.set u r).getD j blankRow).principalDue = (t.getD j blankRow).principalDue ∧
    ((t.set u r).getD j blankRow).interestDue = (t.getD j blankRow).interestDue ∧
    ((t.set u r).getD j blankRow).totalDue = (t.getD j blankRow).totalDue := by
  rcases eq_or_ne j u with rfl | hne
  · rcases lt_or_le j t.length with hlt | hle
    · rw [getD_set_self t j r hlt]
      exact ⟨h1, h2, h3⟩
    · rw [set_oob t j r hle]
      exact ⟨rfl, rfl, rfl⟩
  · rw [getD_set_ne t u j r hne]
    exact ⟨rfl, rfl, rfl⟩

/-! ## C2: what triggers re-amortization in revision A -/

/-- The consume loop accumulates unscheduled principal only from consumed
unscheduled rows with positive `principalPaid`: when every pending
unscheduled row's `principalPaid` is non-positive, `unschedPaid` keeps its
incoming value. -/
theorem consumeA_unschedPaid_nonpos (p : Params) (perMonthly : Bool) (dpr : ℚ)
    (totalDays : ℤ) (periodEnd : ℤ) (unscheds : List ℕ) :
    ∀ (table : List Row) (subStart : ℤ) (used accrued unschedPaid rp ri rf : ℚ),
      (∀ u ∈ unscheds, (table.getD u blankRow).principalPaid ≤ 0) →
      (consumeA p perMonthly dpr totalDays periodEnd table unscheds subStart
        used accrued unschedPaid rp ri rf).unschedPaid = unschedPaid := by
  induction unscheds with
  | nil => intro table subStart used accrued unschedPaid rp ri rf _; rfl
  | cons u rest ih =>
    intro table subStart used accrued unschedPaid rp ri rf h
    rw [consumeA]
    have hu : (table.getD u blankRow).principalPaid ≤ 0 := h u (by simp)
    by_cases hle : (table.getD u blankRow).paidOn.getD 0 ≤ periodEnd
    · rw [if_pos hle]
      simp only [not_lt.mpr hu, if_neg (not_lt.mpr hu)]
      apply ih
      intro u' hu'
      rcases eq_or_ne u' u with rfl | hne
      · rcases lt_or_le u' table.length with hlt | hoob
        · rw [getD_set_self _ _ _ hlt]
          exact hu
        · rw [set_oob _ _ _ hoob]
          exact hu
      · rw [getD_set_ne _ _ _ _ hne]
        exact h u' (by simp [hu'])
    · rw [if_neg hle]

/-- Stamping an unscheduled row (writing its total-paid and balance
columns) preserves the due columns at every index. -/
theorem dues_getD_stamp (t : List Row) (u j : ℕ) (tp ib pb tb : ℚ) :
    ((t.set u { t.getD u blankRow with totalPaid := tp, intBal := ib
                                       prinBal := pb, totalBal := tb }).getD
        j blankRow).principalDue = (t.getD j blankRow).principalDue ∧
    ((t.set u { t.getD u blankRow with totalPaid := tp, intBal := ib
                                       prinBal := pb, totalBal := tb }).getD
        j blankRow).interestDue = (t.getD j blankRow).interestDue ∧
    ((t.set u { t.getD u blankRow with totalPaid := tp, intBal := ib
                                       prinBal := pb, totalBal := tb }).getD
        j blankRow).totalDue = (t.getD j blankRow).totalDue :=
  dues_getD_set t u j _ rfl rfl rfl

/-- The consume loop never modifies the due columns of any row (it stamps
only total-paid and balance columns of the consumed unscheduled rows). -/
theorem consumeA_dues_frame (p : Params) (perMonthly : Bool) (dpr : ℚ)
    (totalDays : ℤ) (periodEnd : ℤ) (unscheds : List ℕ) :
    ∀ (table : List Row) (subStart : ℤ) (used accrued unschedPaid rp ri rf : ℚ) (j : ℕ),
      ((consumeA p perMonthly dpr totalDays periodEnd table unscheds subStart
          used accrued unschedPaid rp ri rf).table.getD j blankRow).principalDue
        = (table.getD j blankRow).principalDue ∧
      ((consumeA p perMonthly dpr totalDays periodEnd table unscheds subStart
          used accrued unschedPaid rp ri rf).table.getD j blankRow).interestDue
        = (table.getD j blankRow).interestDue ∧
      ((consumeA p perMonthly dpr totalDays periodEnd table unscheds subStart
          used accrued unschedPaid rp ri rf).table.getD j blankRow).totalDue
        = (table.getD j blankRow).totalDue := by
  induction unscheds with
  | nil => intro table subStart used accrued unschedPaid rp ri rf j; exact ⟨rfl, rfl, rfl⟩
  | cons u rest ih =>
    intro table subStart used accrued unschedPaid rp ri rf j
    rw [consumeA]
    by_cases hle : (table.getD u blankRow).paidOn.getD 0 ≤ periodEnd
    · rw [if_pos hle]
      exact ⟨(ih _ _ _ _ _ _ _ _ j).1.trans (dues_getD_stamp table u j _ _ _ _).1,
             (ih _ _ _ _ _ _ _ _ j).2.1.trans (dues_getD_stamp table u j _ _ _ _).2.1,
             (ih _ _ _ _ _ _ _ _ j).2.2.trans (dues_getD_stamp table u j _ _ _ _).2.2⟩
    · rw [if_neg hle]
      exact ⟨rfl, rfl, rfl⟩

/-- When the consumed unscheduled principal of the period is zero, the tail
of the row step changes no due column of any other row and no
`hasReAmortized` flag except resetting the current row's flag — in
particular no re-amortization happens. -/
theorem afterConsumeA_no_trigger (p : Params) (n : ℕ) (M M' : ℕ → ℚ)
    (h0 : List Bool) (idx : ℕ) (periodEnd : ℤ) (pq : ℚ) (perMonthly : Bool)
    (dpr : ℚ) (totalDays : ℤ) (c : ConsumeRes) (hc : c.unschedPaid = 0) :
    (∀ j, j ≠ idx →
      ((afterConsumeA p n M M' h0 idx periodEnd pq perMonthly dpr totalDays c).table.getD
          j blankRow).principalDue = (c.table.getD j blankRow).principalDue ∧
      ((afterConsumeA p n M M' h0 idx periodEnd pq perMonthly dpr totalDays c).table.getD
          j blankRow).interestDue = (c.table.getD j blankRow).interestDue ∧
      ((afterConsumeA p n M M' h0 idx periodEnd pq perMonthly dpr totalDays c).table.getD
          j blankRow).totalDue = (c.table.getD j blankRow).totalDue) ∧
    (afterConsumeA p n M M' h0 idx periodEnd pq perMonthly dpr totalDays c).hasRA
      = h0.set idx false := by
  have hlt : ¬ (0 : ℚ) < c.unschedPaid := by rw [hc]; exact lt_irrefl 0
  constructor
  · intro j hj
    simp only [afterConsumeA, hlt, and_false, if_false]
    rw [getD_set_ne _ _ _ _ hj, getD_set_ne _ _ _ _ hj]
    exact ⟨rfl, rfl, rfl⟩
  · simp only [afterConsumeA, hlt, and_false, if_false]

/-- Row-step frame property used by the C2 theorem, with the consume-call
arguments fully explicit. -/
theorem stepA_frame_aux (p : Params) (n : ℕ) (M M' : ℕ → ℚ) (h0 : List Bool)
    (idx : ℕ) (periodEnd : ℤ) (pq : ℚ) (perMonthly : Bool) (dpr : ℚ)
    (totalDays : ℤ) (table : List Row) (unscheds : List ℕ) (subStart : ℤ)
    (rp ri rf : ℚ)
    (hup : ∀ u ∈ unscheds, (table.getD u blankRow).principalPaid ≤ 0) :
    (∀ j, j ≠ idx →
      ((afterConsumeA p n M M' h0 idx periodEnd pq perMonthly dpr totalDays
          (consumeA p perMonthly dpr totalDays periodEnd table unscheds subStart
            0 0 0 rp ri rf)).table.getD j blankRow).principalDue
        = (table.getD j blankRow).principalDue ∧
      ((afterConsumeA p n M M' h0 idx periodEnd pq perMonthly dpr totalDays
          (consumeA p perMonthly dpr totalDays periodEnd table unscheds subStart
            0 0 0 rp ri rf)).table.getD j blankRow).interestDue
        = (table.getD j blankRow).interestDue ∧
      ((afterConsumeA p n M M' h0 idx periodEnd pq perMonthly dpr totalDays
          (consumeA p perMonthly dpr totalDays periodEnd table unscheds subStart
            0 0 0 rp ri rf)).table.getD j blankRow).totalDue
        = (table.getD j blankRow).totalDue) ∧
    (afterConsumeA p n M M' h0 idx periodEnd pq perMonthly dpr totalDays
        (consumeA p perMonthly dpr totalDays periodEnd table unscheds subStart
          0 0 0 rp ri rf)).hasRA = h0.set idx false := by
  have hc := consumeA_unschedPaid_nonpos p perMonthly dpr totalDays periodEnd
    unscheds table subStart 0 0 0 rp ri rf hup
  have h := afterConsumeA_no_trigger p n M M' h0 idx periodEnd pq perMonthly dpr
    totalDays _ hc
  refine ⟨fun j hj => ?_, h.2⟩
  have hf := consumeA_dues_frame p perMonthly dpr totalDays periodEnd unscheds
    table subStart 0 0 0 rp ri rf j
  have h1 := h.1 j hj
  exact ⟨h1.1.trans hf.1, h1.2.1.trans hf.2.1, h1.2.2.trans hf.2.2⟩

/-- C2 amended: in revision A's recalculation with amortize=Yes and Monthly
frequency, re-amortization of the future scheduled rows is triggered only by
unscheduled principal paid within the period.  When every pending
unscheduled row carries non-positive `principalPaid` — in particular
whenever the scheduled row's own recorded `principalPaid > 0` is the only
principal payment — processing a scheduled row leaves every other row's
`principalDue`, `interestDue` and `totalDue` columns unchanged, and the
`hasReAmortized` flags change only by resetting the processed row's own
flag: no re-amortization of future rows takes place. -/
theorem reamortize_needs_unsched_principal (p : Params) (n : ℕ) (M M' : ℕ → ℚ)
    (st : AState) (idx : ℕ)
    (hup : ∀ u ∈ st.unscheds, (st.table.getD u blankRow).principalPaid ≤ 0) :
    (∀ j, j ≠ idx →
      ((processRowA p n M M' st idx).table.getD j blankRow).principalDue
        = (st.table.getD j blankRow).principalDue ∧
      ((processRowA p n M M' st idx).table.getD j blankRow).interestDue
        = (st.table.getD j blankRow).interestDue ∧
      ((processRowA p n M M' st idx).table.getD j blankRow).totalDue
        = (st.table.getD j blankRow).totalDue) ∧
    (processRowA p n M M' st idx).hasRA = st.hasRA.set idx false := by
  rw [processRowA]
  exact stepA_frame_aux p n M M' st.hasRA idx _ _ _ _ _ st.table st.unscheds _
    st.rp st.ri st.rf hup

/-- The pass state at the start of the `tOwnPaid` recalculation. -/
def stOwnPaid : AState :=
  { table := tOwnPaid, hasRA := [false, false], rp := 100, ri := 0, rf := 0
    unscheds := [], lastEnd := 0 }

/-- Witness for C2 at the `tOwnPaid` fixture: processing row 0 (which pays
60 of principal on the scheduled row itself, with no unscheduled rows)
leaves row 1's due columns and the `hasReAmortized` flags unchanged. -/
theorem reamortize_needs_unsched_principal_witness :
    (∀ j, j ≠ 0 →
      ((processRowA pTwoMonth 2 (ipmtMapOf pTwoMonth tOwnPaid 2)
          (ppmtMapOf pTwoMonth tOwnPaid 2) stOwnPaid 0).table.getD j blankRow).principalDue
        = (stOwnPaid.table.getD j blankRow).principalDue ∧
      ((processRowA pTwoMonth 2 (ipmtMapOf pTwoMonth tOwnPaid 2)
          (ppmtMapOf pTwoMonth tOwnPaid 2) stOwnPaid 0).table.getD j blankRow).interestDue
        = (stOwnPaid.table.getD j blankRow).interestDue ∧
      ((processRowA pTwoMonth 2 (ipmtMapOf pTwoMonth tOwnPaid 2)
          (ppmtMapOf pTwoMonth tOwnPaid 2) stOwnPaid 0).table.getD j blankRow).totalDue
        = (stOwnPaid.table.getD j blankRow).totalDue) ∧
    (processRowA pTwoMonth 2 (ipmtMapOf pTwoMonth tOwnPaid 2)
        (ppmtMapOf pTwoMonth tOwnPaid 2) stOwnPaid 0).hasRA
      = stOwnPaid.hasRA.set 0 false :=
  reamortize_needs_unsched_principal pTwoMonth 2 (ipmtMapOf pTwoMonth tOwnPaid 2)
    (ppmtMapOf pTwoMonth tOwnPaid 2) stOwnPaid 0 (by intro u hu; cases hu)

set_option maxHeartbeats 2000000 in
/-- C2 counterexample: on the `pTwoMonth` loan, recording the 60 of
principal on scheduled row 1 itself (`tOwnPaid`) leaves the future row's
`principalDue` at the original annuity value 50, whereas the claimed
re-amortization over `termMonths − ⌊periodNumber⌋ = 1` remaining period at
the running principal 40 would set it to `-PPMT(0, 1, 1, 40) = 40 ≠ 50`;
recording the same 60 through an unscheduled row (`tUnschedPaid`) does
re-amortize the future row to 40. -/
theorem reamortize_trigger_counterexample :
    ((recalcAllA pTwoMonth tOwnPaid).getD 1 blankRow).principalDue = 50 ∧
    ppmtQ 0 1 1 40 = 40 ∧
    ((50 : ℚ) ≠ 40) ∧
    ((recalcAllA pTwoMonth tUnschedPaid).getD 2 blankRow).principalDue = 40 := by
  refine ⟨?_, ?_, by norm_num, ?_⟩
  · norm_num +decide [recalcAllA, usedLen, separateRows, classifyIdx, sortIdxBy,
      insertIdxBy, schedKey, unschedKey, recalcPassA, processRowA, afterConsumeA,
      consumeA, finalAccrualA, dueAmountsA, isPerMonthlyRow, dailyPeriodicRateOf,
      accrueStep, clampScaled, calcUnpaidDays, daysBetween, daysBetweenInclusive, oneDayAfter,
      eps, isSchedRow, isUnschedRow, periodIsInt, qIsInt, isUnscheduledRowLS,
      scanFutureEnd, scanFutureEndAux, reAmortizeFutureRows, reAmortWalk,
      ipmtMapOf, ppmtMapOf, ipmtQ, ppmtQ, annuityPayment, amortBalance,
      pTwoMonth, tOwnPaid, mkSched, blankRow, List.getD, List.set, List.range,
      List.range.loop, List.takeWhile, intToNat_two, intToNat_one]
  · norm_num [ppmtQ, ipmtQ, annuityPayment, amortBalance, intToNat_one]
  · norm_num +decide [recalcAllA, usedLen, separateRows, classifyIdx, sortIdxBy,
      insertIdxBy, schedKey, unschedKey, recalcPassA, processRowA, afterConsumeA,
      consumeA, finalAccrualA, dueAmountsA, isPerMonthlyRow, dailyPeriodicRateOf,
      accrueStep, clampScaled, calcUnpaidDays, daysBetween, daysBetweenInclusive, oneDayAfter,
      eps, isSchedRow, isUnschedRow, periodIsInt, qIsInt, isUnscheduledRowLS,
      scanFutureEnd, scanFutureEndAux, reAmortizeFutureRows, reAmortWalk,
      ipmtMapOf, ppmtMapOf, ipmtQ, ppmtQ, annuityPayment, amortBalance,
      pTwoMonth, tUnschedPaid, mkSched, mkUnsched, blankRow, List.getD, List.set,
      List.range, List.range.loop, List.takeWhile, intToNat_two, intToNat_one,
      floor_count_two_one]

/-! ## C4: the Single-Period due allocation -/

/-- C4 amended: for a Single-Period loan, revision A's due-amount decision
returns `interestDue = 0` and `principalDue = 0` for every scheduled period
whose period number is not `termMonths`, and for the final period (integer
period number equal to `termMonths`) returns `interestDue` equal to the
running interest balance at that point (interest accrued so far net of
interest payments already applied, floored at 0) and `principalDue` equal
to the running principal balance (principal net of principal payments
already applied); the running interest is not modified by the decision. -/
theorem single_period_final_dues (p : Params) (row : Row) (hRA : Bool)
    (iv pv rp ri acc up : ℚ) (hf : p.paymentFreq = Freq.singlePeriod) :
    (periodIsInt row.period = true ∧ row.period.getD 0 = (p.termMonths : ℚ) →
      dueAmountsA p row hRA iv pv rp ri acc up
        = { interestDue := ri, principalDue := rp, ri := ri }) ∧
    (¬ (periodIsInt row.period = true ∧ row.period.getD 0 = (p.termMonths : ℚ)) →
      dueAmountsA p row hRA iv pv rp ri acc up
        = { interestDue := 0, principalDue := 0, ri := ri }) := by
  constructor
  · intro h
    simp only [dueAmountsA, hf, if_pos, if_true]
    rw [if_pos h]
  · intro h
    simp only [dueAmountsA, hf, if_pos, if_true]
    rw [if_neg h]

/-- Witness for C4 at a concrete call: under `pSingle` (termMonths 2), a
period-2 row is final and yields the running balances, and a period-1 row
yields zero dues. -/
theorem single_period_final_dues_witness :
    dueAmountsA pSingle (mkSched 2 20) false 0 0 800 7 10 0
      = { interestDue := 7, principalDue := 800, ri := 7 } ∧
    dueAmountsA pSingle (mkSched 1 10) false 0 0 800 7 10 0
      = { interestDue := 0, principalDue := 0, ri := 7 } := by
  constructor
  · exact (single_period_final_dues pSingle (mkSched 2 20) false 0 0 800 7 10 0
      rfl).1 ⟨by norm_num [mkSched, periodIsInt, qIsInt, blankRow],
              by norm_num [mkSched, blankRow, pSingle]⟩
  · refine (single_period_final_dues pSingle (mkSched 1 10) false 0 0 800 7 10 0
      rfl).2 (fun h => ?_)
    exact absurd h.2 (by norm_num [mkSched, blankRow, pSingle])

set_option maxHeartbeats 2000000 in
/-- C4 counterexample: on the `pSingle` loan (two scheduled periods of 10
days each at per-diem rate 1/1000 on principal 1000, with 5 of interest
paid during period 1), the final row's `interestDue` comes out as 15 — the
accrued interest 20 minus the 5 already paid — and not the total interest
accrued so far (10 + 10 = 20), contradicting the claim's
"interestDue equal to all interest accrued so far"; `principalDue` is 1000,
the remaining principal. -/
theorem single_period_counterexample :
    ((recalcAllA pSingle tSingle).getD 1 blankRow).interestDue = 15 ∧
    ((recalcAllA pSingle tSingle).getD 1 blankRow).principalDue = 1000 ∧
    1000 * (1 / 1000 : ℚ) * 10 + 1000 * (1 / 1000 : ℚ) * 10 = 20 ∧
    ((15 : ℚ) ≠ 20) := by
  refine ⟨?_, ?_, by norm_num, by norm_num⟩ <;>
    norm_num +decide [recalcAllA, usedLen, separateRows, classifyIdx, sortIdxBy,
      insertIdxBy, schedKey, unschedKey, recalcPassA, processRowA, afterConsumeA,
      consumeA, finalAccrualA, dueAmountsA, isPerMonthlyRow, dailyPeriodicRateOf,
      accrueStep, clampScaled, calcUnpaidDays, daysBetween, daysBetweenInclusive, oneDayAfter,
      eps, isSchedRow, isUnschedRow, periodIsInt, qIsInt, isUnscheduledRowLS,
      scanFutureEnd, scanFutureEndAux, reAmortizeFutureRows, reAmortWalk,
      ipmtMapOf, ppmtMapOf, ipmtQ, ppmtQ, annuityPayment, amortBalance,
      pSingle, tSingle, mkSched, blankRow, List.getD, List.set, List.range,
      List.range.loop, List.takeWhile, intToNat_two, intToNat_one]

/-! ## C1: the early-payoff zeroing of revision B -/

set_option maxHeartbeats 2000000 in
/-- C1: on a loan that pays off (Monthly interest-only, principal 100, rate
0, one scheduled row recording `principalPaid = 100`), revision B's
`recalcAll` does not zero out the dues of the remaining rows and stop:
it aborts with a `ReferenceError`.  The procedure dereferences the
undefined identifier `logger` before the pass begins, and even without
those two statements the early-payoff fill loop `for (let j = i; ...)`
reads the `let`-scoped loop variable `i` after its loop has ended, so the
pass that reaches the payoff break (as this input does) aborts before
writing anything back. -/
theorem payoff_fill_reference_error :
    recalcAllB pPayoff tPayoff = Except.error JsError.referenceError ∧
    recalcBodyB pPayoff tPayoff = Except.error JsError.referenceError := by
  constructor
  · norm_num [recalcAllB, usedLen, tPayoff, mkSched, blankRow, List.takeWhile]
  · norm_num +decide [recalcBodyB, usedLen, separateRows, classifyIdx, sortIdxBy,
      insertIdxBy, schedKey, unschedKey, recalcPassB, processRowB,
      LoanHelpers.applyUnscheduledPaymentsForPeriod, LoanHelpers.consumeH,
      LoanHelpers.computeAccrualDays, LoanHelpers.daysBetweenInclusive,
      LoanHelpers.calculateDueAmounts, isPerMonthlyRow, dailyPeriodicRateOf,
      accrueStep, clampScaled, oneDayAfter, eps, isSchedRow, isUnschedRow, periodIsInt,
      qIsInt, ipmtMapOf, ppmtMapOf, ipmtQ, ppmtQ, annuityPayment, amortBalance,
      pPayoff, tPayoff, mkSched, blankRow, List.getD, List.set, List.range,
      List.range.loop, List.takeWhile, intToNat_one]

/-! ## C5: the 30-day budget of a Periodic period -/

/-- The clamp applied to every scaled sub-interval day count yields a value
between 0 and the remaining budget. -/
theorem clampScaled_bounds (x lo : ℚ) (h : 0 ≤ lo) :
    0 ≤ clampScaled x lo ∧ clampScaled x lo ≤ lo := by
  unfold clampScaled
  by_cases h1 : lo < x
  · rw [if_pos h1]
    by_cases h2 : lo < 0
    · rw [if_pos h2]; exact ⟨le_refl 0, h⟩
    · rw [if_neg h2]; exact ⟨not_lt.mp h2, le_refl lo⟩
  · rw [if_neg h1]
    by_cases h2 : x < 0
    · rw [if_pos h2]; exact ⟨le_refl 0, h⟩
    · rw [if_neg h2]; exact ⟨not_lt.mp h2, not_lt.mp h1⟩

/-- One clamped accrual step keeps the consumed 30/360 days within
`[0, 30]`. -/
theorem accrueStep_used_bounds (rp dpr ri accrued used x : ℚ)
    (h0 : 0 ≤ used) (h30 : used ≤ 30) :
    0 ≤ (accrueStep rp dpr ri accrued used (clampScaled x (30 - used))).2.2 ∧
    (accrueStep rp dpr ri accrued used (clampScaled x (30 - used))).2.2 ≤ 30 := by
  have hb := clampScaled_bounds x (30 - used) (by linarith)
  unfold accrueStep
  by_cases h : 0 < clampScaled x (30 - used)
  · rw [if_pos h]
    dsimp only
    refine ⟨by linarith [hb.1], by linarith [hb.2]⟩
  · rw [if_neg h]
    exact ⟨h0, h30⟩

/-- Through the consume loop of `applyUnscheduledPaymentsForPeriod`, the
consumed 30/360 days stay within `[0, 30]`. -/
theorem consumeH_used_bounds (p : Params) (perMonthly : Bool) (dpr : ℚ)
    (totalDays : ℤ) (periodEnd : ℤ) (unscheds : List ℕ) :
    ∀ (table : List Row) (subStart : ℤ) (used accrued unschedPaid rp ri rf : ℚ),
      0 ≤ used → used ≤ 30 →
      0 ≤ (LoanHelpers.consumeH p perMonthly dpr totalDays periodEnd table unscheds
        subStart used accrued unschedPaid rp ri rf).used ∧
      (LoanHelpers.consumeH p perMonthly dpr totalDays periodEnd table unscheds
        subStart used accrued unschedPaid rp ri rf).used ≤ 30 := by
  induction unscheds with
  | nil =>
    intro table subStart used accrued unschedPaid rp ri rf h0 h30
    exact ⟨h0, h30⟩
  | cons u rest ih =>
    intro table subStart used accrued unschedPaid rp ri rf h0 h30
    rw [LoanHelpers.consumeH]
    by_cases hle : (table.getD u blankRow).paidOn.getD 0 ≤ periodEnd
    · rw [if_pos hle]
      by_cases hpm : perMonthly = true
      · rw [if_pos hpm]
        by_cases hg : subStart ≤ (table.getD u blankRow).paidOn.getD 0 ∧ eps < rp
        · rw [if_pos hg]
          apply ih
          · exact (accrueStep_used_bounds rp dpr ri accrued used _ h0 h30).1
          · exact (accrueStep_used_bounds rp dpr ri accrued used _ h0 h30).2
        · rw [if_neg hg]
          exact ih _ _ _ _ _ _ _ _ h0 h30
      · rw [if_neg hpm]
        exact ih _ _ _ _ _ _ _ _ h0 h30
    · rw [if_neg hle]
      exact ⟨h0, h30⟩

/-- The tail accrual of `applyUnscheduledPaymentsForPeriod` keeps the
consumed 30/360 days within `[0, 30]`. -/
theorem finalAccrualH_used_bounds (p : Params) (perMonthly : Bool) (dpr : ℚ)
    (totalDays periodEnd subStart : ℤ) (used accrued rp ri : ℚ)
    (h0 : 0 ≤ used) (h30 : used ≤ 30) :
    0 ≤ (LoanHelpers.finalAccrualH p perMonthly dpr totalDays periodEnd subStart
      used accrued rp ri).2.2 ∧
    (LoanHelpers.finalAccrualH p perMonthly dpr totalDays periodEnd subStart
      used accrued rp ri).2.2 ≤ 30 := by
  unfold LoanHelpers.finalAccrualH
  by_cases hg : eps < rp ∧ subStart ≤ periodEnd
  · rw [if_pos hg]
    by_cases hpm : perMonthly = true
    · rw [if_pos hpm]
      exact accrueStep_used_bounds rp dpr ri accrued used _ h0 h30
    · rw [if_neg hpm]
      by_cases hp : 0 < LoanHelpers.computeAccrualDays subStart (some periodEnd)
          p.prepaidUntil ∧ eps < rp
      · rw [if_pos hp]
        exact ⟨h0, h30⟩
      · rw [if_neg hp]
        exact ⟨h0, h30⟩
  · rw [if_neg hg]
    exact ⟨h0, h30⟩

/-- C5: within any single Periodic-method Monthly period with an integer
period number ≥ 1, every scaled sub-interval day count produced by the clamp
is ≥ 0 and at most the remaining budget of the 30-day month, and the total
scaled days consumed for interest accrual in the period (the final
`monthly30DaysUsed` of `applyUnscheduledPaymentsForPeriod`, across the one
sub-interval per unscheduled payment plus the final tail) is between 0 and
30. -/
theorem periodic_thirty_day_budget (p : Params) (q : ℚ) (periodStart periodEnd : ℤ)
    (table : List Row) (unscheds : List ℕ) (rp ri rf : ℚ)
    (hd : p.dayCountMethod = DayCount.periodic) (hm : p.paymentFreq = Freq.monthly)
    (hi : qIsInt q = true) (h1 : 1 ≤ q) :
    (∀ x lo, 0 ≤ lo → 0 ≤ clampScaled x lo ∧ clampScaled x lo ≤ lo) ∧
    0 ≤ (LoanHelpers.applyUnscheduledPaymentsForPeriod p (some q) periodStart
      periodEnd table unscheds rp ri rf).monthly30DaysUsed ∧
    (LoanHelpers.applyUnscheduledPaymentsForPeriod p (some q) periodStart
      periodEnd table unscheds rp ri rf).monthly30DaysUsed ≤ 30 := by
  refine ⟨clampScaled_bounds, ?_, ?_⟩
  · exact (finalAccrualH_used_bounds p _ _ _ _ _ _ _ _ _
      (consumeH_used_bounds p _ _ _ _ unscheds table periodStart 0 0 0 rp ri rf
        (le_refl 0) (by norm_num)).1
      (consumeH_used_bounds p _ _ _ _ unscheds table periodStart 0 0 0 rp ri rf
        (le_refl 0) (by norm_num)).2).1
  · exact (finalAccrualH_used_bounds p _ _ _ _ _ _ _ _ _
      (consumeH_used_bounds p _ _ _ _ unscheds table periodStart 0 0 0 rp ri rf
        (le_refl 0) (by norm_num)).1
      (consumeH_used_bounds p _ _ _ _ unscheds table periodStart 0 0 0 rp ri rf
        (le_refl 0) (by norm_num)).2).2

/-- Witness for C5 at a concrete call: `pTwoMonth` (Periodic, Monthly),
period 1 over days 1..30 with no unscheduled rows on principal 100. -/
theorem periodic_thirty_day_budget_witness :
    (∀ x lo, (0 : ℚ) ≤ lo → 0 ≤ clampScaled x lo ∧ clampScaled x lo ≤ lo) ∧
    0 ≤ (LoanHelpers.applyUnscheduledPaymentsForPeriod pTwoMonth (some 1) 1 30
      [] [] 100 0 0).monthly30DaysUsed ∧
    (LoanHelpers.applyUnscheduledPaymentsForPeriod pTwoMonth (some 1) 1 30
      [] [] 100 0 0).monthly30DaysUsed ≤ 30 :=
  periodic_thirty_day_budget pTwoMonth 1 1 30 [] [] 100 0 0 rfl rfl
    (by norm_num [qIsInt]) (by norm_num)

/-! ## C7: classification and stable chronological sorting -/

/-- The strict "sorted and stable" order: smaller key first, ties by
original table position. -/
def lexLt (key : ℕ → ℤ) (i j : ℕ) : Prop :=
  key i < key j ∨ (key i = key j ∧ i < j)

/-- Membership through stable insertion. -/
theorem mem_insertIdxBy (key : ℕ → ℤ) (i : ℕ) (l : List ℕ) (j : ℕ) :
    j ∈ insertIdxBy key i l ↔ j = i ∨ j ∈ l := by
  induction l with
  | nil => simp [insertIdxBy]
  | cons a as ih =>
    rw [insertIdxBy]
    by_cases h : key a < key i
    · rw [if_pos h]
      simp only [List.mem_cons, ih]
      tauto
    · rw [if_neg h]
      simp only [List.mem_cons]

/-- Membership through the stable sort. -/
theorem mem_sortIdxBy (key : ℕ → ℤ) (l : List ℕ) (j : ℕ) :
    j ∈ sortIdxBy key l ↔ j ∈ l := by
  induction l with
  | nil => simp [sortIdxBy]
  | cons a as ih =>
    rw [sortIdxBy, mem_insertIdxBy]
    simp [ih]

/-- Unfolding of the classification loop on a cons cell. -/
theorem classifyIdx_cons (t : List Row) (a : ℕ) (as : List ℕ) :
    classifyIdx t (a :: as) =
      if isSchedRow (t.getD a blankRow) then
        (a :: (classifyIdx t as).1, (classifyIdx t as).2)
      else if isUnschedRow (t.getD a blankRow) then
        ((classifyIdx t as).1, a :: (classifyIdx t as).2)
      else classifyIdx t as := by
  rw [classifyIdx]

/-- A row index lands in the scheduled output of the classification loop
exactly when it is scanned and its row satisfies the scheduled predicate. -/
theorem mem_classifyIdx_sched (t : List Row) (idxs : List ℕ) (i : ℕ) :
    i ∈ (classifyIdx t idxs).1 ↔
      i ∈ idxs ∧ isSchedRow (t.getD i blankRow) = true := by
  induction idxs with
  | nil => simp [classifyIdx]
  | cons a as ih =>
    rw [classifyIdx_cons]
    by_cases h1 : isSchedRow (t.getD a blankRow) = true
    · rw [if_pos h1]
      simp only [List.mem_cons, ih]
      constructor
      · rintro (rfl | ⟨hm, hp⟩)
        · exact ⟨Or.inl rfl, h1⟩
        · exact ⟨Or.inr hm, hp⟩
      · rintro ⟨rfl | hm, hp⟩
        · exact Or.inl rfl
        · exact Or.inr ⟨hm, hp⟩
    · rw [if_neg h1]
      by_cases h2 : isUnschedRow (t.getD a blankRow) = true
      · rw [if_pos h2]
        simp only [ih, List.mem_cons]
        constructor
        · rintro ⟨hm, hp⟩
          exact ⟨Or.inr hm, hp⟩
        · rintro ⟨rfl | hm, hp⟩
          · exact absurd hp h1
          · exact ⟨hm, hp⟩
      · rw [if_neg h2]
        simp only [ih, List.mem_cons]
        constructor
        · rintro ⟨hm, hp⟩
          exact ⟨Or.inr hm, hp⟩
        · rintro ⟨rfl | hm, hp⟩
          · exact absurd hp h1
          · exact ⟨hm, hp⟩

/-- A row index lands in the unscheduled output of the classification loop
exactly when it is scanned, its row satisfies the unscheduled predicate,
and (because of the `else if`) not the scheduled one — which the two
predicates make automatic, as one requires an integer period and the other
a non-integer period. -/
theorem mem_classifyIdx_unsched (t : List Row) (idxs : List ℕ) (i : ℕ) :
    i ∈ (classifyIdx t idxs).2 ↔
      i ∈ idxs ∧ isUnschedRow (t.getD i blankRow) = true := by
  induction idxs with
  | nil => simp [classifyIdx]
  | cons a as ih =>
    rw [classifyIdx_cons]
    by_cases h1 : isSchedRow (t.getD a blankRow) = true
    · rw [if_pos h1]
      have hnu : ¬ isUnschedRow (t.getD a blankRow) = true := by
        simp only [isSchedRow, Bool.and_eq_true] at h1
        simp only [isUnschedRow, h1.1, Bool.not_true, Bool.false_and]
        exact Bool.false_ne_true
      simp only [ih, List.mem_cons]
      constructor
      · rintro ⟨hm, hp⟩
        exact ⟨Or.inr hm, hp⟩
      · rintro ⟨rfl | hm, hp⟩
        · exact absurd hp hnu
        · exact ⟨hm, hp⟩
    · rw [if_neg h1]
      by_cases h2 : isUnschedRow (t.getD a blankRow) = true
      · rw [if_pos h2]
        simp only [List.mem_cons, ih]
        constructor
        · rintro (rfl | ⟨hm, hp⟩)
          · exact ⟨Or.inl rfl, h2⟩
          · exact ⟨Or.inr hm, hp⟩
        · rintro ⟨rfl | hm, hp⟩
          · exact Or.inl rfl
          · exact Or.inr ⟨hm, hp⟩
      · rw [if_neg h2]
        simp only [ih, List.mem_cons]
        constructor
        · rintro ⟨hm, hp⟩
          exact ⟨Or.inr hm, hp⟩
        · rintro ⟨rfl | hm, hp⟩
          · exact absurd hp h2
          · exact ⟨hm, hp⟩

/-- The classification loop preserves the strictly increasing order of the
scanned indices in both outputs. -/
theorem classifyIdx_pairwise (t : List Row) (idxs : List ℕ)
    (h : idxs.Pairwise (· < ·)) :
    (classifyIdx t idxs).1.Pairwise (· < ·) ∧
    (classifyIdx t idxs).2.Pairwise (· < ·) := by
  induction idxs with
  | nil => simp [classifyIdx]
  | cons a as ih =>
    rcases List.pairwise_cons.mp h with ⟨ha, has⟩
    rcases ih has with ⟨ih1, ih2⟩
    rw [classifyIdx_cons]
    by_cases h1 : isSchedRow (t.getD a blankRow) = true
    · rw [if_pos h1]
      refine ⟨List.pairwise_cons.mpr ⟨?_, ih1⟩, ih2⟩
      intro b hb
      exact ha b ((mem_classifyIdx_sched t as b).mp hb).1
    · rw [if_neg h1]
      by_cases h2 : isUnschedRow (t.getD a blankRow) = true
      · rw [if_pos h2]
        refine ⟨ih1, List.pairwise_cons.mpr ⟨?_, ih2⟩⟩
        intro b hb
        exact ha b ((mem_classifyIdx_unsched t as b).mp hb).1
      · rw [if_neg h2]
        exact ⟨ih1, ih2⟩

/-- Stable insertion into a sorted-and-stable list of later-scanned
indices keeps it sorted and stable. -/
theorem insertIdxBy_pairwise (key : ℕ → ℤ) (i : ℕ) (l : List ℕ)
    (hl : l.Pairwise (lexLt key)) (hall : ∀ j ∈ l, i < j) :
    (insertIdxBy key i l).Pairwise (lexLt key) := by
  induction l with
  | nil => simp [insertIdxBy]
  | cons a as ih =>
    rw [insertIdxBy]
    rcases List.pairwise_cons.mp hl with ⟨ha, has⟩
    by_cases h : key a < key i
    · rw [if_pos h]
      refine List.pairwise_cons.mpr ⟨?_,
        ih has (fun j hj => hall j (List.mem_cons_of_mem a hj))⟩
      intro b hb
      rcases (mem_insertIdxBy key i as b).mp hb with rfl | hb
      · exact Or.inl h
      · exact ha b hb
    · rw [if_neg h]
      refine List.pairwise_cons.mpr ⟨?_, hl⟩
      intro b hb
      rcases List.mem_cons.mp hb with rfl | hb
      · rcases lt_or_eq_of_le (not_lt.mp h) with hlt | heq
        · exact Or.inl hlt
        · exact Or.inr ⟨heq, hall b (List.mem_cons_self b as)⟩
      · have hia : key i ≤ key a := not_lt.mp h
        rcases ha b hb with h1 | h1
        · exact Or.inl (lt_of_le_of_lt hia h1)
        · rcases lt_or_eq_of_le hia with h2 | h2
          · exact Or.inl (lt_of_lt_of_le h2 (le_of_eq h1.1))
          · exact Or.inr ⟨h2.trans h1.1, hall b (List.mem_cons_of_mem a hb)⟩

/-- The stable sort of a strictly position-increasing index list is sorted
by key with ties kept in original position order. -/
theorem sortIdxBy_pairwise (key : ℕ → ℤ) (l : List ℕ)
    (h : l.Pairwise (· < ·)) :
    (sortIdxBy key l).Pairwise (lexLt key) := by
  induction l with
  | nil => simp [sortIdxBy]
  | cons a as ih =>
    rw [sortIdxBy]
    rcases List.pairwise_cons.mp h with ⟨ha, has⟩
    exact insertIdxBy_pairwise key a _ (ih has)
      (fun j hj => ha j ((mem_sortIdxBy key as j).mp hj))

/-- C7: for every row table and scan count, `separateRows` puts a row index
in the scheduled list iff its period number is an integer and its period-end
date is a valid date; in the unscheduled list iff its period number is not
an integer and its paid-on date is a valid date; every other row is dropped
from both lists.  The scheduled list is ascending in period-end date, the
unscheduled list ascending in paid-on date, and rows with equal sort keys
keep their original relative order (the pairwise relation is "smaller key,
or equal key and smaller original index"). -/
theorem classifier_spec (t : List Row) (count : ℕ) :
    (∀ i, i ∈ (separateRows t count).1 ↔
      (i < count ∧ isSchedRow (t.getD i blankRow) = true)) ∧
    (∀ i, i ∈ (separateRows t count).2 ↔
      (i < count ∧ isUnschedRow (t.getD i blankRow) = true)) ∧
    (separateRows t count).1.Pairwise (lexLt (schedKey t)) ∧
    (separateRows t count).2.Pairwise (lexLt (unschedKey t)) := by
  refine ⟨?_, ?_, ?_, ?_⟩
  · intro i
    rw [separateRows]
    rw [mem_sortIdxBy, mem_classifyIdx_sched, List.mem_range]
  · intro i
    rw [separateRows]
    rw [mem_sortIdxBy, mem_classifyIdx_unsched, List.mem_range]
  · exact sortIdxBy_pairwise _ _
      (classifyIdx_pairwise t _ (List.pairwise_lt_range count)).1
  · exact sortIdxBy_pairwise _ _
      (classifyIdx_pairwise t _ (List.pairwise_lt_range count)).2

/-! ## C9: every balance value written back into the table is non-negative

Both write sites of revision A (the unscheduled-row stamp inside the
consume loop, `src/LoanScript.js` lines 640-652, and the scheduled-row
balance write, lines 762-775; the `LoanHelpers`
`applyUnscheduledPaymentsForPeriod` uses the identical floors at lines
130-133) store `Math.max(0, ...)` values, or a sum of three such values for
the total balance.  So every balance cell of the output table is either the
untouched input value or a non-negative number. -/

/-- A cell is untouched (still equal to the reference value) or
non-negative. -/
def balOk (x a : ℚ) : Prop := x = a ∨ 0 ≤ x

/-- The three balance cells of a row are each untouched-or-non-negative
relative to a reference row. -/
def balInv (r r0 : Row) : Prop :=
  balOk r.intBal r0.intBal ∧ balOk r.prinBal r0.prinBal ∧ balOk r.totalBal r0.totalBal

theorem balInv_refl (r : Row) : balInv r r :=
  ⟨Or.inl rfl, Or.inl rfl, Or.inl rfl⟩

/-- `balInv` depends only on the three balance projections. -/
theorem balInv_congr (a b r0 : Row) (h1 : a.intBal = b.intBal)
    (h2 : a.prinBal = b.prinBal) (h3 : a.totalBal = b.totalBal)
    (h : balInv b r0) : balInv a r0 := by
  simp only [balInv, balOk] at h ⊢
  rw [h1, h2, h3]
  exact h

/-- Writing a row whose three balance cells are non-negative preserves the
untouched-or-non-negative balance invariant at every index. -/
theorem balInv_set (t t0 : List Row) (u : ℕ) (r : Row)
    (hr : 0 ≤ r.intBal ∧ 0 ≤ r.prinBal ∧ 0 ≤ r.totalBal)
    (h : ∀ j, balInv (t.getD j blankRow) (t0.getD j blankRow)) :
    ∀ j, balInv ((t.set u r).getD j blankRow) (t0.getD j blankRow) := by
  intro j
  rcases eq_or_ne j u with rfl | hne
  · rcases lt_or_le j t.length with hlt | hoob
    · rw [getD_set_self _ _ _ hlt]
      exact ⟨Or.inr hr.1, Or.inr hr.2.1, Or.inr hr.2.2⟩
    · rw [set_oob _ _ _ hoob]
      exact h j
  · rw [getD_set_ne _ _ _ _ hne]
    exact h j

/-- Writing a row that keeps the balance cells of the overwritten row
preserves the balance invariant at every index. -/
theorem balInv_set_keep (t t0 : List Row) (u : ℕ) (r : Row)
    (h1 : r.intBal = (t.getD u blankRow).intBal)
    (h2 : r.prinBal = (t.getD u blankRow).prinBal)
    (h3 : r.totalBal = (t.getD u blankRow).totalBal)
    (h : ∀ j, balInv (t.getD j blankRow) (t0.getD j blankRow)) :
    ∀ j, balInv ((t.set u r).getD j blankRow) (t0.getD j blankRow) := by
  intro j
  rcases eq_or_ne j u with rfl | hne
  · rcases lt_or_le j t.length with hlt | hoob
    · rw [getD_set_self _ _ _ hlt]
      exact balInv_congr _ _ _ h1 h2 h3 (h j)
    · rw [set_oob _ _ _ hoob]
      exact h j
  · rw [getD_set_ne _ _ _ _ hne]
    exact h j

/-- A write that preserves the three balance columns of the written row
preserves the balance columns at every index. -/
theorem bal_getD_set (t : List Row) (u j : ℕ) (r : Row)
    (h1 : r.intBal = (t.getD u blankRow).intBal)
    (h2 : r.prinBal = (t.getD u blankRow).prinBal)
    (h3 : r.totalBal = (t.getD u blankRow).totalBal) :
    ((t.set u r).getD j blankRow).intBal = (t.getD j blankRow).intBal ∧
    ((t.set u r).getD j blankRow).prinBal = (t.getD j blankRow).prinBal ∧
    ((t.set u r).getD j blankRow).totalBal = (t.getD j blankRow).totalBal := by
  rcases eq_or_ne j u with rfl | hne
  · rcases lt_or_le j t.length with hlt | hoob
    · rw [getD_set_self t j r hlt]
      exact ⟨h1, h2, h3⟩
    · rw [set_oob t j r hoob]
      exact ⟨rfl, rfl, rfl⟩
  · rw [getD_set_ne t u j r hne]
    exact ⟨rfl, rfl, rfl⟩

/-- The consume loop writes floored (hence non-negative) balance values:
the balance invariant is preserved. -/
theorem consumeA_balInv (p : Params) (perMonthly : Bool) (dpr : ℚ)
    (totalDays : ℤ) (periodEnd : ℤ) (unscheds : List ℕ) (t0 : List Row) :
    ∀ (table : List Row) (subStart : ℤ) (used accrued unschedPaid rp ri rf : ℚ),
      (∀ j, balInv (table.getD j blankRow) (t0.getD j blankRow)) →
      ∀ j, balInv ((consumeA p perMonthly dpr totalDays periodEnd table unscheds
        subStart used accrued unschedPaid rp ri rf).table.getD j blankRow)
        (t0.getD j blankRow) := by
  induction unscheds with
  | nil => intro table subStart used accrued unschedPaid rp ri rf h j; exact h j
  | cons u rest ih =>
    intro table subStart used accrued unschedPaid rp ri rf h j
    rw [consumeA]
    by_cases hle : (table.getD u blankRow).paidOn.getD 0 ≤ periodEnd
    · rw [if_pos hle]
      apply ih
      apply balInv_set _ _ _ _ ?_ h
      exact ⟨le_max_left 0 _, le_max_left 0 _,
        add_nonneg (add_nonneg (le_max_left 0 _) (le_max_left 0 _)) (le_max_left 0 _)⟩
    · rw [if_neg hle]
      exact h j

/-- Writing fresh due columns to a row preserves the balance columns at
every index. -/
theorem bal_getD_duestamp (t : List Row) (u j : ℕ) (pv iv tv : ℚ) :
    ((t.set u { t.getD u blankRow with principalDue := pv, interestDue := iv
                                       totalDue := tv }).getD
        j blankRow).intBal = (t.getD j blankRow).intBal ∧
    ((t.set u { t.getD u blankRow with principalDue := pv, interestDue := iv
                                       totalDue := tv }).getD
        j blankRow).prinBal = (t.getD j blankRow).prinBal ∧
    ((t.set u { t.getD u blankRow with principalDue := pv, interestDue := iv
                                       totalDue := tv }).getD
        j blankRow).totalBal = (t.getD j blankRow).totalBal :=
  bal_getD_set t u j _ rfl rfl rfl

/-- The re-amortization walk writes only due columns: it never changes a
balance cell. -/
theorem reAmortWalk_bal (p : Params) (lc : ℤ) (lp : ℚ) :
    ∀ (fuel : ℕ) (t : List Row) (hRA : List Bool) (i : ℕ) (pidx : ℤ) (j : ℕ),
      ((reAmortWalk p lc lp t hRA i pidx fuel).1.getD j blankRow).intBal
        = (t.getD j blankRow).intBal ∧
      ((reAmortWalk p lc lp t hRA i pidx fuel).1.getD j blankRow).prinBal
        = (t.getD j blankRow).prinBal ∧
      ((reAmortWalk p lc lp t hRA i pidx fuel).1.getD j blankRow).totalBal
        = (t.getD j blankRow).totalBal := by
  intro fuel
  induction fuel with
  | zero => intro t hRA i pidx j; exact ⟨rfl, rfl, rfl⟩
  | succ f ihf =>
    intro t hRA i pidx j
    rw [reAmortWalk]
    by_cases hint : periodIsInt (t.getD i blankRow).period = true
    · rw [if_pos hint]
      by_cases hcnt : pidx ≤ lc
      · rw [if_pos hcnt]
        exact ⟨(ihf _ _ _ _ j).1.trans (bal_getD_duestamp t i j _ _ _).1,
               (ihf _ _ _ _ j).2.1.trans (bal_getD_duestamp t i j _ _ _).2.1,
               (ihf _ _ _ _ j).2.2.trans (bal_getD_duestamp t i j _ _ _).2.2⟩
      · rw [if_neg hcnt]
        exact ⟨(ihf _ _ _ _ j).1.trans (bal_getD_duestamp t i j _ _ _).1,
               (ihf _ _ _ _ j).2.1.trans (bal_getD_duestamp t i j _ _ _).2.1,
               (ihf _ _ _ _ j).2.2.trans (bal_getD_duestamp t i j _ _ _).2.2⟩
    · rw [if_neg hint]
      exact ihf _ _ _ _ j

/-- `reAmortizeFutureRows` preserves the balance invariant. -/
theorem reAmortizeFutureRows_balInv (p : Params) (t t0 : List Row)
    (hRA : List Bool) (s e : ℕ) (lc : ℤ) (lp : ℚ)
    (h : ∀ j, balInv (t.getD j blankRow) (t0.getD j blankRow)) :
    ∀ j, balInv ((reAmortizeFutureRows p t hRA s e lc lp).1.getD j blankRow)
      (t0.getD j blankRow) := by
  intro j
  rw [reAmortizeFutureRows]
  by_cases hc : lc ≤ 0 ∨ lp ≤ eps
  · rw [if_pos hc]
    exact h j
  · rw [if_neg hc]
    have hb := reAmortWalk_bal p lc lp (e - s) t hRA s 1 j
    exact balInv_congr _ _ _ hb.1 hb.2.1 hb.2.2 (h j)

/-- An `if` between two table/flag pairs preserves the balance invariant
when both branches do. -/
theorem ifPair_balInv (t0 : List Row) (C : Prop) [Decidable C]
    (A B : List Row × List Bool)
    (hA : ∀ j, balInv (A.1.getD j blankRow) (t0.getD j blankRow))
    (hB : ∀ j, balInv (B.1.getD j blankRow) (t0.getD j blankRow)) :
    ∀ j, balInv ((if C then A else B).1.getD j blankRow) (t0.getD j blankRow) := by
  by_cases hc : C
  · rw [if_pos hc]
    exact hA
  · rw [if_neg hc]
    exact hB

/-- The tail of the scheduled-row step preserves the balance invariant: its
only balance write is the floored triple of the processed row. -/
theorem afterConsumeA_balInv (p : Params) (n : ℕ) (M M' : ℕ → ℚ)
    (h0 : List Bool) (idx : ℕ) (periodEnd : ℤ) (pq : ℚ) (perMonthly : Bool)
    (dpr : ℚ) (totalDays : ℤ) (c : ConsumeRes) (t0 : List Row)
    (h : ∀ j, balInv (c.table.getD j blankRow) (t0.getD j blankRow)) :
    ∀ j, balInv ((afterConsumeA p n M M' h0 idx periodEnd pq perMonthly dpr
      totalDays c).table.getD j blankRow) (t0.getD j blankRow) := by
  simp only [afterConsumeA]
  apply balInv_set
  · exact ⟨le_max_left 0 _, le_max_left 0 _,
      add_nonneg (add_nonneg (le_max_left 0 _) (le_max_left 0 _)) (le_max_left 0 _)⟩
  · apply ifPair_balInv
    · apply ifPair_balInv
      · apply reAmortizeFutureRows_balInv
        exact balInv_set_keep _ _ _ _ rfl rfl rfl h
      · exact balInv_set_keep _ _ _ _ rfl rfl rfl h
    · exact balInv_set_keep _ _ _ _ rfl rfl rfl h

/-- A full scheduled-row step preserves the balance invariant. -/
theorem processRowA_balInv (p : Params) (n : ℕ) (M M' : ℕ → ℚ) (st : AState)
    (idx : ℕ) (t0 : List Row)
    (h : ∀ j, balInv (st.table.getD j blankRow) (t0.getD j blankRow)) :
    ∀ j, balInv ((processRowA p n M M' st idx).table.getD j blankRow)
      (t0.getD j blankRow) := by
  rw [processRowA]
  apply afterConsumeA_balInv
  apply consumeA_balInv
  exact h

/-- The chronological pass preserves the balance invariant. -/
theorem recalcPassA_balInv (p : Params) (n : ℕ) (M M' : ℕ → ℚ) (t0 : List Row) :
    ∀ (L : List ℕ) (st : AState),
      (∀ j, balInv (st.table.getD j blankRow) (t0.getD j blankRow)) →
      ∀ j, balInv ((recalcPassA p n M M' st L).table.getD j blankRow)
        (t0.getD j blankRow) := by
  intro L
  induction L with
  | nil => intro st h j; exact h j
  | cons i rest ih =>
    intro st h j
    rw [recalcPassA]
    exact ih _ (processRowA_balInv p n M M' st i t0 h) j

/-- C9: every payment application during recalculation floors the running
interest, principal and fee balances at 0 (`Math.max(0, ...)` at both write
sites of revision A's `recalcAll`, and identically in
`LoanHelpers.applyUnscheduledPaymentsForPeriod`), so for every loan
parameters and every input row table — including tables whose recorded
payments exceed the amounts owed — every `interestBalance`,
`principalBalance` and `totalBalance` cell of the output of `recalcAllA` is
either the untouched input cell or a non-negative value: every balance
value actually written back into the table is non-negative. -/
theorem written_balances_nonneg (p : Params) (t : List Row) (j : ℕ) :
    (((recalcAllA p t).getD j blankRow).intBal = (t.getD j blankRow).intBal ∨
      0 ≤ ((recalcAllA p t).getD j blankRow).intBal) ∧
    (((recalcAllA p t).getD j blankRow).prinBal = (t.getD j blankRow).prinBal ∨
      0 ≤ ((recalcAllA p t).getD j blankRow).prinBal) ∧
    (((recalcAllA p t).getD j blankRow).totalBal = (t.getD j blankRow).totalBal ∨
      0 ≤ ((recalcAllA p t).getD j blankRow).totalBal) := by
  rw [recalcAllA]
  by_cases h0 : usedLen t = 0
  · rw [if_pos h0]
    exact ⟨Or.inl rfl, Or.inl rfl, Or.inl rfl⟩
  · rw [if_neg h0]
    exact recalcPassA_balInv p (usedLen t) (ipmtMapOf p t (usedLen t))
      (ppmtMapOf p t (usedLen t)) t _ _ (fun _ => balInv_refl _) j

/-! ## Shared frame infrastructure for C6 and C10

Revision A's `recalcAll` writes only the seven computed columns (`totalDue`,
`totalPaid`, `principalDue`, `interestDue`, `intBal`, `prinBal`,
`totalBal`); the stored columns (`period`, `periodEnd`, `dueDate`, `days`,
`paidOn`, `principalPaid`, `interestPaid`, `feesDue`, `feesPaid`, `notes`)
of every row survive the pass unchanged, and the table length is
preserved. -/

/-- Two rows agree on every column that `recalcAll` never writes. -/
def sameR (a b : Row) : Prop :=
  a.period = b.period ∧ a.periodEnd = b.periodEnd ∧ a.dueDate = b.dueDate ∧
  a.days = b.days ∧ a.paidOn = b.paidOn ∧ a.principalPaid = b.principalPaid ∧
  a.interestPaid = b.interestPaid ∧ a.feesDue = b.feesDue ∧
  a.feesPaid = b.feesPaid ∧ a.notes = b.notes

theorem sameR_refl (r : Row) : sameR r r :=
  ⟨rfl, rfl, rfl, rfl, rfl, rfl, rfl, rfl, rfl, rfl⟩

theorem sameR_trans {a b c : Row} (h1 : sameR a b) (h2 : sameR b c) : sameR a c := by
  obtain ⟨a1, a2, a3, a4, a5, a6, a7, a8, a9, a10⟩ := h1
  obtain ⟨b1, b2, b3, b4, b5, b6, b7, b8, b9, b10⟩ := h2
  exact ⟨a1.trans b1, a2.trans b2, a3.trans b3, a4.trans b4, a5.trans b5,
         a6.trans b6, a7.trans b7, a8.trans b8, a9.trans b9, a10.trans b10⟩

/-- Writing a row that keeps the stored columns of the overwritten row
preserves the stored columns at every index. -/
theorem sameR_getD_set (t : List Row) (u j : ℕ) (r : Row)
    (h : sameR r (t.getD u blankRow)) :
    sameR ((t.set u r).getD j blankRow) (t.getD j blankRow) := by
  rcases eq_or_ne j u with rfl | hne
  · rcases lt_or_le j t.length with hlt | hoob
    · rw [getD_set_self _ _ _ hlt]
      exact h
    · rw [set_oob _ _ _ hoob]
      exact sameR_refl _
  · rw [getD_set_ne _ _ _ _ hne]
    exact sameR_refl _

/-- The consume loop preserves the stored columns of every row. -/
theorem consumeA_sameR (p : Params) (perMonthly : Bool) (dpr : ℚ)
    (totalDays : ℤ) (periodEnd : ℤ) (unscheds : List ℕ) (t0 : List Row) :
    ∀ (table : List Row) (subStart : ℤ) (used accrued unschedPaid rp ri rf : ℚ),
      (∀ j, sameR (table.getD j blankRow) (t0.getD j blankRow)) →
      ∀ j, sameR ((consumeA p perMonthly dpr totalDays periodEnd table unscheds
        subStart used accrued unschedPaid rp ri rf).table.getD j blankRow)
        (t0.getD j blankRow) := by
  induction unscheds with
  | nil => intro table subStart used accrued unschedPaid rp ri rf h j; exact h j
  | cons u rest ih =>
    intro table subStart used accrued unschedPaid rp ri rf h j
    rw [consumeA]
    by_cases hle : (table.getD u blankRow).paidOn.getD 0 ≤ periodEnd
    · rw [if_pos hle]
      apply ih
      intro j'
      exact sameR_trans
        (sameR_getD_set _ _ _ _ ⟨rfl, rfl, rfl, rfl, rfl, rfl, rfl, rfl, rfl, rfl⟩)
        (h j')
    · rw [if_neg hle]
      exact h j

/-- The re-amortization walk preserves the stored columns of every row. -/
theorem reAmortWalk_sameR (p : Params) (lc : ℤ) (lp : ℚ) :
    ∀ (fuel : ℕ) (t : List Row) (hRA : List Bool) (i : ℕ) (pidx : ℤ)
      (t0 : List Row),
      (∀ j, sameR (t.getD j blankRow) (t0.getD j blankRow)) →
      ∀ j, sameR ((reAmortWalk p lc lp t hRA i pidx fuel).1.getD j blankRow)
        (t0.getD j blankRow) := by
  intro fuel
  induction fuel with
  | zero => intro t hRA i pidx t0 h j; exact h j
  | succ f ihf =>
    intro t hRA i pidx t0 h j
    rw [reAmortWalk]
    by_cases hint : periodIsInt (t.getD i blankRow).period = true
    · rw [if_pos hint]
      by_cases hcnt : pidx ≤ lc
      · rw [if_pos hcnt]
        apply ihf
        intro j'
        exact sameR_trans
          (sameR_getD_set _ _ _ _ ⟨rfl, rfl, rfl, rfl, rfl, rfl, rfl, rfl, rfl, rfl⟩)
          (h j')
      · rw [if_neg hcnt]
        apply ihf
        intro j'
        exact sameR_trans
          (sameR_getD_set _ _ _ _ ⟨rfl, rfl, rfl, rfl, rfl, rfl, rfl, rfl, rfl, rfl⟩)
          (h j')
    · rw [if_neg hint]
      exact ihf _ _ _ _ _ h j

/-- `reAmortizeFutureRows` preserves the stored columns of every row. -/
theorem reAmortizeFutureRows_sameR (p : Params) (t t0 : List Row)
    (hRA : List Bool) (s e : ℕ) (lc : ℤ) (lp : ℚ)
    (h : ∀ j, sameR (t.getD j blankRow) (t0.getD j blankRow)) :
    ∀ j, sameR ((reAmortizeFutureRows p t hRA s e lc lp).1.getD j blankRow)
      (t0.getD j blankRow) := by
  rw [reAmortizeFutureRows]
  by_cases hc : lc ≤ 0 ∨ lp ≤ eps
  · rw [if_pos hc]
    exact h
  · rw [if_neg hc]
    exact reAmortWalk_sameR p lc lp (e - s) t hRA s 1 t0 h

/-- An `if` between two table/flag pairs preserves the stored columns when
both branches do. -/
theorem ifPair_sameR (t0 : List Row) (C : Prop) [Decidable C]
    (A B : List Row × List Bool)
    (hA : ∀ j, sameR (A.1.getD j blankRow) (t0.getD j blankRow))
    (hB : ∀ j, sameR (B.1.getD j blankRow) (t0.getD j blankRow)) :
    ∀ j, sameR ((if C then A else B).1.getD j blankRow) (t0.getD j blankRow) := by
  by_cases hc : C
  · rw [if_pos hc]
    exact hA
  · rw [if_neg hc]
    exact hB

/-- The tail of the scheduled-row step preserves the stored columns of
every row. -/
theorem afterConsumeA_sameR (p : Params) (n : ℕ) (M M' : ℕ → ℚ)
    (h0 : List Bool) (idx : ℕ) (periodEnd : ℤ) (pq : ℚ) (perMonthly : Bool)
    (dpr : ℚ) (totalDays : ℤ) (c : ConsumeRes) (t0 : List Row)
    (h : ∀ j, sameR (c.table.getD j blankRow) (t0.getD j blankRow)) :
    ∀ j, sameR ((afterConsumeA p n M M' h0 idx periodEnd pq perMonthly dpr
      totalDays c).table.getD j blankRow) (t0.getD j blankRow) := by
  simp only [afterConsumeA]
  intro j
  refine sameR_trans
    (sameR_getD_set _ _ _ _ ⟨rfl, rfl, rfl, rfl, rfl, rfl, rfl, rfl, rfl, rfl⟩) ?_
  refine ifPair_sameR t0 _ _ _ ?_ ?_ j
  · refine ifPair_sameR t0 _ _ _ ?_ ?_
    · apply reAmortizeFutureRows_sameR
      intro j'
      exact sameR_trans
        (sameR_getD_set _ _ _ _ ⟨rfl, rfl, rfl, rfl, rfl, rfl, rfl, rfl, rfl, rfl⟩)
        (h j')
    · intro j'
      exact sameR_trans
        (sameR_getD_set _ _ _ _ ⟨rfl, rfl, rfl, rfl, rfl, rfl, rfl, rfl, rfl, rfl⟩)
        (h j')
  · intro j'
    exact sameR_trans
      (sameR_getD_set _ _ _ _ ⟨rfl, rfl, rfl, rfl, rfl, rfl, rfl, rfl, rfl, rfl⟩)
      (h j')

/-- A full scheduled-row step preserves the stored columns of every row. -/
theorem processRowA_sameR (p : Params) (n : ℕ) (M M' : ℕ → ℚ) (st : AState)
    (idx : ℕ) (t0 : List Row)
    (h : ∀ j, sameR (st.table.getD j blankRow) (t0.getD j blankRow)) :
    ∀ j, sameR ((processRowA p n M M' st idx).table.getD j blankRow)
      (t0.getD j blankRow) := by
  rw [processRowA]
  apply afterConsumeA_sameR
  apply consumeA_sameR
  exact h

/-- The chronological pass preserves the stored columns of every row. -/
theorem recalcPassA_sameR (p : Params) (n : ℕ) (M M' : ℕ → ℚ) (t0 : List Row) :
    ∀ (L : List ℕ) (st : AState),
      (∀ j, sameR (st.table.getD j blankRow) (t0.getD j blankRow)) →
      ∀ j, sameR ((recalcPassA p n M M' st L).table.getD j blankRow)
        (t0.getD j blankRow) := by
  intro L
  induction L with
  | nil => intro st h j; exact h j
  | cons i rest ih =>
    intro st h j
    rw [recalcPassA]
    exact ih _ (processRowA_sameR p n M M' st i t0 h) j

/-- Full recalculation preserves the stored columns of every row. -/
theorem recalcAllA_sameR (p : Params) (t : List Row) :
    ∀ j, sameR ((recalcAllA p t).getD j blankRow) (t.getD j blankRow) := by
  rw [recalcAllA]
  by_cases h0 : usedLen t = 0
  · rw [if_pos h0]
    exact fun j => sameR_refl _
  · rw [if_neg h0]
    exact recalcPassA_sameR p (usedLen t) (ipmtMapOf p t (usedLen t))
      (ppmtMapOf p t (usedLen t)) t _ _ (fun _ => sameR_refl _)

/-- The consume loop preserves the table length. -/
theorem consumeA_length (p : Params) (perMonthly : Bool) (dpr : ℚ)
    (totalDays : ℤ) (periodEnd : ℤ) (unscheds : List ℕ) :
    ∀ (table : List Row) (subStart : ℤ) (used accrued unschedPaid rp ri rf : ℚ),
      (consumeA p perMonthly dpr totalDays periodEnd table unscheds subStart
        used accrued unschedPaid rp ri rf).table.length = table.length := by
  induction unscheds with
  | nil => intro table subStart used accrued unschedPaid rp ri rf; rfl
  | cons u rest ih =>
    intro table subStart used accrued unschedPaid rp ri rf
    rw [consumeA]
    by_cases hle : (table.getD u blankRow).paidOn.getD 0 ≤ periodEnd
    · rw [if_pos hle]
      rw [ih]
      exact List.length_set _ _ _
    · rw [if_neg hle]

/-- The re-amortization walk preserves the table length. -/
theorem reAmortWalk_length (p : Params) (lc : ℤ) (lp : ℚ) :
    ∀ (fuel : ℕ) (t : List Row) (hRA : List Bool) (i : ℕ) (pidx : ℤ),
      (reAmortWalk p lc lp t hRA i pidx fuel).1.length = t.length := by
  intro fuel
  induction fuel with
  | zero => intro t hRA i pidx; rfl
  | succ f ihf =>
    intro t hRA i pidx
    rw [reAmortWalk]
    by_cases hint : periodIsInt (t.getD i blankRow).period = true
    · rw [if_pos hint]
      by_cases hcnt : pidx ≤ lc
      · rw [if_pos hcnt]
        rw [ihf]
        exact List.length_set _ _ _
      · rw [if_neg hcnt]
        rw [ihf]
        exact List.length_set _ _ _
    · rw [if_neg hint]
      exact ihf _ _ _ _

/-- An `if` between two table/flag pairs preserves a length bound when both
branches do. -/
theorem ifPair_length (C : Prop) [Decidable C] (A B : List Row × List Bool)
    (m : ℕ) (hA : A.1.length = m) (hB : B.1.length = m) :
    (if C then A else B).1.length = m := by
  by_cases hc : C
  · rw [if_pos hc]
    exact hA
  · rw [if_neg hc]
    exact hB

/-- `reAmortizeFutureRows` preserves the table length. -/
theorem reAmortizeFutureRows_length (p : Params) (t : List Row)
    (hRA : List Bool) (s e : ℕ) (lc : ℤ) (lp : ℚ) :
    (reAmortizeFutureRows p t hRA s e lc lp).1.length = t.length := by
  rw [reAmortizeFutureRows]
  by_cases hc : lc ≤ 0 ∨ lp ≤ eps
  · rw [if_pos hc]
  · rw [if_neg hc]
    exact reAmortWalk_length p lc lp _ _ _ _ _

/-- The tail of the scheduled-row step preserves the table length. -/
theorem afterConsumeA_length (p : Params) (n : ℕ) (M M' : ℕ → ℚ)
    (h0 : List Bool) (idx : ℕ) (periodEnd : ℤ) (pq : ℚ) (perMonthly : Bool)
    (dpr : ℚ) (totalDays : ℤ) (c : ConsumeRes) :
    (afterConsumeA p n M M' h0 idx periodEnd pq perMonthly dpr totalDays
      c).table.length = c.table.length := by
  simp only [afterConsumeA]
  rw [List.length_set]
  refine ifPair_length _ _ _ _ ?_ ?_
  · refine ifPair_length _ _ _ _ ?_ ?_
    · rw [reAmortizeFutureRows_length]
      exact List.length_set _ _ _
    · exact List.length_set _ _ _
  · exact List.length_set _ _ _

/-- A full scheduled-row step preserves the table length. -/
theorem processRowA_length (p : Params) (n : ℕ) (M M' : ℕ → ℚ) (st : AState)
    (idx : ℕ) :
    (processRowA p n M M' st idx).table.length = st.table.length := by
  rw [processRowA]
  rw [afterConsumeA_length, consumeA_length]

/-- The chronological pass preserves the table length. -/
theorem recalcPassA_length (p : Params) (n : ℕ) (M M' : ℕ → ℚ) :
    ∀ (L : List ℕ) (st : AState),
      (recalcPassA p n M M' st L).table.length = st.table.length := by
  intro L
  induction L with
  | nil => intro st; rfl
  | cons i rest ih =>
    intro st
    rw [recalcPassA]
    rw [ih, processRowA_length]

/-- Full recalculation preserves the table length. -/
theorem recalcAllA_length (p : Params) (t : List Row) :
    (recalcAllA p t).length = t.length := by
  rw [recalcAllA]
  by_cases h0 : usedLen t = 0
  · rw [if_pos h0]
  · rw [if_neg h0]
    exact recalcPassA_length p (usedLen t) _ _ _ _

/-- The used-prefix length depends only on the blank/non-blank pattern of
the period column. -/
theorem usedLen_congr : ∀ (t1 t2 : List Row), t1.length = t2.length →
    (∀ j, (t1.getD j blankRow).period.isSome = (t2.getD j blankRow).period.isSome) →
    usedLen t1 = usedLen t2 := by
  intro t1
  induction t1 with
  | nil =>
    intro t2 hl _
    cases t2 with
    | nil => rfl
    | cons b l2 => simp at hl
  | cons a l1 ih =>
    intro t2 hl hp
    cases t2 with
    | nil => simp at hl
    | cons b l2 =>
      have h0 : a.period.isSome = b.period.isSome := hp 0
      simp only [usedLen, List.takeWhile_cons]
      rw [h0]
      cases hb : b.period.isSome with
      | false => rfl
      | true =>
        have := ih l2 (by simpa using hl) (fun j => hp (j + 1))
        simp only [usedLen] at this
        simp only [if_true, List.length_cons, this]

/-- Index classification depends only on the two classification predicates
of the listed rows. -/
theorem classifyIdx_congr (t1 t2 : List Row) : ∀ (idxs : List ℕ),
    (∀ i ∈ idxs,
      isSchedRow (t1.getD i blankRow) = isSchedRow (t2.getD i blankRow) ∧
      isUnschedRow (t1.getD i blankRow) = isUnschedRow (t2.getD i blankRow)) →
    classifyIdx t1 idxs = classifyIdx t2 idxs := by
  intro idxs
  induction idxs with
  | nil => intro _; rfl
  | cons a rest ih =>
    intro h
    have ha := h a (by simp)
    have hrest := ih (fun i hi => h i (by simp [hi]))
    rw [classifyIdx, classifyIdx, hrest, ha.1, ha.2]

/-- Stable insertion depends only on the keys of the inserted index and the
list members. -/
theorem insertIdxBy_congr (key key' : ℕ → ℤ) (i : ℕ) (hi : key i = key' i) :
    ∀ (l : List ℕ), (∀ j ∈ l, key j = key' j) →
    insertIdxBy key i l = insertIdxBy key' i l := by
  intro l
  induction l with
  | nil => intro _; rfl
  | cons a rest ih =>
    intro h
    have ha := h a (by simp)
    rw [insertIdxBy, insertIdxBy, ha, hi, ih (fun j hj => h j (by simp [hj]))]

/-- The stable sort depends only on the keys of the list members. -/
theorem sortIdxBy_congr (key key' : ℕ → ℤ) :
    ∀ (l : List ℕ), (∀ j ∈ l, key j = key' j) →
    sortIdxBy key l = sortIdxBy key' l := by
  intro l
  induction l with
  | nil => intro _; rfl
  | cons a rest ih =>
    intro h
    rw [sortIdxBy, sortIdxBy, ih (fun j hj => h j (by simp [hj]))]
    refine insertIdxBy_congr key key' a (h a (by simp)) _ (fun j hj => ?_)
    exact h j (by simp [(mem_sortIdxBy key' rest j).mp hj])

/-- Classification-and-sort depends only on the classification predicates
and the sort keys of the classified rows (the scheduled key is only needed
on rows that classify as scheduled). -/
theorem separateRows_congr (t1 t2 : List Row) (count : ℕ)
    (h : ∀ i,
      isSchedRow (t1.getD i blankRow) = isSchedRow (t2.getD i blankRow) ∧
      isUnschedRow (t1.getD i blankRow) = isUnschedRow (t2.getD i blankRow) ∧
      unschedKey t1 i = unschedKey t2 i)
    (hs : ∀ i, isSchedRow (t2.getD i blankRow) = true → schedKey t1 i = schedKey t2 i) :
    separateRows t1 count = separateRows t2 count := by
  rw [separateRows, separateRows]
  rw [classifyIdx_congr t1 t2 (List.range count) (fun i _ => ⟨(h i).1, (h i).2.1⟩)]
  rw [sortIdxBy_congr (unschedKey t1) (unschedKey t2) _ (fun j _ => (h j).2.2)]
  rw [sortIdxBy_congr (schedKey t1) (schedKey t2) _ (fun j hj => ?_)]
  exact hs j ((mem_classifyIdx_sched t2 (List.range count) j).mp hj).2

/-- The scan for the last contiguous future row depends only on the
blank/non-blank pattern of the period column. -/
theorem scanFutureEndAux_congr (t1 t2 : List Row)
    (h : ∀ i, (t1.getD i blankRow).period.isSome = (t2.getD i blankRow).period.isSome) :
    ∀ (fuel i : ℕ), scanFutureEndAux t1 i fuel = scanFutureEndAux t2 i fuel := by
  intro fuel
  induction fuel with
  | zero => intro i; rfl
  | succ f ihf =>
    intro i
    rw [scanFutureEndAux, scanFutureEndAux, h i, ihf (i + 1)]

/-- The IPMT scratch column depends only on the period column of its row. -/
theorem ipmtMapOf_congr (p : Params) (t1 t2 : List Row) (n r : ℕ)
    (h : (t1.getD r blankRow).period = (t2.getD r blankRow).period) :
    ipmtMapOf p t1 n r = ipmtMapOf p t2 n r := by
  rw [ipmtMapOf, ipmtMapOf, h]

/-- The PPMT scratch column depends only on the period column of its row. -/
theorem ppmtMapOf_congr (p : Params) (t1 t2 : List Row) (n r : ℕ)
    (h : (t1.getD r blankRow).period = (t2.getD r blankRow).period) :
    ppmtMapOf p t1 n r = ppmtMapOf p t2 n r := by
  rw [ppmtMapOf, ppmtMapOf, h]

/-- A non-integer period row reads back `0` from the IPMT scratch column. -/
theorem ipmtMapOf_nonint (p : Params) (t : List Row) (n r : ℕ)
    (h : periodIsInt (t.getD r blankRow).period = false) :
    ipmtMapOf p t n r = 0 := by
  rw [ipmtMapOf]
  by_cases ha : p.amortizeYN = false
  · rw [if_pos ha]
  · rw [if_neg ha]
    cases hper : (t.getD r blankRow).period with
    | none => rfl
    | some q =>
      rw [hper] at h
      simp only [periodIsInt] at h
      simp [h]

/-- A non-integer period row reads back `0` from the PPMT scratch column. -/
theorem ppmtMapOf_nonint (p : Params) (t : List Row) (n r : ℕ)
    (h : periodIsInt (t.getD r blankRow).period = false) :
    ppmtMapOf p t n r = 0 := by
  rw [ppmtMapOf]
  by_cases ha : p.amortizeYN = false
  · rw [if_pos ha]
  · rw [if_neg ha]
    cases hper : (t.getD r blankRow).period with
    | none => rfl
    | some q =>
      rw [hper] at h
      simp only [periodIsInt] at h
      simp [h]

/-! ## C10: an unscheduled row dated after every scheduled period end is
never consumed

The consume loop (`src/LoanScript.js` lines 605-659) only pops an
unscheduled row while its paid-on date is on or before the period end of
the scheduled row being processed, and the only other writes of the pass
(the scheduled-row write-back and `reAmortizeFutureRows`) never touch a
row with a non-integer period number.  So a late unscheduled row keeps its
stored values, and its non-classification columns are irrelevant to every
other row of the output. -/

/-- Overwriting one row changes the blank/non-blank pattern of the period
column nowhere else, and at the written index only per the new row. -/
theorem period_isSome_set (t : List Row) (k : ℕ) (row' : Row)
    (h : row'.period.isSome = (t.getD k blankRow).period.isSome) :
    ∀ i, ((t.set k row').getD i blankRow).period.isSome
      = (t.getD i blankRow).period.isSome := by
  intro i
  rcases eq_or_ne i k with rfl | hne
  · rcases lt_or_le i t.length with hlt | hoob
    · rw [getD_set_self _ _ _ hlt]
      exact h
    · rw [set_oob _ _ _ hoob]
  · rw [getD_set_ne _ _ _ _ hne]

/-- Rows inside the used prefix have a non-blank period cell. -/
theorem usedLen_lt_isSome : ∀ (t : List Row) (k : ℕ), k < usedLen t →
    (t.getD k blankRow).period.isSome = true := by
  intro t
  induction t with
  | nil => intro k hk; simp [usedLen] at hk
  | cons a l ih =>
    intro k hk
    simp only [usedLen, List.takeWhile_cons] at hk
    cases ha : a.period.isSome with
    | false => rw [ha] at hk; simp at hk
    | true =>
      rw [ha] at hk
      simp only [if_true, List.length_cons] at hk
      cases k with
      | zero => exact ha
      | succ k' =>
        exact ih k' (by simpa [usedLen] using Nat.lt_of_succ_lt_succ hk)

/-- The future-row scan depends only on the blank/non-blank pattern of the
period column. -/
theorem scanFutureEnd_congr (t1 t2 : List Row)
    (h : ∀ i, (t1.getD i blankRow).period.isSome = (t2.getD i blankRow).period.isSome)
    (s l : ℕ) : scanFutureEnd t1 s l = scanFutureEnd t2 s l :=
  scanFutureEndAux_congr t1 t2 h (l - s) s

/-- Overwriting a row with one of the same blank/non-blank period status
does not change the future-row scan. -/
theorem scanFutureEnd_set (t : List Row) (k : ℕ) (row' : Row)
    (h : row'.period.isSome = (t.getD k blankRow).period.isSome) (s l : ℕ) :
    scanFutureEnd (t.set k row') s l = scanFutureEnd t s l :=
  scanFutureEnd_congr _ _ (period_isSome_set t k row' h) s l

/-- The consume loop never touches a row whose paid-on date is after the
period end. -/
theorem consumeA_getD_k (p : Params) (perMonthly : Bool) (dpr : ℚ)
    (totalDays : ℤ) (periodEnd : ℤ) (unscheds : List ℕ) (k : ℕ) (r0 : Row)
    (hd : periodEnd < r0.paidOn.getD 0) :
    ∀ (table : List Row) (subStart : ℤ) (used accrued unschedPaid rp ri rf : ℚ),
      table.getD k blankRow = r0 →
      (consumeA p perMonthly dpr totalDays periodEnd table unscheds subStart
        used accrued unschedPaid rp ri rf).table.getD k blankRow = r0 := by
  induction unscheds with
  | nil => intro table subStart used accrued unschedPaid rp ri rf hkeq; exact hkeq
  | cons u rest ih =>
    intro table subStart used accrued unschedPaid rp ri rf hkeq
    rw [consumeA]
    by_cases hle : (table.getD u blankRow).paidOn.getD 0 ≤ periodEnd
    · rw [if_pos hle]
      have hne : u ≠ k := by
        rintro rfl
        rw [hkeq] at hle
        exact absurd hle (not_le.mpr hd)
      apply ih
      exact (getD_set_ne _ _ _ _ (Ne.symm hne)).trans hkeq
    · rw [if_neg hle]
      exact hkeq

/-- The re-amortization walk never touches a row with a non-integer period
number. -/
theorem reAmortWalk_getD_k (p : Params) (lc : ℤ) (lp : ℚ) (k : ℕ) (r0 : Row)
    (hint : periodIsInt r0.period = false) :
    ∀ (fuel : ℕ) (t : List Row) (hRA : List Bool) (i : ℕ) (pidx : ℤ),
      t.getD k blankRow = r0 →
      (reAmortWalk p lc lp t hRA i pidx fuel).1.getD k blankRow = r0 := by
  intro fuel
  induction fuel with
  | zero => intro t hRA i pidx hkeq; exact hkeq
  | succ f ihf =>
    intro t hRA i pidx hkeq
    rw [reAmortWalk]
    by_cases hpi : periodIsInt (t.getD i blankRow).period = true
    · rw [if_pos hpi]
      have hne : i ≠ k := by
        rintro rfl
        rw [hkeq, hint] at hpi
        exact Bool.false_ne_true hpi
      by_cases hcnt : pidx ≤ lc
      · rw [if_pos hcnt]
        exact ihf _ _ _ _ ((getD_set_ne _ _ _ _ (Ne.symm hne)).trans hkeq)
      · rw [if_neg hcnt]
        exact ihf _ _ _ _ ((getD_set_ne _ _ _ _ (Ne.symm hne)).trans hkeq)
    · rw [if_neg hpi]
      exact ihf _ _ _ _ hkeq

/-- `reAmortizeFutureRows` never touches a row with a non-integer period
number. -/
theorem reAmortizeFutureRows_getD_k (p : Params) (t : List Row)
    (hRA : List Bool) (s e : ℕ) (lc : ℤ) (lp : ℚ) (k : ℕ) (r0 : Row)
    (hint : periodIsInt r0.period = false) (hkeq : t.getD k blankRow = r0) :
    (reAmortizeFutureRows p t hRA s e lc lp).1.getD k blankRow = r0 := by
  rw [reAmortizeFutureRows]
  by_cases hc : lc ≤ 0 ∨ lp ≤ eps
  · rw [if_pos hc]
    exact hkeq
  · rw [if_neg hc]
    exact reAmortWalk_getD_k p lc lp k r0 hint _ _ _ _ _ hkeq

/-- Reading a fixed row below an `if` between two table/flag pairs. -/
theorem ifPair_getD (C : Prop) [Decidable C] (A B : List Row × List Bool)
    (k : ℕ) (r0 : Row) (hA : A.1.getD k blankRow = r0)
    (hB : B.1.getD k blankRow = r0) :
    (if C then A else B).1.getD k blankRow = r0 := by
  by_cases hc : C
  · rw [if_pos hc]
    exact hA
  · rw [if_neg hc]
    exact hB

/-- The tail of the scheduled-row step never touches a different row with a
non-integer period number. -/
theorem afterConsumeA_getD_k (p : Params) (n : ℕ) (M M' : ℕ → ℚ)
    (h0 : List Bool) (idx : ℕ) (periodEnd : ℤ) (pq : ℚ) (perMonthly : Bool)
    (dpr : ℚ) (totalDays : ℤ) (c : ConsumeRes) (k : ℕ) (r0 : Row)
    (hne : idx ≠ k) (hkeq : c.table.getD k blankRow = r0)
    (hint : periodIsInt r0.period = false) :
    (afterConsumeA p n M M' h0 idx periodEnd pq perMonthly dpr totalDays
      c).table.getD k blankRow = r0 := by
  simp only [afterConsumeA]
  rw [getD_set_ne _ _ _ _ (Ne.symm hne)]
  refine ifPair_getD _ _ _ _ _ ?_ ?_
  · refine ifPair_getD _ _ _ _ _ ?_ ?_
    · exact reAmortizeFutureRows_getD_k _ _ _ _ _ _ _ _ _ hint
        ((getD_set_ne _ _ _ _ (Ne.symm hne)).trans hkeq)
    · exact (getD_set_ne _ _ _ _ (Ne.symm hne)).trans hkeq
  · exact (getD_set_ne _ _ _ _ (Ne.symm hne)).trans hkeq

/-- Overwriting a pending late unscheduled row (same paid-on date, dated
after the period end) commutes with the consume loop. -/
theorem consumeA_setk (p : Params) (perMonthly : Bool) (dpr : ℚ)
    (totalDays : ℤ) (periodEnd : ℤ) (unscheds : List ℕ) (k : ℕ) (row' : Row) :
    ∀ (table : List Row) (subStart : ℤ) (used accrued unschedPaid rp ri rf : ℚ),
      k < table.length →
      row'.paidOn = (table.getD k blankRow).paidOn →
      periodEnd < (table.getD k blankRow).paidOn.getD 0 →
      consumeA p perMonthly dpr totalDays periodEnd (table.set k row') unscheds
        subStart used accrued unschedPaid rp ri rf
      = { consumeA p perMonthly dpr totalDays periodEnd table unscheds subStart
            used accrued unschedPaid rp ri rf with
          table := (consumeA p perMonthly dpr totalDays periodEnd table unscheds
            subStart used accrued unschedPaid rp ri rf).table.set k row' } := by
  induction unscheds with
  | nil => intro table subStart used accrued unschedPaid rp ri rf hk hp hd; rfl
  | cons u rest ih =>
    intro table subStart used accrued unschedPaid rp ri rf hk hp hd
    simp only [consumeA]
    by_cases hu : u = k
    · subst hu
      rw [getD_set_self _ _ _ hk, hp]
      rw [if_neg (not_le.mpr hd), if_neg (not_le.mpr hd)]
    · rw [getD_set_ne table k u row' hu]
      by_cases hle : (table.getD u blankRow).paidOn.getD 0 ≤ periodEnd
      · rw [if_pos hle, if_pos hle]
        rw [List.set_comm _ _ _ (fun he => hu he.symm)]
        apply ih
        · rw [List.length_set]
          exact hk
        · rw [getD_set_ne table u k _ (Ne.symm hu)]
          exact hp
        · rw [getD_set_ne table u k _ (Ne.symm hu)]
          exact hd
      · rw [if_neg hle, if_neg hle]

/-- Overwriting a non-integer-period row with a non-integer-period row
commutes with the re-amortization walk. -/
theorem reAmortWalk_setk (p : Params) (lc : ℤ) (lp : ℚ) (k : ℕ) (row' : Row)
    (hint' : periodIsInt row'.period = false) :
    ∀ (fuel : ℕ) (t : List Row) (hRA : List Bool) (i : ℕ) (pidx : ℤ),
      k < t.length →
      periodIsInt (t.getD k blankRow).period = false →
      reAmortWalk p lc lp (t.set k row') hRA i pidx fuel
      = ((reAmortWalk p lc lp t hRA i pidx fuel).1.set k row',
         (reAmortWalk p lc lp t hRA i pidx fuel).2) := by
  intro fuel
  induction fuel with
  | zero => intro t hRA i pidx hk hint; rfl
  | succ f ihf =>
    intro t hRA i pidx hk hint
    simp only [reAmortWalk]
    by_cases hik : i = k
    · subst hik
      rw [getD_set_self _ _ _ hk]
      rw [if_neg (by rw [hint']; exact Bool.false_ne_true),
          if_neg (by rw [hint]; exact Bool.false_ne_true)]
      exact ihf _ _ _ _ hk hint
    · rw [getD_set_ne t k i row' hik]
      by_cases hpi : periodIsInt (t.getD i blankRow).period = true
      · rw [if_pos hpi, if_pos hpi]
        by_cases hcnt : pidx ≤ lc
        · rw [if_pos hcnt, if_pos hcnt]
          rw [List.set_comm _ _ _ (fun he => hik he.symm)]
          apply ihf
          · rw [List.length_set]
            exact hk
          · rw [getD_set_ne t i k _ (Ne.symm hik)]
            exact hint
        · rw [if_neg hcnt, if_neg hcnt]
          rw [List.set_comm _ _ _ (fun he => hik he.symm)]
          apply ihf
          · rw [List.length_set]
            exact hk
          · rw [getD_set_ne t i k _ (Ne.symm hik)]
            exact hint
      · rw [if_neg hpi, if_neg hpi]
        exact ihf _ _ _ _ hk hint

/-- Overwriting a non-integer-period row commutes with
`reAmortizeFutureRows`. -/
theorem reAmortizeFutureRows_setk (p : Params) (t : List Row)
    (hRA : List Bool) (s e : ℕ) (lc : ℤ) (lp : ℚ) (k : ℕ) (row' : Row)
    (hint' : periodIsInt row'.period = false) (hk : k < t.length)
    (hint : periodIsInt (t.getD k blankRow).period = false) :
    reAmortizeFutureRows p (t.set k row') hRA s e lc lp
    = ((reAmortizeFutureRows p t hRA s e lc lp).1.set k row',
       (reAmortizeFutureRows p t hRA s e lc lp).2) := by
  rw [reAmortizeFutureRows, reAmortizeFutureRows]
  by_cases hc : lc ≤ 0 ∨ lp ≤ eps
  · rw [if_pos hc, if_pos hc]
  · rw [if_neg hc, if_neg hc]
    exact reAmortWalk_setk p lc lp k row' hint' _ _ _ _ _ hk hint

/-- Overwriting a different non-integer-period row (same blank/non-blank
period status) commutes with the tail of the scheduled-row step. -/
theorem afterConsumeA_setk (p : Params) (n : ℕ) (M M' : ℕ → ℚ)
    (h0 : List Bool) (idx : ℕ) (periodEnd : ℤ) (pq : ℚ) (perMonthly : Bool)
    (dpr : ℚ) (totalDays : ℤ) (c : ConsumeRes) (k : ℕ) (row' : Row)
    (hne : idx ≠ k) (hk : k < c.table.length)
    (hint : periodIsInt (c.table.getD k blankRow).period = false)
    (hint' : periodIsInt row'.period = false)
    (hsome : (c.table.getD k blankRow).period.isSome = true)
    (hsome' : row'.period.isSome = true) :
    afterConsumeA p n M M' h0 idx periodEnd pq perMonthly dpr totalDays
      { c with table := c.table.set k row' }
    = { afterConsumeA p n M M' h0 idx periodEnd pq perMonthly dpr totalDays c with
        table := (afterConsumeA p n M M' h0 idx periodEnd pq perMonthly dpr
          totalDays c).table.set k row' } := by
  simp only [afterConsumeA]
  rw [getD_set_ne c.table k idx row' hne]
  rw [List.set_comm _ _ _ (fun he => hne he.symm)]
  rw [scanFutureEnd_set]
  rw [reAmortizeFutureRows_setk]
  · split_ifs <;> (
      dsimp only
      rw [getD_set_ne _ k idx row' hne,
          List.set_comm _ _ _ (fun he => hne he.symm)])
  · exact hint'
  · rw [List.length_set]
    exact hk
  · rw [getD_set_ne c.table idx k _ (Ne.symm hne)]
    exact hint
  · rw [getD_set_ne c.table idx k _ (Ne.symm hne), hsome', hsome]

/-- A full scheduled-row step never touches a non-integer-period row whose
paid-on date lies after the processed row's period end. -/
theorem processRowA_getD_k (p : Params) (n : ℕ) (M M' : ℕ → ℚ) (st : AState)
    (idx k : ℕ) (hne : idx ≠ k)
    (hint : periodIsInt (st.table.getD k blankRow).period = false)
    (hend : (st.table.getD idx blankRow).periodEnd.getD 0
      < (st.table.getD k blankRow).paidOn.getD 0) :
    (processRowA p n M M' st idx).table.getD k blankRow
      = st.table.getD k blankRow := by
  simp only [processRowA]
  apply afterConsumeA_getD_k
  · exact hne
  · apply consumeA_getD_k
    · exact hend
    · rfl
  · exact hint

/-- Overwriting a pending late unscheduled row commutes with a full
scheduled-row step: the step's table is written at the other indices
identically, and all scalar state components agree. -/
theorem processRowA_setk (p : Params) (n : ℕ) (M M' : ℕ → ℚ)
    (st st' : AState) (idx k : ℕ) (row' : Row)
    (hT : st'.table = st.table.set k row')
    (hH : st'.hasRA = st.hasRA) (hR : st'.rp = st.rp) (hI : st'.ri = st.ri)
    (hF : st'.rf = st.rf) (hU : st'.unscheds = st.unscheds)
    (hLE : st'.lastEnd = st.lastEnd)
    (hk : k < st.table.length) (hne : idx ≠ k)
    (hint : periodIsInt (st.table.getD k blankRow).period = false)
    (hint' : periodIsInt row'.period = false)
    (hsome : (st.table.getD k blankRow).period.isSome = true)
    (hsome' : row'.period.isSome = true)
    (hpd : row'.paidOn = (st.table.getD k blankRow).paidOn)
    (hend : (st.table.getD idx blankRow).periodEnd.getD 0
      < (st.table.getD k blankRow).paidOn.getD 0) :
    (processRowA p n M M' st' idx).table
      = (processRowA p n M M' st idx).table.set k row' ∧
    (processRowA p n M M' st' idx).hasRA = (processRowA p n M M' st idx).hasRA ∧
    (processRowA p n M M' st' idx).rp = (processRowA p n M M' st idx).rp ∧
    (processRowA p n M M' st' idx).ri = (processRowA p n M M' st idx).ri ∧
    (processRowA p n M M' st' idx).rf = (processRowA p n M M' st idx).rf ∧
    (processRowA p n M M' st' idx).unscheds
      = (processRowA p n M M' st idx).unscheds ∧
    (processRowA p n M M' st' idx).lastEnd
      = (processRowA p n M M' st idx).lastEnd := by
  have key : processRowA p n M M' st' idx
      = { processRowA p n M M' st idx with
          table := (processRowA p n M M' st idx).table.set k row' } := by
    simp only [processRowA]
    rw [hT, hH, hR, hI, hF, hU, hLE]
    rw [getD_set_ne st.table k idx row' hne]
    rw [consumeA_setk]
    · rw [afterConsumeA_setk]
      · exact hne
      · rw [consumeA_length]
        exact hk
      · rw [consumeA_getD_k _ _ _ _ _ _ _ _ hend]
        · exact hint
        · rfl
      · exact hint'
      · rw [consumeA_getD_k _ _ _ _ _ _ _ _ hend]
        · exact hsome
        · rfl
      · exact hsome'
    · exact hk
    · exact hpd
    · exact hend
  rw [key]
  exact ⟨rfl, rfl, rfl, rfl, rfl, rfl, rfl⟩

/-- The chronological pass never touches a non-integer-period row whose
paid-on date lies after every processed row's period end, and overwriting
that row (keeping its paid-on date and its non-integer non-blank period)
commutes with the pass. -/
theorem recalcPassA_setk (p : Params) (n : ℕ) (M M' : ℕ → ℚ) (t : List Row)
    (k : ℕ) (row' : Row)
    (hkl : k < t.length)
    (hint : periodIsInt (t.getD k blankRow).period = false)
    (hsome : (t.getD k blankRow).period.isSome = true)
    (hint' : periodIsInt row'.period = false)
    (hsome' : row'.period.isSome = true)
    (hpd : row'.paidOn = (t.getD k blankRow).paidOn) :
    ∀ (L : List ℕ) (st st' : AState),
      (∀ i ∈ L, i ≠ k ∧ (t.getD i blankRow).periodEnd.getD 0
        < (t.getD k blankRow).paidOn.getD 0) →
      st.table.length = t.length →
      (∀ j, sameR (st.table.getD j blankRow) (t.getD j blankRow)) →
      st.table.getD k blankRow = t.getD k blankRow →
      st'.table = st.table.set k row' →
      st'.hasRA = st.hasRA → st'.rp = st.rp → st'.ri = st.ri → st'.rf = st.rf →
      st'.unscheds = st.unscheds → st'.lastEnd = st.lastEnd →
      (recalcPassA p n M M' st L).table.getD k blankRow = t.getD k blankRow ∧
      (recalcPassA p n M M' st' L).table
        = (recalcPassA p n M M' st L).table.set k row' := by
  intro L
  induction L with
  | nil =>
    intro st st' hL hlen hsame hkeq hT hH hR hI hF hU hLE
    exact ⟨hkeq, hT⟩
  | cons i rest ih =>
    intro st st' hL hlen hsame hkeq hT hH hR hI hF hU hLE
    obtain ⟨hik, hiend⟩ := hL i (by simp)
    have hintS : periodIsInt (st.table.getD k blankRow).period = false := by
      rw [hkeq]; exact hint
    have hsomeS : (st.table.getD k blankRow).period.isSome = true := by
      rw [hkeq]; exact hsome
    have hpdS : row'.paidOn = (st.table.getD k blankRow).paidOn := by
      rw [hkeq]; exact hpd
    have hkS : k < st.table.length := by rw [hlen]; exact hkl
    have hendS : (st.table.getD i blankRow).periodEnd.getD 0
        < (st.table.getD k blankRow).paidOn.getD 0 := by
      rw [hkeq, (hsame i).2.1]
      exact hiend
    have step := processRowA_setk p n M M' st st' i k row' hT hH hR hI hF hU hLE
      hkS hik hintS hint' hsomeS hsome' hpdS hendS
    rw [recalcPassA, recalcPassA]
    exact ih (processRowA p n M M' st i) (processRowA p n M M' st' i)
      (fun i' hi' => hL i' (by simp [hi']))
      (by rw [processRowA_length]; exact hlen)
      (fun j => processRowA_sameR p n M M' st i t hsame j)
      ((processRowA_getD_k p n M M' st i k hik hintS hendS).trans hkeq)
      step.1 step.2.1 step.2.2.1 step.2.2.2.1 step.2.2.2.2.1
      step.2.2.2.2.2.1 step.2.2.2.2.2.2

set_option maxHeartbeats 1000000 in
/-- C10: revision A's recalculation consumes an unscheduled row only while
processing a scheduled row whose period-end date is on or after that
unscheduled row's paid-on date.  Consequently, for a used-range unscheduled
row `k` (non-integer period) whose paid-on date is strictly after every
scheduled row's period end: the output keeps row `k` exactly as stored (its
total-paid and balance columns retain their prior values), and overwriting
row `k`'s stored columns — keeping its paid-on date and a non-blank
non-integer period so its classification is unchanged — changes no other
row of the output: the late unscheduled row has no effect on any scheduled
row's due amounts or balances. -/
theorem late_unscheduled_row_inert (p : Params) (t : List Row) (k : ℕ)
    (row' : Row) (hk : k < usedLen t)
    (hint : periodIsInt (t.getD k blankRow).period = false)
    (hlate : ∀ j, j < usedLen t → isSchedRow (t.getD j blankRow) = true →
      (t.getD j blankRow).periodEnd.getD 0 < (t.getD k blankRow).paidOn.getD 0)
    (hint' : periodIsInt row'.period = false)
    (hsome' : row'.period.isSome = true)
    (hpd' : row'.paidOn = (t.getD k blankRow).paidOn) :
    (recalcAllA p t).getD k blankRow = t.getD k blankRow ∧
    ∀ j, j ≠ k → (recalcAllA p (t.set k row')).getD j blankRow
      = (recalcAllA p t).getD j blankRow := by
  have hsome : (t.getD k blankRow).period.isSome = true := usedLen_lt_isSome t k hk
  have hkl : k < t.length :=
    lt_of_lt_of_le hk ((List.takeWhile_sublist _).length_le)
  have hnz : ¬ usedLen t = 0 := by omega
  have hUL : usedLen (t.set k row') = usedLen t :=
    usedLen_congr _ _ (List.length_set _ _ _)
      (period_isSome_set t k row' (by rw [hsome', hsome]))
  have hcls : ∀ i,
      isSchedRow ((t.set k row').getD i blankRow) = isSchedRow (t.getD i blankRow) ∧
      isUnschedRow ((t.set k row').getD i blankRow) = isUnschedRow (t.getD i blankRow) ∧
      unschedKey (t.set k row') i = unschedKey t i := by
    intro i
    rcases eq_or_ne i k with rfl | hne
    · refine ⟨?_, ?_, ?_⟩
      · rw [getD_set_self _ _ _ hkl]
        rw [isSchedRow, isSchedRow, hint', hint]
        simp only [Bool.false_and]
      · rw [getD_set_self _ _ _ hkl]
        rw [isUnschedRow, isUnschedRow, hint', hint, hpd']
      · rw [unschedKey, unschedKey, getD_set_self _ _ _ hkl, hpd']
    · rw [getD_set_ne _ _ _ _ hne]
      exact ⟨rfl, rfl, by rw [unschedKey, unschedKey, getD_set_ne _ _ _ _ hne]⟩
  have hs : ∀ i, isSchedRow (t.getD i blankRow) = true →
      schedKey (t.set k row') i = schedKey t i := by
    intro i hi
    rcases eq_or_ne i k with rfl | hne
    · exfalso
      rw [isSchedRow, hint] at hi
      simp at hi
    · rw [schedKey, schedKey, getD_set_ne _ _ _ _ hne]
  have hSR : separateRows (t.set k row') (usedLen t) = separateRows t (usedLen t) :=
    separateRows_congr _ _ _ hcls hs
  have hIM : ipmtMapOf p (t.set k row') (usedLen t) = ipmtMapOf p t (usedLen t) := by
    funext r
    rcases eq_or_ne r k with rfl | hne
    · rw [ipmtMapOf_nonint _ _ _ _ (by rw [getD_set_self _ _ _ hkl]; exact hint'),
          ipmtMapOf_nonint _ _ _ _ hint]
    · exact ipmtMapOf_congr p _ t _ r (by rw [getD_set_ne _ _ _ _ hne])
  have hPM : ppmtMapOf p (t.set k row') (usedLen t) = ppmtMapOf p t (usedLen t) := by
    funext r
    rcases eq_or_ne r k with rfl | hne
    · rw [ppmtMapOf_nonint _ _ _ _ (by rw [getD_set_self _ _ _ hkl]; exact hint'),
          ppmtMapOf_nonint _ _ _ _ hint]
    · exact ppmtMapOf_congr p _ t _ r (by rw [getD_set_ne _ _ _ _ hne])
  have hmem : ∀ i ∈ (separateRows t (usedLen t)).1,
      i ≠ k ∧ (t.getD i blankRow).periodEnd.getD 0
        < (t.getD k blankRow).paidOn.getD 0 := by
    intro i hi
    simp only [separateRows] at hi
    have h1 := (mem_sortIdxBy _ _ i).mp hi
    have h2 := (mem_classifyIdx_sched t (List.range (usedLen t)) i).mp h1
    have hilt := List.mem_range.mp h2.1
    have hneik : i ≠ k := by
      rintro rfl
      have hx := h2.2
      rw [isSchedRow, hint] at hx
      simp at hx
    exact ⟨hneik, hlate i hilt h2.2⟩
  constructor
  · rw [recalcAllA]
    rw [if_neg hnz]
    exact (recalcPassA_setk p (usedLen t) (ipmtMapOf p t (usedLen t))
      (ppmtMapOf p t (usedLen t)) t k row' hkl hint hsome hint' hsome' hpd'
      (separateRows t (usedLen t)).1
      { table := t, hasRA := List.replicate (usedLen t) false, rp := p.principal
        ri := 0, rf := 0, unscheds := (separateRows t (usedLen t)).2
        lastEnd := p.closingDate }
      { table := t.set k row', hasRA := List.replicate (usedLen t) false
        rp := p.principal, ri := 0, rf := 0
        unscheds := (separateRows t (usedLen t)).2, lastEnd := p.closingDate }
      hmem rfl (fun _ => sameR_refl _) rfl rfl rfl rfl rfl rfl rfl rfl).1
  · intro j hj
    rw [recalcAllA, recalcAllA]
    rw [hUL, if_neg hnz, if_neg hnz]
    rw [hSR, hIM, hPM]
    rw [(recalcPassA_setk p (usedLen t) (ipmtMapOf p t (usedLen t))
      (ppmtMapOf p t (usedLen t)) t k row' hkl hint hsome hint' hsome' hpd'
      (separateRows t (usedLen t)).1
      { table := t, hasRA := List.replicate (usedLen t) false, rp := p.principal
        ri := 0, rf := 0, unscheds := (separateRows t (usedLen t)).2
        lastEnd := p.closingDate }
      { table := t.set k row', hasRA := List.replicate (usedLen t) false
        rp := p.principal, ri := 0, rf := 0
        unscheds := (separateRows t (usedLen t)).2, lastEnd := p.closingDate }
      hmem rfl (fun _ => sameR_refl _) rfl rfl rfl rfl rfl rfl rfl rfl).2]
    rw [getD_set_ne _ _ _ _ hj]

/-- Schedule with one scheduled row (period 1 ending day 30) and one
unscheduled row paid on day 100, after every scheduled period end. -/
def tLate : List Row := [ mkSched 1 30, mkUnsched (3 / 2) 100 60 ]

/-- The late unscheduled row with different stored payment columns. -/
def rowLate : Row := mkUnsched (3 / 2) 100 999

set_option maxHeartbeats 1000000 in
theorem late_unscheduled_row_inert_witness :
    1 < usedLen tLate ∧
    ((recalcAllA pTwoMonth tLate).getD 1 blankRow = tLate.getD 1 blankRow ∧
     ∀ j, j ≠ 1 → (recalcAllA pTwoMonth (tLate.set 1 rowLate)).getD j blankRow
       = (recalcAllA pTwoMonth tLate).getD j blankRow) := by
  constructor
  · norm_num [usedLen, List.takeWhile, tLate, mkSched, mkUnsched, blankRow]
  · refine late_unscheduled_row_inert pTwoMonth tLate 1 rowLate ?_ ?_ ?_ ?_ ?_ ?_
    · norm_num [usedLen, List.takeWhile, tLate, mkSched, mkUnsched, blankRow]
    · norm_num [tLate, mkSched, mkUnsched, blankRow, List.getD, periodIsInt, qIsInt]
    · intro j hj hsched
      have hj2 : j < 2 := by
        have : usedLen tLate = 2 := by
          norm_num [usedLen, List.takeWhile, tLate, mkSched, mkUnsched, blankRow]
        omega
      interval_cases j
      · norm_num [tLate, mkSched, mkUnsched, blankRow, List.getD]
      · exfalso
        rw [isSchedRow] at hsched
        norm_num [tLate, mkSched, mkUnsched, blankRow, List.getD] at hsched
    · norm_num [rowLate, mkUnsched, blankRow, periodIsInt, qIsInt]
    · norm_num [rowLate, mkUnsched, blankRow]
    · norm_num [rowLate, tLate, mkUnsched, mkSched, blankRow, List.getD]

/-! ## C6: idempotence of revision A's recalculation

Strategy: a binary simulation of the pass on the input table `ta` (first
run) against the pass on `tb := recalcAllA p ta` (second run).  The two
runs read only stored (`sameR`) columns and scalars — the one exception,
the due columns of a row whose `hasReAmortized` flag is set, is covered by
the invariant that a set flag implies both in-progress tables carry the
same (same-pass-written) due values.  Each computed cell is then either
written identically in both runs or left at its initial value in both. -/

/-- A computed cell of the two in-progress tables: already written
identically, or still at its initial value in both runs. -/
def fieldOk (x y a b : ℚ) : Prop := x = y ∨ (x = a ∧ y = b)

/-- The two due columns read back by the due-amount decision under a set
`hasReAmortized` flag. -/
def duesEq (r1 r2 : Row) : Prop :=
  r1.interestDue = r2.interestDue ∧ r1.principalDue = r2.principalDue

/-- All seven computed columns of a pair of in-progress rows are
written-identically-or-both-initial relative to the base rows. -/
def wRel (r1 r2 a b : Row) : Prop :=
  fieldOk r1.totalDue r2.totalDue a.totalDue b.totalDue ∧
  fieldOk r1.totalPaid r2.totalPaid a.totalPaid b.totalPaid ∧
  fieldOk r1.principalDue r2.principalDue a.principalDue b.principalDue ∧
  fieldOk r1.interestDue r2.interestDue a.interestDue b.interestDue ∧
  fieldOk r1.intBal r2.intBal a.intBal b.intBal ∧
  fieldOk r1.prinBal r2.prinBal a.prinBal b.prinBal ∧
  fieldOk r1.totalBal r2.totalBal a.totalBal b.totalBal

theorem fieldOk_init (a b : ℚ) : fieldOk a b a b := Or.inr ⟨rfl, rfl⟩

theorem wRel_init (a b : Row) : wRel a b a b :=
  ⟨fieldOk_init _ _, fieldOk_init _ _, fieldOk_init _ _, fieldOk_init _ _,
   fieldOk_init _ _, fieldOk_init _ _, fieldOk_init _ _⟩

/-- A write step: a cell written identically, or copied unchanged in both
runs, keeps `fieldOk`. -/
theorem fieldOk_step {x y a b x' y' : ℚ} (h : fieldOk x y a b)
    (hs : x' = y' ∨ (x' = x ∧ y' = y)) : fieldOk x' y' a b := by
  rcases hs with he | ⟨hx, hy⟩
  · exact Or.inl he
  · rcases h with he' | ⟨ha, hb⟩
    · exact Or.inl (by rw [hx, hy, he'])
    · exact Or.inr ⟨hx.trans ha, hy.trans hb⟩

/-- A row write in which every computed column is either written
identically in both runs or copied from the overwritten rows keeps
`wRel`. -/
theorem wRel_step {r1 r2 a b r1' r2' : Row} (h : wRel r1 r2 a b)
    (h1 : r1'.totalDue = r2'.totalDue ∨
      (r1'.totalDue = r1.totalDue ∧ r2'.totalDue = r2.totalDue))
    (h2 : r1'.totalPaid = r2'.totalPaid ∨
      (r1'.totalPaid = r1.totalPaid ∧ r2'.totalPaid = r2.totalPaid))
    (h3 : r1'.principalDue = r2'.principalDue ∨
      (r1'.principalDue = r1.principalDue ∧ r2'.principalDue = r2.principalDue))
    (h4 : r1'.interestDue = r2'.interestDue ∨
      (r1'.interestDue = r1.interestDue ∧ r2'.interestDue = r2.interestDue))
    (h5 : r1'.intBal = r2'.intBal ∨ (r1'.intBal = r1.intBal ∧ r2'.intBal = r2.intBal))
    (h6 : r1'.prinBal = r2'.prinBal ∨ (r1'.prinBal = r1.prinBal ∧ r2'.prinBal = r2.prinBal))
    (h7 : r1'.totalBal = r2'.totalBal ∨
      (r1'.totalBal = r1.totalBal ∧ r2'.totalBal = r2.totalBal)) :
    wRel r1' r2' a b :=
  ⟨fieldOk_step h.1 h1, fieldOk_step h.2.1 h2, fieldOk_step h.2.2.1 h3,
   fieldOk_step h.2.2.2.1 h4, fieldOk_step h.2.2.2.2.1 h5,
   fieldOk_step h.2.2.2.2.2.1 h6, fieldOk_step h.2.2.2.2.2.2 h7⟩

/-- Parallel writes at the same index keep the pointwise `wRel` when the
written rows satisfy the write-step conditions. -/
theorem wRel_set (T1 T2 ta tb : List Row) (u : ℕ) (r1' r2' : Row)
    (hlen : T1.length = T2.length)
    (hw : ∀ j, wRel (T1.getD j blankRow) (T2.getD j blankRow)
      (ta.getD j blankRow) (tb.getD j blankRow))
    (hstep : wRel (T1.getD u blankRow) (T2.getD u blankRow)
        (ta.getD u blankRow) (tb.getD u blankRow) →
      wRel r1' r2' (ta.getD u blankRow) (tb.getD u blankRow)) :
    ∀ j, wRel ((T1.set u r1').getD j blankRow) ((T2.set u r2').getD j blankRow)
      (ta.getD j blankRow) (tb.getD j blankRow) := by
  intro j
  rcases eq_or_ne j u with rfl | hne
  · rcases lt_or_le j T1.length with hlt | hoob
    · rw [getD_set_self _ _ _ hlt, getD_set_self _ _ _ (hlen ▸ hlt)]
      exact hstep (hw j)
    · rw [set_oob _ _ _ hoob, set_oob _ _ _ (hlen ▸ hoob)]
      exact hw j
  · rw [getD_set_ne _ _ _ _ hne, getD_set_ne _ _ _ _ hne]
    exact hw j

/-- `List.getD` after writing another index, for any element type. -/
theorem getDg_set_ne {α : Type} (l : List α) (d : α) (u j : ℕ) (a : α)
    (h : j ≠ u) : (l.set u a).getD j d = l.getD j d := by
  simp [List.getD_eq_getElem?_getD, List.getElem?_set_ne (Ne.symm h)]

/-- `List.getD` of a replicated `false` flag list is always `false`. -/
theorem replicate_getD_false : ∀ (n j : ℕ),
    (List.replicate n false).getD j false = false := by
  intro n
  induction n with
  | zero => intro j; rfl
  | succ m ih =>
    intro j
    cases j with
    | zero => rfl
    | succ j' => exact ih j'

/-- The scheduled-row predicate depends only on the period and period-end
columns. -/
theorem isSchedRow_congr (a b : Row) (h1 : a.period = b.period)
    (h2 : a.periodEnd = b.periodEnd) : isSchedRow a = isSchedRow b := by
  rw [isSchedRow, isSchedRow, h1, h2]

/-- The unscheduled-row predicate depends only on the period and paid-on
columns. -/
theorem isUnschedRow_congr (a b : Row) (h1 : a.period = b.period)
    (h2 : a.paidOn = b.paidOn) : isUnschedRow a = isUnschedRow b := by
  rw [isUnschedRow, isUnschedRow, h1, h2]

/-- Revision A's inline unscheduled-row test depends only on the period
and period-end columns. -/
theorem isUnscheduledRowLS_congr (a b : Row) (h1 : a.period = b.period)
    (h2 : a.periodEnd = b.periodEnd) :
    isUnscheduledRowLS a = isUnscheduledRowLS b := by
  rw [isUnscheduledRowLS, isUnscheduledRowLS, h1, h2]

/-- The due-amount decision reads only the period column of the row — plus
its due columns when the `hasReAmortized` flag is set. -/
theorem dueAmountsA_congr (p : Params) (r1 r2 : Row) (hRAHere : Bool)
    (iV pV rp ri acc up : ℚ) (hper : r1.period = r2.period)
    (hdues : hRAHere = true → duesEq r1 r2) :
    dueAmountsA p r1 hRAHere iV pV rp ri acc up
      = dueAmountsA p r2 hRAHere iV pV rp ri acc up := by
  cases hRAHere with
  | false => simp [dueAmountsA, hper]
  | true =>
    obtain ⟨hd1, hd2⟩ := hdues rfl
    simp [dueAmountsA, hper, hd1, hd2]

theorem sameR_period {a b : Row} (h : sameR a b) : a.period = b.period := h.1

theorem sameR_periodEnd {a b : Row} (h : sameR a b) : a.periodEnd = b.periodEnd :=
  h.2.1

theorem sameR_paidOn {a b : Row} (h : sameR a b) : a.paidOn = b.paidOn :=
  h.2.2.2.2.1

theorem sameR_principalPaid {a b : Row} (h : sameR a b) :
    a.principalPaid = b.principalPaid := h.2.2.2.2.2.1

theorem sameR_interestPaid {a b : Row} (h : sameR a b) :
    a.interestPaid = b.interestPaid := h.2.2.2.2.2.2.1

theorem sameR_feesDue {a b : Row} (h : sameR a b) : a.feesDue = b.feesDue :=
  h.2.2.2.2.2.2.2.1

theorem sameR_feesPaid {a b : Row} (h : sameR a b) : a.feesPaid = b.feesPaid :=
  h.2.2.2.2.2.2.2.2.1

/-- The consume loop, run on the two related in-progress tables with equal
scalars, pops the same rows, produces the same scalars, and keeps the
pointwise cell relation. -/
theorem consumeA_sim (p : Params) (pm : Bool) (dpr : ℚ) (td pe : ℤ)
    (unscheds : List ℕ) (ta tb : List Row)
    (hab : ∀ j, sameR (tb.getD j blankRow) (ta.getD j blankRow)) :
    ∀ (T1 T2 : List Row) (ss : ℤ) (us ac up rp ri rf : ℚ),
      T1.length = T2.length →
      (∀ j, sameR (T1.getD j blankRow) (ta.getD j blankRow)) →
      (∀ j, sameR (T2.getD j blankRow) (tb.getD j blankRow)) →
      (∀ j, wRel (T1.getD j blankRow) (T2.getD j blankRow)
        (ta.getD j blankRow) (tb.getD j blankRow)) →
      (consumeA p pm dpr td pe T2 unscheds ss us ac up rp ri rf).unscheds
        = (consumeA p pm dpr td pe T1 unscheds ss us ac up rp ri rf).unscheds ∧
      (consumeA p pm dpr td pe T2 unscheds ss us ac up rp ri rf).subStart
        = (consumeA p pm dpr td pe T1 unscheds ss us ac up rp ri rf).subStart ∧
      (consumeA p pm dpr td pe T2 unscheds ss us ac up rp ri rf).used
        = (consumeA p pm dpr td pe T1 unscheds ss us ac up rp ri rf).used ∧
      (consumeA p pm dpr td pe T2 unscheds ss us ac up rp ri rf).accrued
        = (consumeA p pm dpr td pe T1 unscheds ss us ac up rp ri rf).accrued ∧
      (consumeA p pm dpr td pe T2 unscheds ss us ac up rp ri rf).unschedPaid
        = (consumeA p pm dpr td pe T1 unscheds ss us ac up rp ri rf).unschedPaid ∧
      (consumeA p pm dpr td pe T2 unscheds ss us ac up rp ri rf).rp
        = (consumeA p pm dpr td pe T1 unscheds ss us ac up rp ri rf).rp ∧
      (consumeA p pm dpr td pe T2 unscheds ss us ac up rp ri rf).ri
        = (consumeA p pm dpr td pe T1 unscheds ss us ac up rp ri rf).ri ∧
      (consumeA p pm dpr td pe T2 unscheds ss us ac up rp ri rf).rf
        = (consumeA p pm dpr td pe T1 unscheds ss us ac up rp ri rf).rf ∧
      (∀ j, wRel
        ((consumeA p pm dpr td pe T1 unscheds ss us ac up rp ri rf).table.getD
          j blankRow)
        ((consumeA p pm dpr td pe T2 unscheds ss us ac up rp ri rf).table.getD
          j blankRow)
        (ta.getD j blankRow) (tb.getD j blankRow)) := by
  induction unscheds with
  | nil =>
    intro T1 T2 ss us ac up rp ri rf hlen hs1 hs2 hw
    exact ⟨rfl, rfl, rfl, rfl, rfl, rfl, rfl, rfl, hw⟩
  | cons u rest ih =>
    intro T1 T2 ss us ac up rp ri rf hlen hs1 hs2 hw
    have epo : (T2.getD u blankRow).paidOn = (T1.getD u blankRow).paidOn :=
      ((sameR_paidOn (hs2 u)).trans (sameR_paidOn (hab u))).trans
        (sameR_paidOn (hs1 u)).symm
    have epp : (T2.getD u blankRow).principalPaid
        = (T1.getD u blankRow).principalPaid :=
      ((sameR_principalPaid (hs2 u)).trans (sameR_principalPaid (hab u))).trans
        (sameR_principalPaid (hs1 u)).symm
    have eip : (T2.getD u blankRow).interestPaid
        = (T1.getD u blankRow).interestPaid :=
      ((sameR_interestPaid (hs2 u)).trans (sameR_interestPaid (hab u))).trans
        (sameR_interestPaid (hs1 u)).symm
    have efd : (T2.getD u blankRow).feesDue = (T1.getD u blankRow).feesDue :=
      ((sameR_feesDue (hs2 u)).trans (sameR_feesDue (hab u))).trans
        (sameR_feesDue (hs1 u)).symm
    have efp : (T2.getD u blankRow).feesPaid = (T1.getD u blankRow).feesPaid :=
      ((sameR_feesPaid (hs2 u)).trans (sameR_feesPaid (hab u))).trans
        (sameR_feesPaid (hs1 u)).symm
    simp only [consumeA]
    rw [epo, epp, eip, efd, efp]
    by_cases hle : (T1.getD u blankRow).paidOn.getD 0 ≤ pe
    · rw [if_pos hle, if_pos hle]
      apply ih
      · rw [List.length_set, List.length_set]
        exact hlen
      · intro j
        exact sameR_trans
          (sameR_getD_set _ _ _ _ ⟨rfl, rfl, rfl, rfl, rfl, rfl, rfl, rfl, rfl, rfl⟩)
          (hs1 j)
      · intro j
        exact sameR_trans
          (sameR_getD_set _ _ _ _
            ⟨rfl, rfl, rfl, rfl, epo.symm, epp.symm, eip.symm, efd.symm,
             efp.symm, rfl⟩)
          (hs2 j)
      · apply wRel_set _ _ _ _ _ _ _ hlen hw
        intro hwu
        apply wRel_step hwu
        · exact Or.inr ⟨rfl, rfl⟩
        · exact Or.inl rfl
        · exact Or.inr ⟨rfl, rfl⟩
        · exact Or.inr ⟨rfl, rfl⟩
        · exact Or.inl rfl
        · exact Or.inl rfl
        · exact Or.inl rfl
    · rw [if_neg hle, if_neg hle]
      exact ⟨rfl, rfl, rfl, rfl, rfl, rfl, rfl, rfl, hw⟩

/-- `List.getD` past the end of the list gives the default. -/
theorem getD_oob {α : Type} (l : List α) (d : α) (j : ℕ) (h : l.length ≤ j) :
    l.getD j d = d := by
  simp [List.getD_eq_getElem?_getD, List.getElem?_eq_none h]

/-- The re-amortization walk, run on the two related tables with the same
flag list and scalars, produces the same flags, keeps the pointwise cell
relation, and writes equal due columns wherever it sets a flag. -/
theorem reAmortWalk_sim (p : Params) (lc : ℤ) (lp : ℚ) (ta tb : List Row)
    (hab : ∀ j, sameR (tb.getD j blankRow) (ta.getD j blankRow)) :
    ∀ (fuel : ℕ) (T1 T2 : List Row) (H : List Bool) (i : ℕ) (pidx : ℤ),
      T1.length = T2.length →
      (∀ j, sameR (T1.getD j blankRow) (ta.getD j blankRow)) →
      (∀ j, sameR (T2.getD j blankRow) (tb.getD j blankRow)) →
      (∀ j, wRel (T1.getD j blankRow) (T2.getD j blankRow)
        (ta.getD j blankRow) (tb.getD j blankRow)) →
      (∀ j, H.getD j false = true →
        duesEq (T1.getD j blankRow) (T2.getD j blankRow)) →
      (reAmortWalk p lc lp T2 H i pidx fuel).2
        = (reAmortWalk p lc lp T1 H i pidx fuel).2 ∧
      (∀ j, wRel ((reAmortWalk p lc lp T1 H i pidx fuel).1.getD j blankRow)
        ((reAmortWalk p lc lp T2 H i pidx fuel).1.getD j blankRow)
        (ta.getD j blankRow) (tb.getD j blankRow)) ∧
      (∀ j, (reAmortWalk p lc lp T1 H i pidx fuel).2.getD j false = true →
        duesEq ((reAmortWalk p lc lp T1 H i pidx fuel).1.getD j blankRow)
          ((reAmortWalk p lc lp T2 H i pidx fuel).1.getD j blankRow)) := by
  intro fuel
  induction fuel with
  | zero =>
    intro T1 T2 H i pidx hlen hs1 hs2 hw hflag
    exact ⟨rfl, hw, hflag⟩
  | succ f ihf =>
    intro T1 T2 H i pidx hlen hs1 hs2 hw hflag
    have eper : (T2.getD i blankRow).period = (T1.getD i blankRow).period :=
      ((sameR_period (hs2 i)).trans (sameR_period (hab i))).trans
        (sameR_period (hs1 i)).symm
    have efd : (T2.getD i blankRow).feesDue = (T1.getD i blankRow).feesDue :=
      ((sameR_feesDue (hs2 i)).trans (sameR_feesDue (hab i))).trans
        (sameR_feesDue (hs1 i)).symm
    simp only [reAmortWalk]
    rw [eper, efd]
    by_cases hint : periodIsInt (T1.getD i blankRow).period = true
    · rw [if_pos hint, if_pos hint]
      by_cases hcnt : pidx ≤ lc
      · rw [if_pos hcnt, if_pos hcnt]
        apply ihf
        · rw [List.length_set, List.length_set]
          exact hlen
        · intro j
          exact sameR_trans
            (sameR_getD_set _ _ _ _
              ⟨rfl, rfl, rfl, rfl, rfl, rfl, rfl, rfl, rfl, rfl⟩)
            (hs1 j)
        · intro j
          exact sameR_trans
            (sameR_getD_set _ _ _ _
              ⟨eper.symm, rfl, rfl, rfl, rfl, rfl, rfl, efd.symm, rfl, rfl⟩)
            (hs2 j)
        · apply wRel_set _ _ _ _ _ _ _ hlen hw
          intro hwu
          apply wRel_step hwu
          · exact Or.inl rfl
          · exact Or.inr ⟨rfl, rfl⟩
          · exact Or.inl rfl
          · exact Or.inl rfl
          · exact Or.inr ⟨rfl, rfl⟩
          · exact Or.inr ⟨rfl, rfl⟩
          · exact Or.inr ⟨rfl, rfl⟩
        · intro j hj
          rcases eq_or_ne j i with rfl | hne
          · rcases lt_or_le j T1.length with hlt | hoob
            · rw [getD_set_self _ _ _ hlt, getD_set_self _ _ _ (hlen ▸ hlt)]
              exact ⟨rfl, rfl⟩
            · rw [set_oob _ _ _ hoob, set_oob _ _ _ (hlen ▸ hoob)]
              rw [getD_oob _ _ _ hoob, getD_oob _ _ _ (hlen ▸ hoob)]
              exact ⟨rfl, rfl⟩
          · rw [getDg_set_ne _ _ _ _ _ hne] at hj
            rw [getD_set_ne _ _ _ _ hne, getD_set_ne _ _ _ _ hne]
            exact hflag j hj
      · rw [if_neg hcnt, if_neg hcnt]
        apply ihf
        · rw [List.length_set, List.length_set]
          exact hlen
        · intro j
          exact sameR_trans
            (sameR_getD_set _ _ _ _
              ⟨rfl, rfl, rfl, rfl, rfl, rfl, rfl, rfl, rfl, rfl⟩)
            (hs1 j)
        · intro j
          exact sameR_trans
            (sameR_getD_set _ _ _ _
              ⟨eper.symm, rfl, rfl, rfl, rfl, rfl, rfl, efd.symm, rfl, rfl⟩)
            (hs2 j)
        · apply wRel_set _ _ _ _ _ _ _ hlen hw
          intro hwu
          apply wRel_step hwu
          · exact Or.inl rfl
          · exact Or.inr ⟨rfl, rfl⟩
          · exact Or.inl rfl
          · exact Or.inl rfl
          · exact Or.inr ⟨rfl, rfl⟩
          · exact Or.inr ⟨rfl, rfl⟩
          · exact Or.inr ⟨rfl, rfl⟩
        · intro j hj
          rcases eq_or_ne j i with rfl | hne
          · rcases lt_or_le j T1.length with hlt | hoob
            · rw [getD_set_self _ _ _ hlt, getD_set_self _ _ _ (hlen ▸ hlt)]
              exact ⟨rfl, rfl⟩
            · rw [set_oob _ _ _ hoob, set_oob _ _ _ (hlen ▸ hoob)]
              rw [getD_oob _ _ _ hoob, getD_oob _ _ _ (hlen ▸ hoob)]
              exact ⟨rfl, rfl⟩
          · rw [getDg_set_ne _ _ _ _ _ hne] at hj
            rw [getD_set_ne _ _ _ _ hne, getD_set_ne _ _ _ _ hne]
            exact hflag j hj
    · rw [if_neg hint, if_neg hint]
      exact ihf _ _ _ _ _ hlen hs1 hs2 hw hflag

/-- `reAmortizeFutureRows`, run on the two related tables, produces the
same flags, keeps the pointwise cell relation, and keeps the
flag-implies-equal-dues invariant. -/
theorem reAmortizeFutureRows_sim (p : Params) (ta tb : List Row)
    (hab : ∀ j, sameR (tb.getD j blankRow) (ta.getD j blankRow))
    (T1 T2 : List Row) (H : List Bool) (s e : ℕ) (lc : ℤ) (lp : ℚ)
    (hlen : T1.length = T2.length)
    (hs1 : ∀ j, sameR (T1.getD j blankRow) (ta.getD j blankRow))
    (hs2 : ∀ j, sameR (T2.getD j blankRow) (tb.getD j blankRow))
    (hw : ∀ j, wRel (T1.getD j blankRow) (T2.getD j blankRow)
      (ta.getD j blankRow) (tb.getD j blankRow))
    (hflag : ∀ j, H.getD j false = true →
      duesEq (T1.getD j blankRow) (T2.getD j blankRow)) :
    (reAmortizeFutureRows p T2 H s e lc lp).2
      = (reAmortizeFutureRows p T1 H s e lc lp).2 ∧
    (∀ j, wRel ((reAmortizeFutureRows p T1 H s e lc lp).1.getD j blankRow)
      ((reAmortizeFutureRows p T2 H s e lc lp).1.getD j blankRow)
      (ta.getD j blankRow) (tb.getD j blankRow)) ∧
    (∀ j, (reAmortizeFutureRows p T1 H s e lc lp).2.getD j false = true →
      duesEq ((reAmortizeFutureRows p T1 H s e lc lp).1.getD j blankRow)
        ((reAmortizeFutureRows p T2 H s e lc lp).1.getD j blankRow)) := by
  rw [reAmortizeFutureRows, reAmortizeFutureRows]
  by_cases hc : lc ≤ 0 ∨ lp ≤ eps
  · rw [if_pos hc, if_pos hc]
    exact ⟨rfl, hw, hflag⟩
  · rw [if_neg hc, if_neg hc]
    exact reAmortWalk_sim p lc lp ta tb hab _ _ _ _ _ _ hlen hs1 hs2 hw hflag

/-- Writing due and total-paid columns does not change the inline
unscheduled-row test (it reads only the period and period-end columns). -/
theorem isUnscheduledRowLS_write (r : Row) (pd iv td tp : ℚ) :
    isUnscheduledRowLS
      { r with principalDue := pd, interestDue := iv, totalDue := td
               totalPaid := tp }
      = isUnscheduledRowLS r := rfl

/-- The tail of the scheduled-row step with the computed write-back values
abstracted as parameters; `afterConsumeA` is exactly this applied to the
due-amount decision and the floored balances (see
`afterConsumeA_eq_afterTail`). -/
def afterTail (p : Params) (n : ℕ) (h0 : List Bool) (idx : ℕ)
    (periodEnd : ℤ) (pq : ℚ) (T : List Row) (uns : List ℕ) (upv : ℚ)
    (vpd viv vtp ri1 rp1 rf2 : ℚ) : AState :=
  let row1 := T.getD idx blankRow
  let row3 :=
    { row1 with principalDue := vpd, interestDue := viv
                totalDue := vpd + viv + row1.feesDue, totalPaid := vtp }
  let table2 := T.set idx row3
  let th :=
    if p.paymentFreq = Freq.monthly ∧ ¬ p.paymentFreq = Freq.singlePeriod ∧
        isUnscheduledRowLS row3 = false ∧ p.amortizeYN = true ∧ 0 < upv then
      let lastFuture := scanFutureEnd table2 (idx + 1) n
      let periodsLeft := p.termMonths - pq.floor
      if 0 < periodsLeft then
        reAmortizeFutureRows p table2 h0 (idx + 1) lastFuture periodsLeft rp1
      else (table2, h0)
    else (table2, h0)
  let rowF := th.1.getD idx blankRow
  let table4 := th.1.set idx
    { rowF with intBal := ri1, prinBal := rp1, totalBal := ri1 + rp1 + rf2 }
  { table := table4, hasRA := th.2.set idx false, rp := rp1, ri := ri1, rf := rf2
    unscheds := uns, lastEnd := periodEnd }

/-- `afterConsumeA` is `afterTail` applied to the due-amount decision and
the floored balances. -/
theorem afterConsumeA_eq_afterTail (p : Params) (n : ℕ) (M M' : ℕ → ℚ)
    (h0 : List Bool) (idx : ℕ) (periodEnd : ℤ) (pq : ℚ) (perMonthly : Bool)
    (dpr : ℚ) (totalDays : ℤ) (c : ConsumeRes) (d : DueRes)
    (hd : d = dueAmountsA p (c.table.getD idx blankRow) (h0.getD idx false)
      (M idx) (M' idx) c.rp
      (finalAccrualA p perMonthly dpr totalDays periodEnd c.subStart c.used
        c.accrued c.rp c.ri).1
      (finalAccrualA p perMonthly dpr totalDays periodEnd c.subStart c.used
        c.accrued c.rp c.ri).2.1
      c.unschedPaid) :
    afterConsumeA p n M M' h0 idx periodEnd pq perMonthly dpr totalDays c
    = afterTail p n h0 idx periodEnd pq c.table c.unscheds c.unschedPaid
        d.principalDue d.interestDue
        ((c.table.getD idx blankRow).principalPaid
          + (c.table.getD idx blankRow).interestPaid
          + (c.table.getD idx blankRow).feesPaid)
        (max 0 (d.ri - (c.table.getD idx blankRow).interestPaid))
        (max 0 (c.rp - (c.table.getD idx blankRow).principalPaid))
        (max 0 (c.rf + (c.table.getD idx blankRow).feesDue
          - (c.table.getD idx blankRow).feesPaid)) := by
  subst hd
  rfl

/-- `List.getD` at the written in-range index, for any element type. -/
theorem getDg_set_self {α : Type} (l : List α) (d : α) (u : ℕ) (a : α)
    (h : u < l.length) : (l.set u a).getD u d = a := by
  simp [List.getD_eq_getElem?_getD, List.getElem?_set_self h]

/-- Writing due and total-paid columns to a row does not change the
future-row scan. -/
theorem scanFutureEnd_write (t : List Row) (k : ℕ) (pd iv td tp : ℚ)
    (s l : ℕ) :
    scanFutureEnd (t.set k
      { t.getD k blankRow with principalDue := pd, interestDue := iv
                               totalDue := td, totalPaid := tp }) s l
      = scanFutureEnd t s l :=
  scanFutureEnd_set t k
    { t.getD k blankRow with principalDue := pd, interestDue := iv
                             totalDue := td, totalPaid := tp }
    rfl s l

/-- The common finish of the scheduled-row step (reset the processed flag,
write the floored balances): given related intermediate table/flag pairs it
produces equal flags, keeps the pointwise cell relation, and keeps the
flag-implies-equal-dues invariant. -/
theorem tailFinish_sim (ta tb : List Row) (idx : ℕ) (ri1 rp1 rf2 : ℚ)
    (th1 th2 : List Row × List Bool)
    (hfl : th2.2 = th1.2)
    (hlen : th1.1.length = th2.1.length)
    (hw : ∀ j, wRel (th1.1.getD j blankRow) (th2.1.getD j blankRow)
      (ta.getD j blankRow) (tb.getD j blankRow))
    (hflag : ∀ j, th1.2.getD j false = true →
      duesEq (th1.1.getD j blankRow) (th2.1.getD j blankRow)) :
    th2.2.set idx false = th1.2.set idx false ∧
    (∀ j, wRel
      ((th1.1.set idx { th1.1.getD idx blankRow with
        intBal := ri1, prinBal := rp1
        totalBal := ri1 + rp1 + rf2 }).getD j blankRow)
      ((th2.1.set idx { th2.1.getD idx blankRow with
        intBal := ri1, prinBal := rp1
        totalBal := ri1 + rp1 + rf2 }).getD j blankRow)
      (ta.getD j blankRow) (tb.getD j blankRow)) ∧
    (∀ j, (th1.2.set idx false).getD j false = true →
      duesEq
        ((th1.1.set idx { th1.1.getD idx blankRow with
          intBal := ri1, prinBal := rp1
          totalBal := ri1 + rp1 + rf2 }).getD j blankRow)
        ((th2.1.set idx { th2.1.getD idx blankRow with
          intBal := ri1, prinBal := rp1
          totalBal := ri1 + rp1 + rf2 }).getD j blankRow)) := by
  refine ⟨by rw [hfl], ?_, ?_⟩
  · apply wRel_set _ _ _ _ _ _ _ hlen hw
    intro hwu
    apply wRel_step hwu
    · exact Or.inr ⟨rfl, rfl⟩
    · exact Or.inr ⟨rfl, rfl⟩
    · exact Or.inr ⟨rfl, rfl⟩
    · exact Or.inr ⟨rfl, rfl⟩
    · exact Or.inl rfl
    · exact Or.inl rfl
    · exact Or.inl rfl
  · intro j hj
    rcases eq_or_ne j idx with rfl | hne
    · rcases lt_or_le j th1.2.length with hfl2 | hfo
      · rw [getDg_set_self _ _ _ _ hfl2] at hj
        exact absurd hj (by simp)
      · rw [List.set_eq_of_length_le hfo] at hj
        have hd := hflag j hj
        rcases lt_or_le j th1.1.length with hlt | hoob
        · rw [getD_set_self _ _ _ hlt, getD_set_self _ _ _ (hlen ▸ hlt)]
          exact hd
        · rw [set_oob _ _ _ hoob, set_oob _ _ _ (hlen ▸ hoob)]
          exact hd
    · rw [getDg_set_ne _ _ _ _ _ hne] at hj
      rw [getD_set_ne _ _ _ _ hne, getD_set_ne _ _ _ _ hne]
      exact hflag j hj

set_option maxHeartbeats 1000000 in
/-- The scheduled-row write-back stage, run on the two related tables with
equal written values, produces equal flags, keeps the pointwise cell
relation, and keeps the flag-implies-equal-dues invariant. -/
theorem afterTail_sim (p : Params) (n : ℕ) (ta tb : List Row)
    (hab : ∀ j, sameR (tb.getD j blankRow) (ta.getD j blankRow))
    (h0 : List Bool) (idx : ℕ) (pe : ℤ) (pq : ℚ)
    (T1 T2 : List Row) (uns : List ℕ) (upv vpd viv vtp ri1 rp1 rf2 : ℚ)
    (hlen : T1.length = T2.length)
    (hs1 : ∀ j, sameR (T1.getD j blankRow) (ta.getD j blankRow))
    (hs2 : ∀ j, sameR (T2.getD j blankRow) (tb.getD j blankRow))
    (hw : ∀ j, wRel (T1.getD j blankRow) (T2.getD j blankRow)
      (ta.getD j blankRow) (tb.getD j blankRow))
    (hflag : ∀ j, h0.getD j false = true →
      duesEq (T1.getD j blankRow) (T2.getD j blankRow)) :
    (afterTail p n h0 idx pe pq T2 uns upv vpd viv vtp ri1 rp1 rf2).hasRA
      = (afterTail p n h0 idx pe pq T1 uns upv vpd viv vtp ri1 rp1 rf2).hasRA ∧
    (∀ j, wRel
      ((afterTail p n h0 idx pe pq T1 uns upv vpd viv vtp ri1 rp1
        rf2).table.getD j blankRow)
      ((afterTail p n h0 idx pe pq T2 uns upv vpd viv vtp ri1 rp1
        rf2).table.getD j blankRow)
      (ta.getD j blankRow) (tb.getD j blankRow)) ∧
    (∀ j, (afterTail p n h0 idx pe pq T1 uns upv vpd viv vtp ri1 rp1
        rf2).hasRA.getD j false = true →
      duesEq
        ((afterTail p n h0 idx pe pq T1 uns upv vpd viv vtp ri1 rp1
          rf2).table.getD j blankRow)
        ((afterTail p n h0 idx pe pq T2 uns upv vpd viv vtp ri1 rp1
          rf2).table.getD j blankRow)) := by
  have eper : (T2.getD idx blankRow).period = (T1.getD idx blankRow).period :=
    ((sameR_period (hs2 idx)).trans (sameR_period (hab idx))).trans
      (sameR_period (hs1 idx)).symm
  have epe : (T2.getD idx blankRow).periodEnd = (T1.getD idx blankRow).periodEnd :=
    ((sameR_periodEnd (hs2 idx)).trans (sameR_periodEnd (hab idx))).trans
      (sameR_periodEnd (hs1 idx)).symm
  have efd : (T2.getD idx blankRow).feesDue = (T1.getD idx blankRow).feesDue :=
    ((sameR_feesDue (hs2 idx)).trans (sameR_feesDue (hab idx))).trans
      (sameR_feesDue (hs1 idx)).symm
  have escan : scanFutureEnd T2 (idx + 1) n = scanFutureEnd T1 (idx + 1) n :=
    scanFutureEnd_congr T2 T1 (fun i => by
      rw [sameR_period (hs2 i), sameR_period (hab i), sameR_period (hs1 i)])
      (idx + 1) n
  simp only [afterTail]
  rw [isUnscheduledRowLS_write (T2.getD idx blankRow) vpd viv
        (vpd + viv + (T2.getD idx blankRow).feesDue) vtp,
      isUnscheduledRowLS_write (T1.getD idx blankRow) vpd viv
        (vpd + viv + (T1.getD idx blankRow).feesDue) vtp,
      isUnscheduledRowLS_congr (T2.getD idx blankRow) (T1.getD idx blankRow)
        eper epe]
  rw [scanFutureEnd_write T2 idx vpd viv
        (vpd + viv + (T2.getD idx blankRow).feesDue) vtp,
      scanFutureEnd_write T1 idx vpd viv
        (vpd + viv + (T1.getD idx blankRow).feesDue) vtp,
      escan]
  by_cases hC : p.paymentFreq = Freq.monthly ∧
      ¬ p.paymentFreq = Freq.singlePeriod ∧
      isUnscheduledRowLS (T1.getD idx blankRow) = false ∧
      p.amortizeYN = true ∧ 0 < upv
  · simp only [if_pos hC]
    by_cases hD : 0 < p.termMonths - pq.floor
    · simp only [if_pos hD]
      obtain ⟨S1, S2, S3⟩ := reAmortizeFutureRows_sim p ta tb hab
        (T1.set idx
          { T1.getD idx blankRow with
            principalDue := vpd, interestDue := viv
            totalDue := vpd + viv + (T1.getD idx blankRow).feesDue
            totalPaid := vtp })
        (T2.set idx
          { T2.getD idx blankRow with
            principalDue := vpd, interestDue := viv
            totalDue := vpd + viv + (T2.getD idx blankRow).feesDue
            totalPaid := vtp })
        h0 (idx + 1) (scanFutureEnd T1 (idx + 1) n)
        (p.termMonths - pq.floor) rp1
        (by rw [List.length_set, List.length_set]; exact hlen)
        (fun j => sameR_trans
          (sameR_getD_set _ _ _ _
            ⟨rfl, rfl, rfl, rfl, rfl, rfl, rfl, rfl, rfl, rfl⟩)
          (hs1 j))
        (fun j => sameR_trans
          (sameR_getD_set _ _ _ _
            ⟨rfl, rfl, rfl, rfl, rfl, rfl, rfl, rfl, rfl, rfl⟩)
          (hs2 j))
        (by
          apply wRel_set _ _ _ _ _ _ _ hlen hw
          intro hwu
          apply wRel_step hwu
          · exact Or.inl (by rw [efd])
          · exact Or.inl rfl
          · exact Or.inl rfl
          · exact Or.inl rfl
          · exact Or.inr ⟨rfl, rfl⟩
          · exact Or.inr ⟨rfl, rfl⟩
          · exact Or.inr ⟨rfl, rfl⟩)
        (by
          intro j hj
          rcases eq_or_ne j idx with rfl | hne
          · rcases lt_or_le j T1.length with hlt | hoob
            · rw [getD_set_self _ _ _ hlt, getD_set_self _ _ _ (hlen ▸ hlt)]
              exact ⟨rfl, rfl⟩
            · rw [set_oob _ _ _ hoob, set_oob _ _ _ (hlen ▸ hoob)]
              exact hflag j hj
          · rw [getD_set_ne _ _ _ _ hne, getD_set_ne _ _ _ _ hne]
            exact hflag j hj)
      refine tailFinish_sim ta tb idx ri1 rp1 rf2 _ _ ?_ ?_ ?_ ?_
      · exact S1
      · rw [reAmortizeFutureRows_length, reAmortizeFutureRows_length,
            List.length_set, List.length_set]
        exact hlen
      · exact S2
      · exact S3
    · rw [if_neg hD, if_neg hD]
      refine tailFinish_sim ta tb idx ri1 rp1 rf2 _ _ ?_ ?_ ?_ ?_
      · rfl
      · rw [List.length_set, List.length_set]
        exact hlen
      · apply wRel_set _ _ _ _ _ _ _ hlen hw
        intro hwu
        apply wRel_step hwu
        · exact Or.inl (by rw [efd])
        · exact Or.inl rfl
        · exact Or.inl rfl
        · exact Or.inl rfl
        · exact Or.inr ⟨rfl, rfl⟩
        · exact Or.inr ⟨rfl, rfl⟩
        · exact Or.inr ⟨rfl, rfl⟩
      · intro j hj
        rcases eq_or_ne j idx with rfl | hne
        · rcases lt_or_le j T1.length with hlt | hoob
          · rw [getD_set_self _ _ _ hlt, getD_set_self _ _ _ (hlen ▸ hlt)]
            exact ⟨rfl, rfl⟩
          · rw [set_oob _ _ _ hoob, set_oob _ _ _ (hlen ▸ hoob)]
            exact hflag j hj
        · rw [getD_set_ne _ _ _ _ hne, getD_set_ne _ _ _ _ hne]
          exact hflag j hj
  · rw [if_neg hC, if_neg hC]
    refine tailFinish_sim ta tb idx ri1 rp1 rf2 _ _ ?_ ?_ ?_ ?_
    · rfl
    · rw [List.length_set, List.length_set]
      exact hlen
    · apply wRel_set _ _ _ _ _ _ _ hlen hw
      intro hwu
      apply wRel_step hwu
      · exact Or.inl (by rw [efd])
      · exact Or.inl rfl
      · exact Or.inl rfl
      · exact Or.inl rfl
      · exact Or.inr ⟨rfl, rfl⟩
      · exact Or.inr ⟨rfl, rfl⟩
      · exact Or.inr ⟨rfl, rfl⟩
    · intro j hj
      rcases eq_or_ne j idx with rfl | hne
      · rcases lt_or_le j T1.length with hlt | hoob
        · rw [getD_set_self _ _ _ hlt, getD_set_self _ _ _ (hlen ▸ hlt)]
          exact ⟨rfl, rfl⟩
        · rw [set_oob _ _ _ hoob, set_oob _ _ _ (hlen ▸ hoob)]
          exact hflag j hj
      · rw [getD_set_ne _ _ _ _ hne, getD_set_ne _ _ _ _ hne]
        exact hflag j hj

set_option maxHeartbeats 1000000 in
/-- Consume-then-write-back (one scheduled-row step with the period set-up
scalars abstracted), run on the two related tables: equal flags and
scalars, pointwise cell relation, flag-implies-equal-dues. -/
theorem processRowAux_sim (p : Params) (n : ℕ) (M M' : ℕ → ℚ)
    (ta tb : List Row)
    (hab : ∀ j, sameR (tb.getD j blankRow) (ta.getD j blankRow))
    (h0 : List Bool) (idx : ℕ) (pe : ℤ) (pq : ℚ) (pm : Bool) (dpr : ℚ)
    (td : ℤ) (ss : ℤ) (T1 T2 : List Row) (uns : List ℕ) (rp ri rf : ℚ)
    (hT : T1.length = T2.length)
    (hs1 : ∀ j, sameR (T1.getD j blankRow) (ta.getD j blankRow))
    (hs2 : ∀ j, sameR (T2.getD j blankRow) (tb.getD j blankRow))
    (hw : ∀ j, wRel (T1.getD j blankRow) (T2.getD j blankRow)
      (ta.getD j blankRow) (tb.getD j blankRow))
    (hflag : ∀ j, h0.getD j false = true →
      duesEq (T1.getD j blankRow) (T2.getD j blankRow)) :
    (afterConsumeA p n M M' h0 idx pe pq pm dpr td
      (consumeA p pm dpr td pe T2 uns ss 0 0 0 rp ri rf)).hasRA
      = (afterConsumeA p n M M' h0 idx pe pq pm dpr td
        (consumeA p pm dpr td pe T1 uns ss 0 0 0 rp ri rf)).hasRA ∧
    (afterConsumeA p n M M' h0 idx pe pq pm dpr td
      (consumeA p pm dpr td pe T2 uns ss 0 0 0 rp ri rf)).rp
      = (afterConsumeA p n M M' h0 idx pe pq pm dpr td
        (consumeA p pm dpr td pe T1 uns ss 0 0 0 rp ri rf)).rp ∧
    (afterConsumeA p n M M' h0 idx pe pq pm dpr td
      (consumeA p pm dpr td pe T2 uns ss 0 0 0 rp ri rf)).ri
      = (afterConsumeA p n M M' h0 idx pe pq pm dpr td
        (consumeA p pm dpr td pe T1 uns ss 0 0 0 rp ri rf)).ri ∧
    (afterConsumeA p n M M' h0 idx pe pq pm dpr td
      (consumeA p pm dpr td pe T2 uns ss 0 0 0 rp ri rf)).rf
      = (afterConsumeA p n M M' h0 idx pe pq pm dpr td
        (consumeA p pm dpr td pe T1 uns ss 0 0 0 rp ri rf)).rf ∧
    (afterConsumeA p n M M' h0 idx pe pq pm dpr td
      (consumeA p pm dpr td pe T2 uns ss 0 0 0 rp ri rf)).unscheds
      = (afterConsumeA p n M M' h0 idx pe pq pm dpr td
        (consumeA p pm dpr td pe T1 uns ss 0 0 0 rp ri rf)).unscheds ∧
    (afterConsumeA p n M M' h0 idx pe pq pm dpr td
      (consumeA p pm dpr td pe T2 uns ss 0 0 0 rp ri rf)).lastEnd
      = (afterConsumeA p n M M' h0 idx pe pq pm dpr td
        (consumeA p pm dpr td pe T1 uns ss 0 0 0 rp ri rf)).lastEnd ∧
    (∀ j, wRel
      ((afterConsumeA p n M M' h0 idx pe pq pm dpr td
        (consumeA p pm dpr td pe T1 uns ss 0 0 0 rp ri rf)).table.getD j blankRow)
      ((afterConsumeA p n M M' h0 idx pe pq pm dpr td
        (consumeA p pm dpr td pe T2 uns ss 0 0 0 rp ri rf)).table.getD j blankRow)
      (ta.getD j blankRow) (tb.getD j blankRow)) ∧
    (∀ j, (afterConsumeA p n M M' h0 idx pe pq pm dpr td
        (consumeA p pm dpr td pe T1 uns ss 0 0 0 rp ri rf)).hasRA.getD
          j false = true →
      duesEq
        ((afterConsumeA p n M M' h0 idx pe pq pm dpr td
          (consumeA p pm dpr td pe T1 uns ss 0 0 0 rp ri rf)).table.getD
            j blankRow)
        ((afterConsumeA p n M M' h0 idx pe pq pm dpr td
          (consumeA p pm dpr td pe T2 uns ss 0 0 0 rp ri rf)).table.getD
            j blankRow)) := by
  obtain ⟨C1, C2, C3, C4, C5, C6, C7, C8, CW⟩ := consumeA_sim p pm dpr td pe
    uns ta tb hab T1 T2 ss 0 0 0 rp ri rf hT hs1 hs2 hw
  have S1c : ∀ j, sameR
      ((consumeA p pm dpr td pe T1 uns ss 0 0 0 rp ri rf).table.getD j blankRow)
      (ta.getD j blankRow) :=
    consumeA_sameR p pm dpr td pe uns ta T1 ss 0 0 0 rp ri rf hs1
  have S2c : ∀ j, sameR
      ((consumeA p pm dpr td pe T2 uns ss 0 0 0 rp ri rf).table.getD j blankRow)
      (tb.getD j blankRow) :=
    consumeA_sameR p pm dpr td pe uns tb T2 ss 0 0 0 rp ri rf hs2
  have LEN : (consumeA p pm dpr td pe T1 uns ss 0 0 0 rp ri rf).table.length
      = (consumeA p pm dpr td pe T2 uns ss 0 0 0 rp ri rf).table.length := by
    rw [consumeA_length, consumeA_length]
    exact hT
  have FLAGc : ∀ j, h0.getD j false = true →
      duesEq
        ((consumeA p pm dpr td pe T1 uns ss 0 0 0 rp ri rf).table.getD j blankRow)
        ((consumeA p pm dpr td pe T2 uns ss 0 0 0 rp ri rf).table.getD j blankRow) :=
    fun j hj =>
      ⟨(consumeA_dues_frame p pm dpr td pe uns T1 ss 0 0 0 rp ri rf j).2.1.trans
        ((hflag j hj).1.trans
          (consumeA_dues_frame p pm dpr td pe uns T2 ss 0 0 0 rp ri rf j).2.1.symm),
       (consumeA_dues_frame p pm dpr td pe uns T1 ss 0 0 0 rp ri rf j).1.trans
        ((hflag j hj).2.trans
          (consumeA_dues_frame p pm dpr td pe uns T2 ss 0 0 0 rp ri rf j).1.symm)⟩
  have eperC : ((consumeA p pm dpr td pe T2 uns ss 0 0 0 rp ri rf).table.getD
      idx blankRow).period
      = ((consumeA p pm dpr td pe T1 uns ss 0 0 0 rp ri rf).table.getD
        idx blankRow).period :=
    ((sameR_period (S2c idx)).trans (sameR_period (hab idx))).trans
      (sameR_period (S1c idx)).symm
  have eppC : ((consumeA p pm dpr td pe T2 uns ss 0 0 0 rp ri rf).table.getD
      idx blankRow).principalPaid
      = ((consumeA p pm dpr td pe T1 uns ss 0 0 0 rp ri rf).table.getD
        idx blankRow).principalPaid :=
    ((sameR_principalPaid (S2c idx)).trans (sameR_principalPaid (hab idx))).trans
      (sameR_principalPaid (S1c idx)).symm
  have eipC : ((consumeA p pm dpr td pe T2 uns ss 0 0 0 rp ri rf).table.getD
      idx blankRow).interestPaid
      = ((consumeA p pm dpr td pe T1 uns ss 0 0 0 rp ri rf).table.getD
        idx blankRow).interestPaid :=
    ((sameR_interestPaid (S2c idx)).trans (sameR_interestPaid (hab idx))).trans
      (sameR_interestPaid (S1c idx)).symm
  have efdC : ((consumeA p pm dpr td pe T2 uns ss 0 0 0 rp ri rf).table.getD
      idx blankRow).feesDue
      = ((consumeA p pm dpr td pe T1 uns ss 0 0 0 rp ri rf).table.getD
        idx blankRow).feesDue :=
    ((sameR_feesDue (S2c idx)).trans (sameR_feesDue (hab idx))).trans
      (sameR_feesDue (S1c idx)).symm
  have efpC : ((consumeA p pm dpr td pe T2 uns ss 0 0 0 rp ri rf).table.getD
      idx blankRow).feesPaid
      = ((consumeA p pm dpr td pe T1 uns ss 0 0 0 rp ri rf).table.getD
        idx blankRow).feesPaid :=
    ((sameR_feesPaid (S2c idx)).trans (sameR_feesPaid (hab idx))).trans
      (sameR_feesPaid (S1c idx)).symm
  rw [afterConsumeA_eq_afterTail p n M M' h0 idx pe pq pm dpr td _ _ rfl,
      afterConsumeA_eq_afterTail p n M M' h0 idx pe pq pm dpr td _ _ rfl]
  rw [C1, C2, C3, C4, C5, C6, C7, C8]
  rw [dueAmountsA_congr p
      ((consumeA p pm dpr td pe T2 uns ss 0 0 0 rp ri rf).table.getD idx blankRow)
      ((consumeA p pm dpr td pe T1 uns ss 0 0 0 rp ri rf).table.getD idx blankRow)
      (h0.getD idx false) (M idx) (M' idx) _ _ _ _ eperC
      (fun hf => ⟨(FLAGc idx hf).1.symm, (FLAGc idx hf).2.symm⟩)]
  rw [eppC, eipC, efdC, efpC]
  refine ⟨?_, rfl, rfl, rfl, rfl, rfl, ?_, ?_⟩
  · exact (afterTail_sim p n ta tb hab h0 idx pe pq _ _ _ _ _ _ _ _ _ _
      LEN S1c S2c CW FLAGc).1
  · exact (afterTail_sim p n ta tb hab h0 idx pe pq _ _ _ _ _ _ _ _ _ _
      LEN S1c S2c CW FLAGc).2.1
  · exact (afterTail_sim p n ta tb hab h0 idx pe pq _ _ _ _ _ _ _ _ _ _
      LEN S1c S2c CW FLAGc).2.2

/-- One full scheduled-row step, run from related states: the flag lists
and scalars stay equal, and the tables keep the cell relation and the
flag-implies-equal-dues invariant. -/
theorem processRowA_sim (p : Params) (n : ℕ) (M M' : ℕ → ℚ)
    (ta tb : List Row)
    (hab : ∀ j, sameR (tb.getD j blankRow) (ta.getD j blankRow))
    (st1 st2 : AState) (idx : ℕ)
    (hT : st1.table.length = st2.table.length)
    (hs1 : ∀ j, sameR (st1.table.getD j blankRow) (ta.getD j blankRow))
    (hs2 : ∀ j, sameR (st2.table.getD j blankRow) (tb.getD j blankRow))
    (hw : ∀ j, wRel (st1.table.getD j blankRow) (st2.table.getD j blankRow)
      (ta.getD j blankRow) (tb.getD j blankRow))
    (hflag : ∀ j, st1.hasRA.getD j false = true →
      duesEq (st1.table.getD j blankRow) (st2.table.getD j blankRow))
    (hH : st2.hasRA = st1.hasRA) (hR : st2.rp = st1.rp) (hI : st2.ri = st1.ri)
    (hF : st2.rf = st1.rf) (hU : st2.unscheds = st1.unscheds)
    (hL : st2.lastEnd = st1.lastEnd) :
    (processRowA p n M M' st2 idx).hasRA = (processRowA p n M M' st1 idx).hasRA ∧
    (processRowA p n M M' st2 idx).rp = (processRowA p n M M' st1 idx).rp ∧
    (processRowA p n M M' st2 idx).ri = (processRowA p n M M' st1 idx).ri ∧
    (processRowA p n M M' st2 idx).rf = (processRowA p n M M' st1 idx).rf ∧
    (processRowA p n M M' st2 idx).unscheds
      = (processRowA p n M M' st1 idx).unscheds ∧
    (processRowA p n M M' st2 idx).lastEnd
      = (processRowA p n M M' st1 idx).lastEnd ∧
    (∀ j, wRel ((processRowA p n M M' st1 idx).table.getD j blankRow)
      ((processRowA p n M M' st2 idx).table.getD j blankRow)
      (ta.getD j blankRow) (tb.getD j blankRow)) ∧
    (∀ j, (processRowA p n M M' st1 idx).hasRA.getD j false = true →
      duesEq ((processRowA p n M M' st1 idx).table.getD j blankRow)
        ((processRowA p n M M' st2 idx).table.getD j blankRow)) := by
  have eper : (st2.table.getD idx blankRow).period
      = (st1.table.getD idx blankRow).period :=
    ((sameR_period (hs2 idx)).trans (sameR_period (hab idx))).trans
      (sameR_period (hs1 idx)).symm
  have epend : (st2.table.getD idx blankRow).periodEnd
      = (st1.table.getD idx blankRow).periodEnd :=
    ((sameR_periodEnd (hs2 idx)).trans (sameR_periodEnd (hab idx))).trans
      (sameR_periodEnd (hs1 idx)).symm
  simp only [processRowA]
  rw [hH, hR, hI, hF, hU, hL, eper, epend]
  exact processRowAux_sim p n M M' ta tb hab st1.hasRA idx _ _ _ _ _ _
    st1.table st2.table st1.unscheds _ _ _ hT hs1 hs2 hw hflag

/-- The chronological pass, run from related initial states, keeps the
pointwise cell relation between the two in-progress tables. -/
theorem recalcPassA_sim (p : Params) (n : ℕ) (M M' : ℕ → ℚ) (ta tb : List Row)
    (hab : ∀ j, sameR (tb.getD j blankRow) (ta.getD j blankRow)) :
    ∀ (L : List ℕ) (st1 st2 : AState),
      st1.table.length = st2.table.length →
      (∀ j, sameR (st1.table.getD j blankRow) (ta.getD j blankRow)) →
      (∀ j, sameR (st2.table.getD j blankRow) (tb.getD j blankRow)) →
      (∀ j, wRel (st1.table.getD j blankRow) (st2.table.getD j blankRow)
        (ta.getD j blankRow) (tb.getD j blankRow)) →
      (∀ j, st1.hasRA.getD j false = true →
        duesEq (st1.table.getD j blankRow) (st2.table.getD j blankRow)) →
      st2.hasRA = st1.hasRA → st2.rp = st1.rp → st2.ri = st1.ri →
      st2.rf = st1.rf → st2.unscheds = st1.unscheds →
      st2.lastEnd = st1.lastEnd →
      ∀ j, wRel ((recalcPassA p n M M' st1 L).table.getD j blankRow)
        ((recalcPassA p n M M' st2 L).table.getD j blankRow)
        (ta.getD j blankRow) (tb.getD j blankRow) := by
  intro L
  induction L with
  | nil => intro st1 st2 _ _ _ hw _ _ _ _ _ _ _; exact hw
  | cons i rest ih =>
    intro st1 st2 hT hs1 hs2 hw hflag hH hR hI hF hU hL
    obtain ⟨PH, PR, PI, PF, PU, PL, PW, PFl⟩ :=
      processRowA_sim p n M M' ta tb hab st1 st2 i hT hs1 hs2 hw hflag
        hH hR hI hF hU hL
    rw [recalcPassA, recalcPassA]
    exact ih (processRowA p n M M' st1 i) (processRowA p n M M' st2 i)
      (by rw [processRowA_length, processRowA_length]; exact hT)
      (processRowA_sameR p n M M' st1 i ta hs1)
      (processRowA_sameR p n M M' st2 i tb hs2)
      PW PFl PH PR PI PF PU PL

/-- A cell that is already final in the first run is final in the second. -/
theorem fieldOk_out {x y a b : ℚ} (h : fieldOk x y a b) (hx : x = b) : y = b := by
  rcases h with he | ⟨_, h2⟩
  · exact he.symm.trans hx
  · exact h2

/-- Row extensionality over the seventeen columns. -/
theorem row_eq (a b : Row)
    (h1 : a.period = b.period) (h2 : a.periodEnd = b.periodEnd)
    (h3 : a.dueDate = b.dueDate) (h4 : a.days = b.days)
    (h5 : a.paidOn = b.paidOn) (h6 : a.totalDue = b.totalDue)
    (h7 : a.totalPaid = b.totalPaid) (h8 : a.principalDue = b.principalDue)
    (h9 : a.principalPaid = b.principalPaid)
    (h10 : a.interestDue = b.interestDue)
    (h11 : a.interestPaid = b.interestPaid) (h12 : a.feesDue = b.feesDue)
    (h13 : a.feesPaid = b.feesPaid) (h14 : a.intBal = b.intBal)
    (h15 : a.prinBal = b.prinBal) (h16 : a.totalBal = b.totalBal)
    (h17 : a.notes = b.notes) : a = b := by
  cases a
  cases b
  simp only [Row.mk.injEq]
  exact ⟨h1, h2, h3, h4, h5, h6, h7, h8, h9, h10, h11, h12, h13, h14, h15,
         h16, h17⟩

/-- List extensionality through `getD`. -/
theorem list_ext_getD (t1 t2 : List Row) (hl : t1.length = t2.length)
    (h : ∀ j, t1.getD j blankRow = t2.getD j blankRow) : t1 = t2 := by
  apply List.ext_getElem hl
  intro i h1 h2
  have hx := h i
  rw [List.getD_eq_getElem?_getD, List.getD_eq_getElem?_getD,
      List.getElem?_eq_getElem h1, List.getElem?_eq_getElem h2] at hx
  exact hx

set_option maxHeartbeats 1000000 in
/-- C6: revision A's full balance recalculation is idempotent — running
`recalcAll` twice with no changes to the stored paid fields in between
produces exactly the same row table as running it once.  The pass reads
only stored columns and scalars that it recomputes from scratch; the one
exception, the due columns of a flagged (re-amortized) row, is written in
the same pass before being read, identically in both runs. -/
theorem recalcAll_idempotent (p : Params) (t : List Row) :
    recalcAllA p (recalcAllA p t) = recalcAllA p t := by
  by_cases h0 : usedLen t = 0
  · have ht : recalcAllA p t = t := by rw [recalcAllA, if_pos h0]
    rw [ht, ht]
  · have hlen : (recalcAllA p t).length = t.length := recalcAllA_length p t
    have hsR : ∀ j, sameR ((recalcAllA p t).getD j blankRow) (t.getD j blankRow) :=
      recalcAllA_sameR p t
    have hUL : usedLen (recalcAllA p t) = usedLen t :=
      usedLen_congr _ _ hlen (fun j => by rw [sameR_period (hsR j)])
    have hSR : separateRows (recalcAllA p t) (usedLen t)
        = separateRows t (usedLen t) :=
      separateRows_congr _ _ _
        (fun i => ⟨isSchedRow_congr _ _ (sameR_period (hsR i)) (sameR_periodEnd (hsR i)),
          isUnschedRow_congr _ _ (sameR_period (hsR i)) (sameR_paidOn (hsR i)),
          by rw [unschedKey, unschedKey, sameR_paidOn (hsR i)]⟩)
        (fun i _ => by rw [schedKey, schedKey, sameR_periodEnd (hsR i)])
    have hIM : ipmtMapOf p (recalcAllA p t) (usedLen t)
        = ipmtMapOf p t (usedLen t) :=
      funext (fun r => ipmtMapOf_congr p _ t _ r (sameR_period (hsR r)))
    have hPM : ppmtMapOf p (recalcAllA p t) (usedLen t)
        = ppmtMapOf p t (usedLen t) :=
      funext (fun r => ppmtMapOf_congr p _ t _ r (sameR_period (hsR r)))
    have hrun : recalcAllA p t
        = (recalcPassA p (usedLen t) (ipmtMapOf p t (usedLen t))
            (ppmtMapOf p t (usedLen t))
            { table := t, hasRA := List.replicate (usedLen t) false
              rp := p.principal, ri := 0, rf := 0
              unscheds := (separateRows t (usedLen t)).2
              lastEnd := p.closingDate }
            (separateRows t (usedLen t)).1).table := by
      rw [recalcAllA, if_neg h0]
    have SIM := recalcPassA_sim p (usedLen t) (ipmtMapOf p t (usedLen t))
      (ppmtMapOf p t (usedLen t)) t (recalcAllA p t) hsR
      (separateRows t (usedLen t)).1
      { table := t, hasRA := List.replicate (usedLen t) false
        rp := p.principal, ri := 0, rf := 0
        unscheds := (separateRows t (usedLen t)).2, lastEnd := p.closingDate }
      { table := recalcAllA p t, hasRA := List.replicate (usedLen t) false
        rp := p.principal, ri := 0, rf := 0
        unscheds := (separateRows t (usedLen t)).2, lastEnd := p.closingDate }
      hlen.symm (fun _ => sameR_refl _) (fun _ => sameR_refl _)
      (fun j => wRel_init _ _)
      (fun j hj =>
        (Bool.false_ne_true
          (((replicate_getD_false (usedLen t) j)).symm.trans hj)).elim)
      rfl rfl rfl rfl rfl rfl
    have S2 := recalcPassA_sameR p (usedLen t) (ipmtMapOf p t (usedLen t))
      (ppmtMapOf p t (usedLen t)) (recalcAllA p t)
      (separateRows t (usedLen t)).1
      { table := recalcAllA p t, hasRA := List.replicate (usedLen t) false
        rp := p.principal, ri := 0, rf := 0
        unscheds := (separateRows t (usedLen t)).2, lastEnd := p.closingDate }
      (fun _ => sameR_refl _)
    rw [recalcAllA, hUL, if_neg h0, hSR, hIM, hPM]
    apply list_ext_getD
    · rw [recalcPassA_length]
    · intro j
      have hT1 : (recalcPassA p (usedLen t) (ipmtMapOf p t (usedLen t))
          (ppmtMapOf p t (usedLen t))
          { table := t, hasRA := List.replicate (usedLen t) false
            rp := p.principal, ri := 0, rf := 0
            unscheds := (separateRows t (usedLen t)).2
            lastEnd := p.closingDate }
          (separateRows t (usedLen t)).1).table.getD j blankRow
          = (recalcAllA p t).getD j blankRow := by
        rw [← hrun]
      have W := SIM j
      have SR := S2 j
      refine row_eq _ _ (sameR_period SR) (sameR_periodEnd SR) SR.2.2.1
        SR.2.2.2.1 (sameR_paidOn SR)
        (fieldOk_out W.1 (congrArg Row.totalDue hT1))
        (fieldOk_out W.2.1 (congrArg Row.totalPaid hT1))
        (fieldOk_out W.2.2.1 (congrArg Row.principalDue hT1))
        (sameR_principalPaid SR)
        (fieldOk_out W.2.2.2.1 (congrArg Row.interestDue hT1))
        (sameR_interestPaid SR) (sameR_feesDue SR) (sameR_feesPaid SR)
        (fieldOk_out W.2.2.2.2.1 (congrArg Row.intBal hT1))
        (fieldOk_out W.2.2.2.2.2.1 (congrArg Row.prinBal hT1))
        (fieldOk_out W.2.2.2.2.2.2 (congrArg Row.totalBal hT1))
        SR.2.2.2.2.2.2.2.2.2

end LoanLib
